import Mathlib

/-!
# libE57Format: `ImageFileImpl` (src/ImageFileImpl.cpp)

A shallow embedding of `e57::ImageFileImpl`: the name grammar, the path
grammar, the namespace registry, the file header check, the space allocator,
the open/close/cancel lifecycle and the bit-width helper, with the theorems
that relate them to the written specification.

Conventions of the embedding.

* `ustring` (a `std::string` holding UTF-8) is a list of byte values.
* A `size_t` index is a natural number; `std::string::npos` is `none`.
* A function that can throw an `E57Exception` returns `Except ErrorCode _`.
* A reference parameter that the C++ code writes to is returned as a result;
  where the code can leave it untouched, its incoming value is an argument.
* A member function that assigns to member variables returns the container
  after the call next to its outcome; one that works on the file resource
  also returns the list of operations it performed on it.
* Constants and collaborators declared in other files are parameters.
-/

namespace e57

/-! ## Data model -/

/-- A `ustring`: the bytes of a `std::string`, each a value in `0 .. 255`. -/
abbrev ustring := List Nat

/-- The bytes of an ASCII text, used to write names and paths legibly. -/
def ascii (s : String) : ustring := s.toList.map Char.toNat

/-- The error codes thrown in ImageFileImpl.cpp. -/
inductive ErrorCode
  | E57_ERROR_BAD_API_ARGUMENT
  | E57_ERROR_BAD_FILE_SIGNATURE
  | E57_ERROR_UNKNOWN_FILE_VERSION
  | E57_ERROR_BAD_FILE_LENGTH
  | E57_ERROR_INTERNAL
  | E57_ERROR_IMAGEFILE_NOT_OPEN
  | E57_ERROR_DUPLICATE_NAMESPACE_PREFIX
  | E57_ERROR_DUPLICATE_NAMESPACE_URI
  | E57_ERROR_BAD_PATH_NAME
  deriving DecidableEq, Repr

open ErrorCode

deriving instance DecidableEq for Except

/-- One entry of `nameSpaces_`: a prefix bound to a URI. -/
structure NameSpace where
  pfx : ustring
  uri : ustring
  deriving DecidableEq, Repr

/-- What `ImageFileImpl` keeps of the checksummed file behind `file_`. -/
structure CheckedFile where
  fileName : ustring
  logicalPosition : Nat
  logicalLength : Nat
  deriving DecidableEq, Repr

/-- The record `E57FileHeader`, 48 bytes on disk: the fields that this file
reads, writes and prints. The signature is a `char[8]`, the two versions are
32-bit and the remaining fields 64-bit unsigned integers. -/
structure E57FileHeader where
  fileSignature : ustring
  majorVersion : Nat
  minorVersion : Nat
  filePhysicalLength : Nat
  xmlPhysicalOffset : Nat
  xmlLogicalLength : Nat
  pageSize : Nat
  deriving DecidableEq, Repr

/-- An operation that `ImageFileImpl` performs on the file resource behind
`file_`; `delete` is the destruction of the `CheckedFile` object. -/
inductive FileOp
  | seek (logicalPosition : Nat)
  | write (bytes : ustring)
  | writeHeader (header : E57FileHeader)
  | extend (logicalLength : Nat)
  | close
  | unlink
  | delete
  deriving DecidableEq, Repr

/-- The member variables of `ImageFileImpl`; `file_ = none` is `nullptr`. The
root node belongs to the node tree, so `root_` holds only a handle to it
(`none` is the null pointer). -/
structure ImageFileImpl where
  fileName_ : ustring
  isWriter_ : Bool
  writerCount_ : Int
  readerCount_ : Int
  checksumPolicy : Int
  file_ : Option CheckedFile
  xmlLogicalOffset_ : Nat
  xmlLogicalLength_ : Nat
  unusedLogicalStart_ : Nat
  nameSpaces_ : List NameSpace
  root_ : Option Nat
  deriving DecidableEq, Repr

/-- A container open on a file, holding the given namespace bindings. -/
def openImageFile (nameSpaces : List NameSpace) : ImageFileImpl :=
  { fileName_ := ascii "scan.e57", isWriter_ := false, writerCount_ := 0, readerCount_ := 0,
    checksumPolicy := 100,
    file_ := some { fileName := ascii "scan.e57", logicalPosition := 0, logicalLength := 48 },
    xmlLogicalOffset_ := 0, xmlLogicalLength_ := 0, unusedLogicalStart_ := 48,
    nameSpaces_ := nameSpaces, root_ := some 0 }

/-! ## `std::string` operations used by the code -/

/-- Index of the first `c` in `s`, if there is one. -/
def indexIn (c : Nat) : ustring → Option Nat
  | [] => none
  | x :: xs => if x = c then some 0 else (indexIn c xs).map (· + 1)

/-- `s.find_first_of(c, pos)`: the first index `≥ pos` holding `c`; `none` is `npos`. -/
def find_first_of (s : ustring) (c : Nat) (pos : Nat) : Option Nat :=
  (indexIn c (s.drop pos)).map (· + pos)

/-- `s.substr(pos, n)`: at most `n` bytes from index `pos`; a count of `npos`
(or one that large, as `npos - pos` is) is `none` and takes the rest of `s`. -/
def substr (s : ustring) (pos : Nat) (n : Option Nat) : ustring :=
  match n with
  | none => s.drop pos
  | some k => (s.drop pos).take k

/-! ## Open check and namespace lookup -/

/-- `ImageFileImpl::isOpen`. -/
def isOpen (imf : ImageFileImpl) : Bool := imf.file_.isSome

/-- `ImageFileImpl::checkImageFileOpen`. -/
def checkImageFileOpen (imf : ImageFileImpl) : Except ErrorCode Unit :=
  if !isOpen imf then .error E57_ERROR_IMAGEFILE_NOT_OPEN else .ok ()

/-- `ImageFileImpl::extensionsLookupPrefix`: the linear search for a prefix.
Returns the `bool` result and the value of the reference parameter `uri`. -/
def extensionsLookupPrefix (imf : ImageFileImpl) (pfx uri : ustring) :
    Except ErrorCode (Bool × ustring) :=
  match checkImageFileOpen imf with
  | .error e => .error e
  | .ok _ =>
    match imf.nameSpaces_.find? (fun ns => ns.pfx == pfx) with
    | some ns => .ok (true, ns.uri)
    | none => .ok (false, uri)

/-! ## Element names -/

/-- `ImageFileImpl::elementNameParse`. The arguments `pfx` and `localPart` are
the incoming values of the two reference parameters, which the numeric branch
returns from without assigning. -/
def elementNameParse (elementName pfx localPart : ustring) (allowNumber : Bool) :
    Except ErrorCode (ustring × ustring) :=
  let len := elementName.length
  if len = 0 then .error E57_ERROR_BAD_PATH_NAME else
  let c := elementName.getD 0 0
  if allowNumber && '0'.toNat ≤ c && c ≤ '9'.toNat then
    if (elementName.drop 1).any (fun c => !('0'.toNat ≤ c && c ≤ '9'.toNat)) then
      .error E57_ERROR_BAD_PATH_NAME
    else .ok (pfx, localPart)
  else
  if c < 128 && !(('a'.toNat ≤ c && c ≤ 'z'.toNat) || ('A'.toNat ≤ c && c ≤ 'Z'.toNat)
      || c == '_'.toNat) then .error E57_ERROR_BAD_PATH_NAME else
  if (elementName.drop 1).any (fun c =>
      c < 128 && !(('a'.toNat ≤ c && c ≤ 'z'.toNat) || ('A'.toNat ≤ c && c ≤ 'Z'.toNat)
        || c == '_'.toNat || c == ':'.toNat || ('0'.toNat ≤ c && c ≤ '9'.toNat)
        || c == '-'.toNat || c == '.'.toNat)) then .error E57_ERROR_BAD_PATH_NAME else
  match find_first_of elementName ':'.toNat 0 with
  | some found =>
    if (find_first_of elementName ':'.toNat (found + 1)).isSome then
      .error E57_ERROR_BAD_PATH_NAME
    else
      let pfx := substr elementName 0 (some found)
      let localPart := substr elementName (found + 1) none
      if pfx.length = 0 || localPart.length = 0 then .error E57_ERROR_BAD_PATH_NAME
      else .ok (pfx, localPart)
  | none => .ok ([], elementName)

/-- `ImageFileImpl::checkElementNameLegal`. The registry is consulted only for
a non-empty prefix (the `&&` short-circuits). -/
def checkElementNameLegal (imf : ImageFileImpl) (elementName : ustring) (allowNumber : Bool) :
    Except ErrorCode Unit :=
  match elementNameParse elementName [] [] allowNumber with
  | .error e => .error e
  | .ok (pfx, _) =>
    if pfx.length > 0 then
      match extensionsLookupPrefix imf pfx [] with
      | .error e => .error e
      | .ok (found, _) => if !found then .error E57_ERROR_BAD_PATH_NAME else .ok ()
    else .ok ()

/-- `ImageFileImpl::isElementNameExtended`. The call to `elementNameParse`
omits `allowNumber`; its default is declared in ImageFileImpl.h, so it is the
parameter `allowNumberDefault` here. The `try`/`catch` is the `match`. -/
def isElementNameExtended (_imf : ImageFileImpl) (allowNumberDefault : Bool)
    (elementName : ustring) : Except ErrorCode Bool :=
  if (find_first_of elementName '/'.toNat 0).isSome then .ok false else
  match elementNameParse elementName [] [] allowNumberDefault with
  | .error _ => .ok false
  | .ok (pfx, _) => .ok (decide (pfx.length > 0))

/-- `ImageFileImpl::isElementNameLegal`: every exception of the body is caught
and turned into `false`. -/
def isElementNameLegal (imf : ImageFileImpl) (elementName : ustring) (allowNumber : Bool) :
    Bool :=
  match checkImageFileOpen imf with
  | .error _ => false
  | .ok _ =>
    match checkElementNameLegal imf elementName allowNumber with
    | .error _ => false
    | .ok _ => true

/-! ## Path names -/

/-- The `while` loop of `ImageFileImpl::pathNameParse`, from index `start` with
the fields collected so far. Each round moves `start` past a separator, so the
loop ends within `pathName.size()` rounds; the first argument bounds the rounds
and `E57_ERROR_INTERNAL` marks a bound that was too small (it never is, see
`pathNameParse`). -/
def pathNameParseLoop (imf : ImageFileImpl) (allowNumber : Bool) (pathName : ustring) :
    Nat → Nat → List ustring → Except ErrorCode (List ustring)
  | 0, _, _ => .error E57_ERROR_INTERNAL
  | fuel + 1, start, fields =>
    if start < pathName.length then
      let slash := find_first_of pathName '/'.toNat start
      let elementName := substr pathName start (slash.map (· - start))
      if !isElementNameLegal imf elementName allowNumber then .error E57_ERROR_BAD_PATH_NAME
      else
        let fields := fields ++ [elementName]
        match slash with
        | none => .ok fields
        | some slash =>
          if slash = pathName.length - 1 then .ok (fields ++ [[]])
          else pathNameParseLoop imf allowNumber pathName fuel (slash + 1) fields
    else .ok fields

/-- `ImageFileImpl::pathNameParse`, returning `(isRelative, fields)`. The call
to `isElementNameLegal` omits `allowNumber`; the default declared in
ImageFileImpl.h is the parameter `allowNumberDefault`. `pathName[0]` of an
empty string is the terminating NUL. -/
def pathNameParse (imf : ImageFileImpl) (allowNumberDefault : Bool) (pathName : ustring) :
    Except ErrorCode (Bool × List ustring) :=
  let isAbsolute := pathName.getD 0 0 == '/'.toNat
  let start := if isAbsolute then 1 else 0
  let isRelative := !isAbsolute
  match pathNameParseLoop imf allowNumberDefault pathName (pathName.length + 1) start [] with
  | .error e => .error e
  | .ok fields =>
    if isRelative && fields.isEmpty then .error E57_ERROR_BAD_PATH_NAME
    else .ok (isRelative, fields)

/-- The `for` loop of `ImageFileImpl::pathNameUnparse`. The counter `i` is an
`unsigned`, so `++i` is taken modulo `2^32`; `none` is a loop that has not
ended within the given number of rounds. -/
def pathNameUnparseLoop (fields : List ustring) : Nat → Nat → ustring → Option ustring
  | 0, _, _ => none
  | fuel + 1, i, path =>
    if i < fields.length then
      let path := path ++ fields.getD i []
      let path := if i < fields.length - 1 then path ++ ['/'.toNat] else path
      pathNameUnparseLoop fields fuel ((i + 1) % 4294967296) path
    else some path

/-- `ImageFileImpl::pathNameUnparse`. A loop that ends does so after
`fields.size()` rounds, so one more round than that is allowed. -/
def pathNameUnparse (isRelative : Bool) (fields : List ustring) : Option ustring :=
  let path : ustring := if !isRelative then ['/'.toNat] else []
  pathNameUnparseLoop fields (fields.length + 1) 0 path

/-! ## Bit width -/

/-- The least `int64_t`. -/
def INT64_MIN : Int := -9223372036854775808

/-- The greatest `int64_t`. -/
def INT64_MAX : Int := 9223372036854775807

/-- Result of an `int64_t` operation: the exact value wrapped to 64 bits, two's complement. -/
def wrapInt64 (x : Int) : Int :=
  (x + 9223372036854775808) % 18446744073709551616 - 9223372036854775808

/-- Conversion of an `int64_t` to `uint64_t`. -/
def toUInt64 (x : Int) : Nat := (x % 18446744073709551616).toNat

/-- One `if (stateCountMinus1 & mask) { stateCountMinus1 >>= shift; log2 += shift; }`
on the pair `(stateCountMinus1, log2)`. -/
def bitsStep (mask shift : Nat) (p : Nat × Nat) : Nat × Nat :=
  if p.1 &&& mask ≠ 0 then (p.1 >>> shift, p.2 + shift) else p

/-- `ImageFileImpl::bitsNeeded`. The subtraction is done in `int64_t` and the
result converted to `uint64_t`; `unsigned log2` never exceeds 64. -/
def bitsNeeded (minimum maximum : Int) : Nat :=
  let stateCountMinus1 : Nat := toUInt64 (wrapInt64 (maximum - minimum))
  let p := (stateCountMinus1, 0)
  let p := bitsStep 0xFFFFFFFF00000000 32 p
  let p := bitsStep 0xFFFF0000 16 p
  let p := bitsStep 0xFF00 8 p
  let p := bitsStep 0xF0 4 p
  let p := bitsStep 0xC 2 p
  let p := bitsStep 0x2 1 p
  if p.1 &&& 1 ≠ 0 then p.2 + 1 else p.2

/-! ## Spec-side vocabulary -/

/-- An ASCII letter, an underscore, or a byte of a multi-byte character. -/
def IsNameStartByte (c : Nat) : Prop :=
  ('a'.toNat ≤ c ∧ c ≤ 'z'.toNat) ∨ ('A'.toNat ≤ c ∧ c ≤ 'Z'.toNat) ∨ c = '_'.toNat ∨ 128 ≤ c

/-- An ASCII letter, digit, underscore, colon, hyphen or period, or a byte of a
multi-byte character. -/
def IsNameByte (c : Nat) : Prop :=
  ('a'.toNat ≤ c ∧ c ≤ 'z'.toNat) ∨ ('A'.toNat ≤ c ∧ c ≤ 'Z'.toNat) ∨ ('0'.toNat ≤ c ∧ c ≤ '9'.toNat)
    ∨ c = '_'.toNat ∨ c = ':'.toNat ∨ c = '-'.toNat ∨ c = '.'.toNat ∨ 128 ≤ c

/-- An ASCII digit. -/
def IsDigitByte (c : Nat) : Prop := '0'.toNat ≤ c ∧ c ≤ '9'.toNat

instance : DecidablePred IsNameStartByte := fun c => by unfold IsNameStartByte; infer_instance

instance : DecidablePred IsNameByte := fun c => by unfold IsNameByte; infer_instance

instance : DecidablePred IsDigitByte := fun c => by unfold IsDigitByte; infer_instance

/-- The two shapes of a successful split at the colon. -/
def ColonSplit (name : ustring) (r : ustring × ustring) : Prop :=
  (':'.toNat ∉ name ∧ r = ([], name)) ∨
  (∃ pre post, name = pre ++ ':'.toNat :: post ∧ ':'.toNat ∉ pre ∧ ':'.toNat ∉ post
    ∧ pre ≠ [] ∧ post ≠ [] ∧ r = (pre, post))


/-- Loop invariant of the binary search in `bitsNeeded`: the pair holds the
original count shifted right by the bits found so far. -/
def BitsInv (d w : Nat) (p : Nat × Nat) : Prop :=
  p.1 = d / 2 ^ p.2 ∧ p.1 < 2 ^ w ∧ (0 < p.2 → 1 ≤ p.1)


/-- What the loop of `pathNameParse` computes, told on the '/'-separated
pieces of the unread rest of the path: `legal` is the test of one piece and
`acc` the fields collected so far. -/
def parseFields (legal : ustring → Bool) : List ustring → List ustring →
    Except ErrorCode (List ustring)
  | [], acc => .ok acc
  | [f], acc => if legal f then .ok (acc ++ [f]) else .error E57_ERROR_BAD_PATH_NAME
  | f :: g :: gs, acc =>
    if legal f then
      if g = [] ∧ gs = [] then .ok (acc ++ [f, []])
      else parseFields legal (g :: gs) (acc ++ [f])
    else .error E57_ERROR_BAD_PATH_NAME

/-- The pieces that `pathNameParse` validates: all '/'-separated pieces, but not
an empty last piece (the one a trailing separator leaves behind). -/
def checkedPieces (fs : List ustring) : List ustring :=
  if fs.getLast? = some [] then fs.dropLast else fs

/-- A path without its leading separator, if it has one. -/
def pathRest (path : ustring) : ustring :=
  if path.head? = some '/'.toNat then path.tail else path

/-- The fields of a path in the words of the specification: the '/'-separated
pieces of the path without its leading separator, not counting the empty piece
that a trailing separator leaves; a path with nothing after the leading
separator has no fields. -/
def pathFields (path : ustring) : List ustring :=
  if pathRest path = [] then []
  else if (pathRest path).getLast? = some '/'.toNat then
    ((pathRest path).splitOn '/'.toNat).dropLast
  else (pathRest path).splitOn '/'.toNat

/-- Modelled from the spec: the default value of the parameter `allowNumber` of
`isElementNameLegal`, which `pathNameParse` relies on by omitting the argument.
It is declared in the header ImageFileImpl.h, of which only the uses are at
hand; the specification says that each field of a path is "validated as a legal
non-numeric element name" and that "numeric field names are never accepted
directly in a structural path". -/
def isElementNameLegal_allowNumber_default : Bool := false

/-! ## Namespace registry -/

/-- `ImageFileImpl::extensionsLookupUri`: the linear search for a URI. Returns
the `bool` result and the value of the reference parameter `prefix`. -/
def extensionsLookupUri (imf : ImageFileImpl) (uri pfx : ustring) :
    Except ErrorCode (Bool × ustring) :=
  match checkImageFileOpen imf with
  | .error e => .error e
  | .ok _ =>
    match imf.nameSpaces_.find? (fun ns => ns.uri == uri) with
    | some ns => .ok (true, ns.pfx)
    | none => .ok (false, pfx)

/-- `ImageFileImpl::extensionsAdd`, returning the outcome and the container
after the call. The only assignment is the `emplace_back` at the end, so a
throw leaves the container as it was. -/
def extensionsAdd (imf : ImageFileImpl) (pfx uri : ustring) :
    Except ErrorCode Unit × ImageFileImpl :=
  match checkImageFileOpen imf with
  | .error e => (.error e, imf)
  | .ok _ =>
    match extensionsLookupPrefix imf pfx [] with
    | .error e => (.error e, imf)
    | .ok (found, dummy) =>
      if found then (.error E57_ERROR_DUPLICATE_NAMESPACE_PREFIX, imf)
      else
        match extensionsLookupUri imf uri dummy with
        | .error e => (.error e, imf)
        | .ok (found, _) =>
          if found then (.error E57_ERROR_DUPLICATE_NAMESPACE_URI, imf)
          else (.ok (), { imf with nameSpaces_ := imf.nameSpaces_ ++ [⟨pfx, uri⟩] })

/-- `ImageFileImpl::extensionsCount`. -/
def extensionsCount (imf : ImageFileImpl) : Except ErrorCode Nat :=
  match checkImageFileOpen imf with
  | .error e => .error e
  | .ok _ => .ok imf.nameSpaces_.length

/-- `ImageFileImpl::extensionsPrefix`. `nameSpaces_[index]` is not bounds-checked
in the code; an index out of range has no defined value and is `none` here. -/
def extensionsPrefix (imf : ImageFileImpl) (index : Nat) : Except ErrorCode (Option ustring) :=
  match checkImageFileOpen imf with
  | .error e => .error e
  | .ok _ => .ok ((imf.nameSpaces_.get? index).map (fun ns => ns.pfx))

/-- `ImageFileImpl::extensionsUri`, with the same treatment of the index. -/
def extensionsUri (imf : ImageFileImpl) (index : Nat) : Except ErrorCode (Option ustring) :=
  match checkImageFileOpen imf with
  | .error e => .error e
  | .ok _ => .ok ((imf.nameSpaces_.get? index).map (fun ns => ns.uri))

/-- A run of `extensionsAdd` calls, each on the container the previous one
left, whether it succeeded or failed. -/
def extensionsAddAll (imf : ImageFileImpl) : List (ustring × ustring) → ImageFileImpl
  | [] => imf
  | (pfx, uri) :: rest => extensionsAddAll (extensionsAdd imf pfx uri).2 rest

/-- The bindings whose `extensionsAdd` succeeded in such a run, in call order. -/
def successfulAdds (imf : ImageFileImpl) : List (ustring × ustring) → List NameSpace
  | [] => []
  | (pfx, uri) :: rest =>
    match (extensionsAdd imf pfx uri).1 with
    | .ok _ => ⟨pfx, uri⟩ :: successfulAdds (extensionsAdd imf pfx uri).2 rest
    | .error _ => successfulAdds (extensionsAdd imf pfx uri).2 rest

/-- The uniqueness invariant of the registry: no prefix twice, no URI twice. -/
def RegistryInv (reg : List NameSpace) : Prop :=
  (reg.map (fun ns => ns.pfx)).Nodup ∧ (reg.map (fun ns => ns.uri)).Nodup

/-- Three calls for the examples: the second repeats the prefix of the first and fails. -/
def sampleAdds : List (ustring × ustring) :=
  [(ascii "a", ascii "urn:x"), (ascii "a", ascii "urn:y"), (ascii "b", ascii "urn:z")]

/-! ## Constants and collaborators declared outside ImageFileImpl.cpp -/

/-- The constants `E57_FORMAT_MAJOR`, `E57_FORMAT_MINOR` (E57Version.h) and
`CheckedFile::physicalPageSize` (CheckedFile.h). Their values are not in this
file, so every statement is made for arbitrary values. -/
structure Constants where
  E57_FORMAT_MAJOR : Nat
  E57_FORMAT_MINOR : Nat
  physicalPageSize : Nat

/-- `sizeof(E57FileHeader)`, which `readFileHeader` checks to be 48. -/
def sizeofE57FileHeader : Nat := 48

/-- Modelled from the spec: `CheckedFile::seek(position, Logical)` of the
checksummed file resource (CheckedFile.cpp) moves the logical position. -/
def CheckedFile.seek (f : CheckedFile) (position : Nat) : CheckedFile :=
  { f with logicalPosition := position }

/-- Modelled from the spec: writing bytes through `CheckedFile` (`write`,
`operator<<`) advances the logical position by one per byte and grows the file
when the position passes its end. -/
def CheckedFile.write (f : CheckedFile) (bytes : ustring) : CheckedFile :=
  { f with logicalPosition := f.logicalPosition + bytes.length,
           logicalLength := max f.logicalLength (f.logicalPosition + bytes.length) }

/-- Modelled from the spec: `CheckedFile::extend(logicalLength)` grows the file
with zeros up to the given logical length. -/
def CheckedFile.extend (f : CheckedFile) (newLogicalLength : Nat) : CheckedFile :=
  { f with logicalLength := max f.logicalLength newLogicalLength }

/-- What `close` needs from its collaborators: the address translation of
`CheckedFile` behind `position(Physical)` and `length(Physical)`, and the text
that `root_->writeXml` emits for the node tree. -/
structure CloseEnv where
  logicalToPhysical : Nat → Nat
  physicalLength : Nat → Nat
  xml : ustring

/-- What `construct2` gets from its collaborators: the outcome of
`new CheckedFile` and, for the reader branch, the header record that
`file->read` delivers, the value of `file->length(Physical)`,
`CheckedFile::physicalToLogical`, and the run of the XML parser on the
container. -/
structure OpenEnv where
  newCheckedFile : Except ErrorCode CheckedFile
  header : E57FileHeader
  physicalLength : Nat
  physicalToLogical : Nat → Nat
  parse : ImageFileImpl → Except ErrorCode Unit × ImageFileImpl

/-! ## File header -/

/-- `strncmp(s1, s2, n) == 0`: the first `n` bytes agree, up to and including a
first NUL. A list read past its end gives NUL, as the terminator of a string
literal does. -/
def strncmpIsZero : ustring → ustring → Nat → Bool
  | _, _, 0 => true
  | s1, s2, n + 1 =>
    if s1.headD 0 ≠ s2.headD 0 then false
    else if s1.headD 0 = 0 then true
    else strncmpIsZero s1.tail s2.tail n

/-- `ImageFileImpl::readFileHeader`, after `file->read` has filled `header`;
`actualPhysicalLength` is the value of `file->length(CheckedFile::Physical)`. -/
def readFileHeader (k : Constants) (actualPhysicalLength : Nat) (header : E57FileHeader) :
    Except ErrorCode Unit :=
  if !strncmpIsZero header.fileSignature (ascii "ASTM-E57") 8 then
    .error E57_ERROR_BAD_FILE_SIGNATURE
  else if header.majorVersion > k.E57_FORMAT_MAJOR then .error E57_ERROR_UNKNOWN_FILE_VERSION
  else if header.majorVersion = k.E57_FORMAT_MAJOR
      && header.minorVersion > k.E57_FORMAT_MINOR then .error E57_ERROR_UNKNOWN_FILE_VERSION
  else if header.filePhysicalLength ≠ actualPhysicalLength then .error E57_ERROR_BAD_FILE_LENGTH
  else if header.majorVersion ≠ 0 && header.pageSize ≠ k.physicalPageSize then
    .error E57_ERROR_BAD_FILE_LENGTH
  else .ok ()

/-- The version test of the specification: the header is newer than supported. -/
def VersionTooNew (k : Constants) (header : E57FileHeader) : Prop :=
  header.majorVersion > k.E57_FORMAT_MAJOR
  ∨ (header.majorVersion = k.E57_FORMAT_MAJOR ∧ header.minorVersion > k.E57_FORMAT_MINOR)

instance (k : Constants) (header : E57FileHeader) : Decidable (VersionTooNew k header) := by
  unfold VersionTooNew; infer_instance

/-! ## Space allocation -/

/-- `ImageFileImpl::allocateSpace`, returning the offset and the container
after the call. The cursor is a `uint64_t`, so the sum is taken modulo `2^64`.
With `doExtendNow` the code calls `file_->extend`, which dereferences `file_`:
on a container without a file that call has no result, which is `none`. -/
def allocateSpace (imf : ImageFileImpl) (byteCount : Nat) (doExtendNow : Bool) :
    Option (Nat × ImageFileImpl) :=
  let oldLogicalStart := imf.unusedLogicalStart_
  let imf := { imf with
    unusedLogicalStart_ := (imf.unusedLogicalStart_ + byteCount) % 18446744073709551616 }
  if doExtendNow then
    match imf.file_ with
    | none => none
    | some file =>
      some (oldLogicalStart, { imf with file_ := some (file.extend imf.unusedLogicalStart_) })
  else some (oldLogicalStart, imf)

/-- A run of `allocateSpace` calls: the offsets returned, in call order, and
the container left by the last call; `none` when one of the calls has no result. -/
def allocateAll (imf : ImageFileImpl) : List (Nat × Bool) → Option (List Nat × ImageFileImpl)
  | [] => some ([], imf)
  | (byteCount, doExtendNow) :: rest =>
    match allocateSpace imf byteCount doExtendNow with
    | none => none
    | some (offset, imf1) =>
      match allocateAll imf1 rest with
      | none => none
      | some (offsets, imf2) => some (offset :: offsets, imf2)

/-! ## Lifecycle -/

/-- `ImageFileImpl::ImageFileImpl(policy)`, the first phase of construction. -/
def construct1 (policy : Int) : ImageFileImpl :=
  { fileName_ := [], isWriter_ := false, writerCount_ := 0, readerCount_ := 0,
    checksumPolicy := max 0 (min policy 100), file_ := none,
    xmlLogicalOffset_ := 0, xmlLogicalLength_ := 0, unusedLogicalStart_ := 0,
    nameSpaces_ := [], root_ := none }

/-- `ImageFileImpl::construct2`, returning the outcome and the container after
the call; `rootNode` is the handle of the `StructureNodeImpl` it creates. Each
`catch (...)` clears `file_` and rethrows. -/
def construct2 (k : Constants) (env : OpenEnv) (rootNode : Nat) (imf : ImageFileImpl)
    (fileName mode : ustring) : Except ErrorCode Unit × ImageFileImpl :=
  let imf := { imf with unusedLogicalStart_ := sizeofE57FileHeader, fileName_ := fileName }
  if mode = ascii "w" then
    let imf := { imf with isWriter_ := true, file_ := none }
    match env.newCheckedFile with
    | .error e => (.error e, imf)
    | .ok file =>
      (.ok (), { imf with file_ := some file, root_ := some rootNode,
                          unusedLogicalStart_ := sizeofE57FileHeader,
                          xmlLogicalOffset_ := 0, xmlLogicalLength_ := 0 })
  else if mode = ascii "r" then
    let imf := { imf with isWriter_ := false, file_ := none }
    match env.newCheckedFile with
    | .error e => (.error e, imf)
    | .ok file =>
      let imf := { imf with file_ := some file, root_ := some rootNode }
      match readFileHeader k env.physicalLength env.header with
      | .error e => (.error e, { imf with file_ := none })
      | .ok _ =>
        let imf := { imf with
          xmlLogicalOffset_ := env.physicalToLogical env.header.xmlPhysicalOffset,
          xmlLogicalLength_ := env.header.xmlLogicalLength }
        let imf := { imf with unusedLogicalStart_ := sizeofE57FileHeader }
        match env.parse imf with
        | (.error e, imf) => (.error e, { imf with file_ := none })
        | (.ok _, imf) => (.ok (), imf)
  else (.error E57_ERROR_BAD_API_ARGUMENT, imf)

/-- `ImageFileImpl::root`. -/
def root (imf : ImageFileImpl) : Except ErrorCode (Option Nat) :=
  match checkImageFileOpen imf with
  | .error e => .error e
  | .ok _ => .ok imf.root_

/-- `ImageFileImpl::fileName`, which does not call `checkImageFileOpen`. -/
def fileName (imf : ImageFileImpl) : ustring := imf.fileName_

/-- Difference of two `uint64_t` values. -/
def subUInt64 (a b : Nat) : Nat :=
  (a + 18446744073709551616 - b) % 18446744073709551616

/-- The XML declaration that `close` writes before the node tree. -/
def xmlDeclaration : ustring := ascii "<?xml version=\"1.0\" encoding=\"UTF-8\"?>\n"

/-- The padding loop of `close`:
`while ((position(Logical) - xmlLogicalOffset_) % 4 != 0) *file_ << " ";`
on the file and the operations done so far; `none` is a loop that has not ended
within the given number of rounds. -/
def padLoop (xmlLogicalOffset : Nat) : Nat → CheckedFile → List FileOp →
    Option (CheckedFile × List FileOp)
  | 0, _, _ => none
  | fuel + 1, file, ops =>
    if subUInt64 file.logicalPosition xmlLogicalOffset % 4 ≠ 0 then
      padLoop xmlLogicalOffset fuel (file.write (ascii " ")) (ops ++ [FileOp.write (ascii " ")])
    else some (file, ops)

/-- `ImageFileImpl::close`, returning the operations done on the file resource
and the container after the call. Four rounds are allowed to the padding loop,
which ends within that (see `padLoop_terminates`); `none` would be a loop that
has not. The file operations themselves are taken to succeed. -/
def close (k : Constants) (env : CloseEnv) (imf : ImageFileImpl) :
    Option (List FileOp × ImageFileImpl) :=
  match imf.file_ with
  | none => some ([], imf)
  | some file =>
    if imf.isWriter_ then
      let xmlLogicalOffset := imf.unusedLogicalStart_
      let file := file.seek xmlLogicalOffset
      let xmlPhysicalOffset := env.logicalToPhysical file.logicalPosition
      let file := file.write xmlDeclaration
      let file := file.write env.xml
      match padLoop xmlLogicalOffset 4 file
          [FileOp.seek xmlLogicalOffset, FileOp.write xmlDeclaration, FileOp.write env.xml] with
      | none => none
      | some (file, ops) =>
        let xmlLogicalLength := subUInt64 file.logicalPosition xmlLogicalOffset
        let header : E57FileHeader :=
          { fileSignature := ascii "ASTM-E57",
            majorVersion := k.E57_FORMAT_MAJOR,
            minorVersion := k.E57_FORMAT_MINOR,
            filePhysicalLength := env.physicalLength file.logicalLength,
            xmlPhysicalOffset := xmlPhysicalOffset,
            xmlLogicalLength := xmlLogicalLength,
            pageSize := k.physicalPageSize }
        some (ops ++ [FileOp.seek 0, FileOp.writeHeader header, FileOp.close, FileOp.delete],
          { imf with xmlLogicalOffset_ := xmlLogicalOffset,
                     xmlLogicalLength_ := xmlLogicalLength, file_ := none })
    else some ([FileOp.delete], { imf with file_ := none })

/-- `ImageFileImpl::cancel`, returning the operations done on the file resource
and the container after the call. -/
def cancel (imf : ImageFileImpl) : List FileOp × ImageFileImpl :=
  match imf.file_ with
  | none => ([], imf)
  | some _ =>
    ((if imf.isWriter_ then [FileOp.unlink] else [FileOp.close]) ++ [FileOp.delete],
      { imf with file_ := none })

/-- Constants for the examples: format version 1.0 and pages of 1024 bytes. -/
def sampleConstants : Constants :=
  { E57_FORMAT_MAJOR := 1, E57_FORMAT_MINOR := 0, physicalPageSize := 1024 }

/-- A file resource as `new CheckedFile` hands it out for the examples. -/
def sampleFile : CheckedFile :=
  { fileName := ascii "scan.e57", logicalPosition := 0, logicalLength := 0 }

/-- Collaborators for the examples of `close`: pages of 1020 content bytes and
4 checksum bytes, and a short XML text. -/
def sampleCloseEnv : CloseEnv :=
  { logicalToPhysical := fun l => l + 4 * (l / 1020),
    physicalLength := fun l => 1024 * ((l + 1019) / 1020),
    xml := ascii "<e57Root/>" }

/-- Collaborators for the examples of `construct2`. -/
def sampleOpenEnv : OpenEnv :=
  { newCheckedFile := .ok sampleFile,
    header := { fileSignature := ascii "ASTM-E57", majorVersion := 1, minorVersion := 0,
                filePhysicalLength := 1024, xmlPhysicalOffset := 48, xmlLogicalLength := 52,
                pageSize := 1024 },
    physicalLength := 1024,
    physicalToLogical := fun p => p - 4 * (p / 1024),
    parse := fun imf => (.ok (), imf) }

/-- A container opened for writing on the example file. -/
def sampleWriter : ImageFileImpl :=
  (construct2 sampleConstants sampleOpenEnv 0 (construct1 100) (ascii "scan.e57") (ascii "w")).2

/-- The example writer after one byte has been allocated: the cursor is at 49. -/
def sampleWriter49 : ImageFileImpl :=
  { sampleWriter with unusedLogicalStart_ := 49 }

/-- The header that a writer `close` builds when the allocation cursor is
`cursor`, the file is `fileLength` bytes long before the XML section is written
and `n` padding spaces follow the XML text. -/
def writtenHeader (k : Constants) (env : CloseEnv) (cursor fileLength n : Nat) : E57FileHeader :=
  { fileSignature := ascii "ASTM-E57",
    majorVersion := k.E57_FORMAT_MAJOR,
    minorVersion := k.E57_FORMAT_MINOR,
    filePhysicalLength := env.physicalLength
      (max fileLength (cursor + xmlDeclaration.length + env.xml.length + n)),
    xmlPhysicalOffset := env.logicalToPhysical cursor,
    xmlLogicalLength := subUInt64 (cursor + xmlDeclaration.length + env.xml.length + n) cursor,
    pageSize := k.physicalPageSize }
/-! ## Bit width: proofs -/

/-- Below `2^(2s)`, a number meets the mask of bits `s .. 2s-1` exactly when it is at least `2^s`. -/
theorem and_mask_eq_zero_iff (s v : Nat) (hv : v < 2 ^ (2 * s)) :
    v &&& ((2 ^ s - 1) <<< s) = 0 ↔ v < 2 ^ s := by
  constructor
  · intro h
    apply Nat.lt_pow_two_of_testBit
    intro i hi
    by_cases h2 : i < 2 * s
    · have := congrArg (fun x => Nat.testBit x i) h
      simp [Nat.testBit_and, Nat.testBit_shiftLeft, Nat.testBit_two_pow_sub_one] at this
      by_contra hc
      simp at hc
      have := this hc hi
      omega
    · apply Nat.testBit_lt_two_pow
      calc v < 2 ^ (2*s) := hv
        _ ≤ 2 ^ i := Nat.pow_le_pow_right (by omega) (by omega)
  · intro h
    apply Nat.eq_of_testBit_eq
    intro i
    simp [Nat.testBit_and, Nat.testBit_shiftLeft, Nat.testBit_two_pow_sub_one]
    intro h1 h2
    have : v.testBit i = false := by
      apply Nat.testBit_lt_two_pow
      calc v < 2 ^ s := h
        _ ≤ 2 ^ i := Nat.pow_le_pow_right (by omega) (by omega)
    simp [this] at h1

theorem bitsStep_inv (d s mask : Nat) (p : Nat × Nat) (hm : mask = (2 ^ s - 1) <<< s)
    (h : BitsInv d (2 * s) p) : BitsInv d s (bitsStep mask s p) := by
  obtain ⟨h1, h2, h3⟩ := h
  have key := and_mask_eq_zero_iff s p.1 h2
  unfold bitsStep
  subst hm
  by_cases hz : p.1 &&& ((2 ^ s - 1) <<< s) = 0
  · simp only [hz, ne_eq, not_true_eq_false, if_false]
    exact ⟨h1, key.mp hz, h3⟩
  · simp only [hz, ne_eq, not_false_eq_true, if_true]
    have hge : 2 ^ s ≤ p.1 := by
      by_contra hc
      exact hz (key.mpr (by omega))
    have hpos : 0 < 2 ^ s := Nat.pow_pos (by norm_num)
    refine ⟨?_, ?_, ?_⟩
    · show p.1 >>> s = d / 2 ^ (p.2 + s)
      rw [Nat.shiftRight_eq_div_pow, h1, Nat.div_div_eq_div_mul, pow_add]
    · show p.1 >>> s < 2 ^ s
      rw [Nat.shiftRight_eq_div_pow, Nat.div_lt_iff_lt_mul hpos]
      calc p.1 < 2 ^ (2 * s) := h2
        _ = 2 ^ s * 2 ^ s := by rw [two_mul, pow_add]
    · intro _
      show 1 ≤ p.1 >>> s
      rw [Nat.shiftRight_eq_div_pow]
      exact (Nat.one_le_div_iff hpos).mpr hge

theorem bitsNeeded_loop (d : Nat) (hd : d < 2 ^ 64) :
    let p := bitsStep 0x2 1 (bitsStep 0xC 2 (bitsStep 0xF0 4 (bitsStep 0xFF00 8
      (bitsStep 0xFFFF0000 16 (bitsStep 0xFFFFFFFF00000000 32 (d, 0))))))
    BitsInv d 1 p := by
  intro p
  have h0 : BitsInv d (2 * 32) (d, 0) := ⟨by simp, by simpa using hd, by simp⟩
  have h1 := bitsStep_inv d 32 0xFFFFFFFF00000000 _ (by decide) h0
  have h2 := bitsStep_inv d 16 0xFFFF0000 _ (by decide) h1
  have h3 := bitsStep_inv d 8 0xFF00 _ (by decide) h2
  have h4 := bitsStep_inv d 4 0xF0 _ (by decide) h3
  have h5 := bitsStep_inv d 2 0xC _ (by decide) h4
  exact bitsStep_inv d 1 0x2 _ (by decide) h5

theorem bitsNeeded_nat (d : Nat) (hd : d < 2 ^ 64) (minimum maximum : Int)
    (h : toUInt64 (wrapInt64 (maximum - minimum)) = d) :
    d < 2 ^ bitsNeeded minimum maximum ∧ ∀ k, d < 2 ^ k → bitsNeeded minimum maximum ≤ k := by
  have hinv := bitsNeeded_loop d hd
  simp only at hinv
  unfold bitsNeeded
  simp only [h]
  generalize bitsStep 0x2 1 (bitsStep 0xC 2 (bitsStep 0xF0 4 (bitsStep 0xFF00 8
      (bitsStep 0xFFFF0000 16 (bitsStep 0xFFFFFFFF00000000 32 (d, 0)))))) = p at hinv ⊢
  obtain ⟨v, l⟩ := p
  obtain ⟨h1, h2, h3⟩ := hinv
  simp only at h1 h2 h3
  have hpos : 0 < 2 ^ l := Nat.pow_pos (by norm_num)
  have hv : v = 0 ∨ v = 1 := by omega
  rcases hv with hv | hv
  · subst hv
    have hl : l = 0 := by omega
    subst hl
    simp at h1
    simp
    omega
  · subst hv
    have hlo : 2 ^ l ≤ d := by
      have := (Nat.one_le_div_iff hpos).mp (by omega : 1 ≤ d / 2 ^ l)
      exact this
    have hhi : d < 2 ^ (l + 1) := by
      have : d / 2 ^ l < 2 := by omega
      rw [Nat.div_lt_iff_lt_mul hpos] at this
      rw [pow_succ]; omega
    simp
    refine ⟨hhi, ?_⟩
    intro k hk
    have : 2 ^ l < 2 ^ k := lt_of_le_of_lt hlo hk
    have := (Nat.pow_lt_pow_iff_right (by norm_num : 1 < 2)).mp this
    omega

/-- C1: for 64-bit signed `minimum ≤ maximum`, `bitsNeeded minimum maximum` is
the least `k` with `maximum - minimum + 1 ≤ 2^k`, the difference being the
exact integer; in particular `bitsNeeded(0,0) = 0`, `bitsNeeded(0,1) = 1`,
`bitsNeeded(0,255) = 8`, `bitsNeeded(0,256) = 9` and
`bitsNeeded(INT64_MIN, INT64_MAX) = 64`. -/
theorem C1_bitsNeeded (minimum maximum : Int)
    (hlo : INT64_MIN ≤ minimum) (hhi : maximum ≤ INT64_MAX) (hle : minimum ≤ maximum) :
    (maximum - minimum + 1 ≤ (2 : Int) ^ bitsNeeded minimum maximum
      ∧ ∀ k : Nat, maximum - minimum + 1 ≤ (2 : Int) ^ k → bitsNeeded minimum maximum ≤ k)
    ∧ bitsNeeded 0 0 = 0 ∧ bitsNeeded 0 1 = 1 ∧ bitsNeeded 0 255 = 8 ∧ bitsNeeded 0 256 = 9
    ∧ bitsNeeded INT64_MIN INT64_MAX = 64 := by
  refine ⟨?_, by decide, by decide, by decide, by decide, by decide⟩
  unfold INT64_MIN at hlo
  unfold INT64_MAX at hhi
  have hd : toUInt64 (wrapInt64 (maximum - minimum)) = (maximum - minimum).toNat := by
    unfold toUInt64 wrapInt64
    omega
  have hlt : (maximum - minimum).toNat < 2 ^ 64 := by
    norm_num
    omega
  obtain ⟨h1, h2⟩ := bitsNeeded_nat _ hlt minimum maximum hd
  have hcast : ((maximum - minimum).toNat : Int) = maximum - minimum := Int.toNat_of_nonneg (by omega)
  constructor
  · have : (((maximum - minimum).toNat + 1 : Nat) : Int) ≤ ((2 ^ bitsNeeded minimum maximum : Nat) : Int) := by
      exact_mod_cast h1
    push_cast at this
    rw [hcast] at this
    exact this
  · intro k hk
    apply h2
    have : (((maximum - minimum).toNat : Int)) + 1 ≤ ((2 ^ k : Nat) : Int) := by
      rw [hcast]; push_cast; exact hk
    omega

theorem C1_bitsNeeded_witness :
    ((7 : Int) - (-3) + 1 ≤ (2 : Int) ^ bitsNeeded (-3) 7
      ∧ ∀ k : Nat, (7 : Int) - (-3) + 1 ≤ (2 : Int) ^ k → bitsNeeded (-3) 7 ≤ k)
    ∧ bitsNeeded 0 0 = 0 ∧ bitsNeeded 0 1 = 1 ∧ bitsNeeded 0 255 = 8 ∧ bitsNeeded 0 256 = 9
    ∧ bitsNeeded INT64_MIN INT64_MAX = 64 :=
  C1_bitsNeeded (-3) 7 (by decide) (by decide) (by decide)


/-! ## Lemmas on the string operations -/

theorem indexIn_eq_none {c : Nat} {s : ustring} : indexIn c s = none ↔ c ∉ s := by
  induction s with
  | nil => simp [indexIn]
  | cons x xs ih =>
    by_cases h : x = c
    · simp [indexIn, h]
    · simp [indexIn, h, ih, Ne.symm h]

theorem indexIn_eq_some {c : Nat} {s : ustring} {k : Nat} (h : indexIn c s = some k) :
    c ∉ s.take k ∧ s = s.take k ++ c :: s.drop (k + 1) := by
  induction s generalizing k with
  | nil => simp [indexIn] at h
  | cons x xs ih =>
    by_cases hx : x = c
    · simp [indexIn, hx] at h
      subst h
      simp [hx]
    · simp only [indexIn, hx, if_false, Option.map_eq_some'] at h
      obtain ⟨j, hj, rfl⟩ := h
      obtain ⟨h1, h2⟩ := ih hj
      constructor
      · simp [Ne.symm hx, h1]
      · simp only [List.take_succ_cons, List.drop_succ_cons, List.cons_append]
        rw [← h2]

theorem indexIn_append_of_not_mem {c : Nat} {pre post : ustring} (h : c ∉ pre) :
    indexIn c (pre ++ c :: post) = some pre.length := by
  induction pre with
  | nil => simp [indexIn]
  | cons x xs ih =>
    simp only [List.mem_cons, not_or] at h
    simp [indexIn, Ne.symm h.1, ih h.2]

theorem find_first_of_zero (s : ustring) (c : Nat) : find_first_of s c 0 = indexIn c s := by
  simp [find_first_of]

theorem find_first_of_isSome (s : ustring) (c pos : Nat) :
    (find_first_of s c pos).isSome = true ↔ c ∈ s.drop pos := by
  unfold find_first_of
  rw [Option.isSome_map']
  cases h : indexIn c (s.drop pos) with
  | none => simpa using indexIn_eq_none.mp h
  | some k =>
    have : indexIn c (s.drop pos) ≠ none := by simp [h]
    simpa using (not_iff_not.mpr indexIn_eq_none).mp this

/-! ## Element names: proofs -/

/-- Every failure of `elementNameParse` is `E57_ERROR_BAD_PATH_NAME`. -/
theorem elementNameParse_error (name p0 l0 : ustring) (a : Bool) (e : ErrorCode)
    (h : elementNameParse name p0 l0 a = .error e) : e = E57_ERROR_BAD_PATH_NAME := by
  unfold elementNameParse at h
  simp only at h
  split_ifs at h <;> try (injection h with h; exact h.symm)
  all_goals
    split at h
    · split_ifs at h <;> try (injection h with h; exact h.symm)
    · cases h

theorem not_bad_first_iff (c : Nat) :
    (c < 128 && !(('a'.toNat ≤ c && c ≤ 'z'.toNat) || ('A'.toNat ≤ c && c ≤ 'Z'.toNat)
      || c == '_'.toNat)) = false ↔ IsNameStartByte c := by
  unfold IsNameStartByte
  simp only [Char.reduceToNat]
  rw [Bool.eq_false_iff]
  simp only [ne_eq, Bool.and_eq_true, decide_eq_true_eq, Bool.not_eq_true', Bool.or_eq_false_iff,
    Bool.and_eq_false_imp, decide_eq_false_iff_not, beq_eq_false_iff_ne, not_and, not_le]
  constructor
  · intro h
    by_contra hc
    simp only [not_or, not_and, not_le] at hc
    have := h (by omega)
    omega
  · intro h h1
    omega

theorem not_bad_later_iff (c : Nat) :
    (c < 128 && !(('a'.toNat ≤ c && c ≤ 'z'.toNat) || ('A'.toNat ≤ c && c ≤ 'Z'.toNat)
        || c == '_'.toNat || c == ':'.toNat || ('0'.toNat ≤ c && c ≤ '9'.toNat)
        || c == '-'.toNat || c == '.'.toNat)) = false ↔ IsNameByte c := by
  unfold IsNameByte
  simp only [Char.reduceToNat]
  rw [Bool.eq_false_iff]
  simp only [ne_eq, Bool.and_eq_true, decide_eq_true_eq, Bool.not_eq_true', Bool.or_eq_false_iff,
    Bool.and_eq_false_imp, decide_eq_false_iff_not, beq_eq_false_iff_ne, not_and, not_le]
  constructor
  · intro h
    by_contra hc
    simp only [not_or, not_and, not_le] at hc
    have := h (by omega)
    omega
  · intro h h1
    omega

theorem append_colon_unique {c : Nat} {p1 q1 p2 q2 : ustring} (h1 : c ∉ p1) (h2 : c ∉ p2)
    (h : p1 ++ c :: q1 = p2 ++ c :: q2) : p1 = p2 ∧ q1 = q2 := by
  induction p1 generalizing p2 with
  | nil =>
    cases p2 with
    | nil => simpa using h
    | cons y ys => simp at h; simp [h.1] at h2
  | cons x xs ih =>
    cases p2 with
    | nil => simp at h; simp [h.1] at h1
    | cons y ys =>
      simp only [List.cons_append, List.cons.injEq] at h
      simp only [List.mem_cons, not_or] at h1 h2
      obtain ⟨r1, r2⟩ := ih h1.2 h2.2 h.2
      exact ⟨by rw [h.1, r1], r2⟩

/-- Success of `elementNameParse` outside the numeric branch. -/
theorem elementNameParse_cons_ok_iff (x : Nat) (xs p0 l0 : ustring) (a : Bool)
    (hnum : ¬ (a = true ∧ IsDigitByte x)) (r : ustring × ustring) :
    elementNameParse (x :: xs) p0 l0 a = .ok r ↔
      IsNameStartByte x ∧ (∀ c ∈ xs, IsNameByte c) ∧ ColonSplit (x :: xs) r := by
  have hnum2 : (a && decide ('0'.toNat ≤ x) && decide (x ≤ '9'.toNat)) = false := by
    rw [Bool.eq_false_iff]
    intro hc
    simp only [Bool.and_eq_true, decide_eq_true_eq] at hc
    exact hnum ⟨hc.1.1, hc.1.2, hc.2⟩
  unfold elementNameParse
  simp only [List.length_cons, Nat.add_one_ne_zero, if_false, List.getD_cons_zero, hnum2,
    Bool.false_eq_true, List.drop_succ_cons, List.drop_zero, find_first_of_zero]
  by_cases hf : IsNameStartByte x
  swap
  · have := (not_iff_not.mpr (not_bad_first_iff x)).mpr hf
    simp only [Bool.not_eq_false] at this
    rw [if_pos this]
    simp [hf]
  have hf2 := (not_bad_first_iff x).mpr hf
  simp only [hf2, Bool.false_eq_true, if_false, hf, true_and]
  by_cases hl : ∀ c ∈ xs, IsNameByte c
  swap
  · have : (xs.any fun c => c < 128 && !(('a'.toNat ≤ c && c ≤ 'z'.toNat)
        || ('A'.toNat ≤ c && c ≤ 'Z'.toNat)
        || c == '_'.toNat || c == ':'.toNat || ('0'.toNat ≤ c && c ≤ '9'.toNat)
        || c == '-'.toNat || c == '.'.toNat)) = true := by
      rw [List.any_eq_true]
      push_neg at hl
      obtain ⟨c, hc, hb⟩ := hl
      refine ⟨c, hc, ?_⟩
      have := (not_iff_not.mpr (not_bad_later_iff c)).mpr hb
      rw [Bool.not_eq_false] at this
      exact this
    rw [if_pos this]
    simp [hl]
  have hl2 : (xs.any fun c => c < 128 && !(('a'.toNat ≤ c && c ≤ 'z'.toNat)
        || ('A'.toNat ≤ c && c ≤ 'Z'.toNat)
        || c == '_'.toNat || c == ':'.toNat || ('0'.toNat ≤ c && c ≤ '9'.toNat)
        || c == '-'.toNat || c == '.'.toNat)) = false := by
    rw [List.any_eq_false]
    intro c hc
    have := (not_bad_later_iff c).mpr (hl c hc)
    rw [Bool.not_eq_true]
    exact this
  simp only [hl2, Bool.false_eq_true, if_false]
  rw [and_iff_right hl]
  cases hidx : indexIn ':'.toNat (x :: xs) with
  | none =>
    have hnot := indexIn_eq_none.mp hidx
    simp only [ColonSplit]
    constructor
    · intro h
      injection h with h
      exact Or.inl ⟨hnot, h.symm⟩
    · rintro (⟨_, rfl⟩ | ⟨pre, post, hsplit, -⟩)
      · rfl
      · exfalso; apply hnot; rw [hsplit]; simp
  | some k =>
    obtain ⟨hpre, hsplit⟩ := indexIn_eq_some hidx
    simp only [substr, List.drop_zero]
    by_cases h2 : (find_first_of (x :: xs) ':'.toNat (k + 1)).isSome = true
    · have h2m := (find_first_of_isSome _ _ _).mp h2
      simp only [h2, if_true, ColonSplit, false_iff, reduceCtorEq]
      rintro (⟨hnot, -⟩ | ⟨pre, post, hs, hp1, hp2, -⟩)
      · apply hnot; rw [hsplit]; simp
      · rw [hsplit] at hs
        obtain ⟨-, e2⟩ := append_colon_unique hpre hp1 hs
        rw [e2] at h2m
        exact hp2 h2m
    · have h2m := (not_iff_not.mpr (find_first_of_isSome _ _ _)).mp h2
      simp only [h2, Bool.false_eq_true, if_false]
      by_cases h3 : ((x :: xs).take k).length = 0 ∨ ((x :: xs).drop (k + 1)).length = 0
      · have : (decide (((x :: xs).take k).length = 0) || decide (((x :: xs).drop (k + 1)).length = 0)) = true := by
          simpa using h3
        simp only [this, if_true, ColonSplit, false_iff, reduceCtorEq]
        rintro (⟨hnot, -⟩ | ⟨pre, post, hs, hp1, hp2, hne1, hne2, -⟩)
        · apply hnot; rw [hsplit]; simp
        · rw [hsplit] at hs
          obtain ⟨e1, e2⟩ := append_colon_unique hpre hp1 hs
          rw [e1, e2] at h3
          simp only [List.length_eq_zero] at h3
          tauto
      · have : (decide (((x :: xs).take k).length = 0) || decide (((x :: xs).drop (k + 1)).length = 0)) = false := by
          simpa using h3
        simp only [this, Bool.false_eq_true, if_false, ColonSplit]
        simp only [List.length_eq_zero, not_or] at h3
        constructor
        · intro h
          injection h with h
          exact Or.inr ⟨_, _, hsplit, hpre, h2m, h3.1, h3.2, h.symm⟩
        · rintro (⟨hnot, -⟩ | ⟨pre, post, hs, hp1, hp2, hne1, hne2, rfl⟩)
          · exfalso; apply hnot; rw [hsplit]; simp
          · rw [hsplit] at hs
            obtain ⟨e1, e2⟩ := append_colon_unique hpre hp1 hs
            rw [e1, e2]

/-- The numeric branch of `elementNameParse`: an all-digit name returns with
both reference parameters as they came in; any other digit-first name fails. -/
theorem elementNameParse_cons_numeric (x : Nat) (xs p0 l0 : ustring) (hd : IsDigitByte x) :
    ((∀ c ∈ xs, IsDigitByte c) → elementNameParse (x :: xs) p0 l0 true = .ok (p0, l0)) ∧
    (¬ (∀ c ∈ xs, IsDigitByte c) →
      elementNameParse (x :: xs) p0 l0 true = .error E57_ERROR_BAD_PATH_NAME) := by
  have hnum : (true && decide ('0'.toNat ≤ x) && decide (x ≤ '9'.toNat)) = true := by
    simp only [Bool.true_and, Bool.and_eq_true, decide_eq_true_eq]
    exact hd
  unfold elementNameParse
  simp only [List.length_cons, Nat.add_one_ne_zero, if_false, List.getD_cons_zero, hnum,
    if_true, List.drop_succ_cons, List.drop_zero]
  constructor
  · intro h
    rw [if_neg]
    rw [Bool.not_eq_true, List.any_eq_false]
    intro c hc
    have := h c hc
    unfold IsDigitByte at this
    simp only [Bool.not_eq_true', Bool.not_eq_false, Bool.and_eq_true, decide_eq_true_eq, Bool.not_eq_true]
    simpa using this
  · intro h
    rw [if_pos]
    rw [List.any_eq_true]
    push_neg at h
    obtain ⟨c, hc, hb⟩ := h
    refine ⟨c, hc, ?_⟩
    unfold IsDigitByte at hb
    simp only [Bool.not_eq_true', Bool.and_eq_false_imp, decide_eq_true_eq, decide_eq_false_iff_not]
    intro h1 h2
    exact hb ⟨h1, h2⟩

theorem lastOpt_append_cons (pre post : ustring) (c : Nat) (h : post ≠ []) :
    (pre ++ c :: post).getLast? = post.getLast? := by
  have : pre ++ c :: post = (pre ++ [c]) ++ post := by simp
  rw [this, List.getLast?_append_of_ne_nil _ h]

theorem colonSplit_exists_iff (x : Nat) (xs : ustring) (hx : x ≠ ':'.toNat) :
    (∃ r, ColonSplit (x :: xs) r) ↔
      (x :: xs).count ':'.toNat ≤ 1 ∧ (x :: xs).getLast? ≠ some ':'.toNat := by
  constructor
  · rintro ⟨r, ⟨hnot, -⟩ | ⟨pre, post, hs, hp1, hp2, hne1, hne2, -⟩⟩
    · constructor
      · rw [List.count_eq_zero.mpr hnot]; omega
      · intro hc
        exact hnot (List.mem_of_getLast?_eq_some hc)
    · rw [hs]
      constructor
      · rw [List.count_append, List.count_cons_self, List.count_eq_zero.mpr hp1,
          List.count_eq_zero.mpr hp2]
      · intro hc
        rw [lastOpt_append_cons _ _ _ hne2] at hc
        exact hp2 (List.mem_of_getLast?_eq_some hc)
  · rintro ⟨hcount, hlast⟩
    cases hidx : indexIn ':'.toNat (x :: xs) with
    | none => exact ⟨_, Or.inl ⟨indexIn_eq_none.mp hidx, rfl⟩⟩
    | some k =>
      obtain ⟨hpre, hsplit⟩ := indexIn_eq_some hidx
      refine ⟨_, Or.inr ⟨_, _, hsplit, hpre, ?_, ?_, ?_, rfl⟩⟩
      · rw [hsplit, List.count_append, List.count_cons_self, List.count_eq_zero.mpr hpre] at hcount
        apply List.count_eq_zero.mp
        omega
      · intro he
        rw [he] at hsplit
        simp only [List.nil_append, List.cons.injEq] at hsplit
        exact hx hsplit.1
      · intro he
        rw [hsplit, he] at hlast
        simp at hlast

/-- C2: with `allowNumber = false`, `elementNameParse` accepts exactly the
non-empty names whose first byte is a letter, an underscore or a byte of 128 or
more, whose later bytes are letters, digits, `_`, `:`, `-`, `.` or bytes of 128
or more, and that hold at most one colon, which is not the last byte; every
rejection is `E57_ERROR_BAD_PATH_NAME`. The incoming values of the two
reference parameters play no part. -/
theorem C2_elementNameParse_accepts_iff (name p0 l0 : ustring) :
    ((∃ r, elementNameParse name p0 l0 false = .ok r) ↔
      (name ≠ [] ∧ (∀ c, name.head? = some c → IsNameStartByte c)
        ∧ (∀ c ∈ name.tail, IsNameByte c)
        ∧ name.count ':'.toNat ≤ 1 ∧ name.getLast? ≠ some ':'.toNat))
    ∧ ((∃ r, elementNameParse name p0 l0 false = .ok r) ∨
        elementNameParse name p0 l0 false = .error E57_ERROR_BAD_PATH_NAME)
    ∧ (∃ r, elementNameParse (ascii "abc") p0 l0 false = .ok r)
    ∧ elementNameParse (ascii "") p0 l0 false = .error E57_ERROR_BAD_PATH_NAME
    ∧ elementNameParse (ascii "9ab") p0 l0 false = .error E57_ERROR_BAD_PATH_NAME
    ∧ elementNameParse (ascii "a:b:c") p0 l0 false = .error E57_ERROR_BAD_PATH_NAME
    ∧ elementNameParse (ascii ":b") p0 l0 false = .error E57_ERROR_BAD_PATH_NAME
    ∧ elementNameParse (ascii "a:") p0 l0 false = .error E57_ERROR_BAD_PATH_NAME := by
  refine ⟨?_, ?_, ⟨_, rfl⟩, rfl, rfl, rfl, rfl, rfl⟩
  · cases name with
    | nil => simp [elementNameParse]
    | cons x xs =>
      have hnum : ¬ (false = true ∧ IsDigitByte x) := by simp
      simp only [elementNameParse_cons_ok_iff x xs p0 l0 false hnum, ne_eq, reduceCtorEq,
        not_false_eq_true, List.head?_cons, Option.some.injEq, forall_eq', List.tail_cons,
        true_and, exists_and_left]
      constructor
      · rintro ⟨h1, h2, h3⟩
        have hx : x ≠ ':'.toNat := by
          unfold IsNameStartByte at h1
          simp only [Char.reduceToNat] at h1 ⊢
          omega
        exact ⟨h1, h2, (colonSplit_exists_iff x xs hx).mp h3⟩
      · rintro ⟨h1, h2, h3⟩
        have hx : x ≠ ':'.toNat := by
          unfold IsNameStartByte at h1
          simp only [Char.reduceToNat] at h1 ⊢
          omega
        exact ⟨h1, h2, (colonSplit_exists_iff x xs hx).mpr h3⟩
  · cases hr : elementNameParse name p0 l0 false with
    | ok r => exact Or.inl ⟨r, rfl⟩
    | error e => rw [elementNameParse_error name p0 l0 false e hr]; exact Or.inr rfl

theorem isDigitByte_not_start {c : Nat} (h : IsDigitByte c) : ¬ IsNameStartByte c := by
  unfold IsDigitByte at h
  unfold IsNameStartByte
  simp only [Char.reduceToNat] at h ⊢
  omega

/-- C3: a successful parse of a name whose first byte is not a digit returns
an empty prefix and the whole name when the name has no colon, and otherwise
the two non-empty, colon-free parts on either side of the colon. -/
theorem C3_elementNameParse_result (name p0 l0 : ustring) (allowNumber : Bool)
    (pfx localPart : ustring)
    (hfirst : ∀ c, name.head? = some c → ¬ IsDigitByte c)
    (h : elementNameParse name p0 l0 allowNumber = .ok (pfx, localPart)) :
    (':'.toNat ∉ name → pfx = [] ∧ localPart = name)
    ∧ (':'.toNat ∈ name → pfx ≠ [] ∧ localPart ≠ [] ∧ ':'.toNat ∉ pfx ∧ ':'.toNat ∉ localPart
        ∧ pfx ++ [':'.toNat] ++ localPart = name) := by
  cases name with
  | nil => simp [elementNameParse] at h
  | cons x xs =>
    have hnum : ¬ (allowNumber = true ∧ IsDigitByte x) := fun hc => hfirst x rfl hc.2
    obtain ⟨-, -, hs⟩ := (elementNameParse_cons_ok_iff x xs p0 l0 allowNumber hnum _).mp h
    rcases hs with ⟨hnot, hr⟩ | ⟨pre, post, hsplit, hp1, hp2, hne1, hne2, hr⟩
    · injection hr with e1 e2
      exact ⟨fun _ => ⟨e1, e2⟩, fun hin => absurd hin hnot⟩
    · injection hr with e1 e2
      subst e1 e2
      refine ⟨fun hnot => ?_, fun _ => ⟨hne1, hne2, hp1, hp2, ?_⟩⟩
      · exfalso; apply hnot; rw [hsplit]; simp
      · rw [hsplit]; simp

theorem C3_elementNameParse_result_witness :
    (':'.toNat ∉ ascii "las:x" → ascii "las" = [] ∧ ascii "x" = ascii "las:x")
    ∧ (':'.toNat ∈ ascii "las:x" → ascii "las" ≠ [] ∧ ascii "x" ≠ [] ∧ ':'.toNat ∉ ascii "las"
        ∧ ':'.toNat ∉ ascii "x" ∧ ascii "las" ++ [':'.toNat] ++ ascii "x" = ascii "las:x") :=
  C3_elementNameParse_result (ascii "las:x") [] [] false (ascii "las") (ascii "x")
    (by intro c hc; cases hc; decide) (by decide)

/-- With `allowNumber = false` a digit-first name is rejected. -/
theorem elementNameParse_digit_first_false (x : Nat) (xs p0 l0 : ustring) (hdx : IsDigitByte x) :
    elementNameParse (x :: xs) p0 l0 false = .error E57_ERROR_BAD_PATH_NAME := by
  cases hr : elementNameParse (x :: xs) p0 l0 false with
  | error e => rw [elementNameParse_error _ _ _ _ e hr]
  | ok r =>
    have := (elementNameParse_cons_ok_iff x xs p0 l0 false (by simp) r).mp hr
    exact absurd this.1 (isDigitByte_not_start hdx)

/-- For a name that does not start with a digit the flag `allowNumber` is irrelevant. -/
theorem elementNameParse_flag_irrelevant (other p0 l0 : ustring)
    (hother : ∀ c, other.head? = some c → ¬ IsDigitByte c) (a b : Bool) :
    elementNameParse other p0 l0 a = elementNameParse other p0 l0 b := by
  cases other with
  | nil => rfl
  | cons z zs =>
    have hz : ¬ IsDigitByte z := hother z rfl
    cases hr : elementNameParse (z :: zs) p0 l0 b with
    | ok r =>
      have h1 := (elementNameParse_cons_ok_iff z zs p0 l0 b (fun hc => hz hc.2) r).mp hr
      exact (elementNameParse_cons_ok_iff z zs p0 l0 a (fun hc => hz hc.2) r).mpr h1
    | error e =>
      rw [elementNameParse_error _ _ _ _ e hr]
      cases hr2 : elementNameParse (z :: zs) p0 l0 a with
      | error e2 => rw [elementNameParse_error _ _ _ _ e2 hr2]
      | ok r =>
        have h1 := (elementNameParse_cons_ok_iff z zs p0 l0 a (fun hc => hz hc.2) r).mp hr2
        have h2 := (elementNameParse_cons_ok_iff z zs p0 l0 b (fun hc => hz hc.2) r).mpr h1
        rw [hr] at h2
        cases h2

/-- For a name whose first byte is a digit, `elementNameParse` with
`allowNumber = true` succeeds exactly when every byte is a digit, returning
with both reference parameters untouched, and fails with
`E57_ERROR_BAD_PATH_NAME` otherwise; with `allowNumber = false` it always fails
with `E57_ERROR_BAD_PATH_NAME`. For a name whose first byte is not a digit the
flag makes no difference. -/
theorem elementNameParse_digit_first (name p0 l0 : ustring)
    (hd : ∃ c, name.head? = some c ∧ IsDigitByte c) :
    ((∃ r, elementNameParse name p0 l0 true = .ok r) ↔ ∀ c ∈ name, IsDigitByte c)
    ∧ ((∃ r, elementNameParse name p0 l0 true = .ok r) ∨
        elementNameParse name p0 l0 true = .error E57_ERROR_BAD_PATH_NAME)
    ∧ (∀ r, elementNameParse name p0 l0 true = .ok r → r = (p0, l0))
    ∧ (∀ r, elementNameParse name [] [] true = .ok r → r.1 = [])
    ∧ elementNameParse name p0 l0 false = .error E57_ERROR_BAD_PATH_NAME
    ∧ (∀ other : ustring, (∀ c, other.head? = some c → ¬ IsDigitByte c) →
        elementNameParse other p0 l0 true = elementNameParse other p0 l0 false)
    ∧ elementNameParse (ascii "1") [] [] true = .ok ([], [])
    ∧ elementNameParse (ascii "1") [] [] false = .error E57_ERROR_BAD_PATH_NAME
    ∧ elementNameParse (ascii "9ab") [] [] true = .error E57_ERROR_BAD_PATH_NAME
    ∧ elementNameParse (ascii "9ab") [] [] false = .error E57_ERROR_BAD_PATH_NAME := by
  obtain ⟨x, hx, hdx⟩ := hd
  cases name with
  | nil => simp at hx
  | cons y xs =>
    simp only [List.head?_cons, Option.some.injEq] at hx
    subst hx
    have key := fun p q => elementNameParse_cons_numeric y xs p q hdx
    have hfalse := elementNameParse_digit_first_false y xs p0 l0 hdx
    refine ⟨?_, ?_, ?_, ?_, hfalse, ?_, rfl, rfl, rfl, rfl⟩
    · constructor
      · rintro ⟨r, hr⟩
        by_contra hc
        have hxs : ¬ ∀ c ∈ xs, IsDigitByte c := by
          intro hall
          apply hc
          intro c hcm
          rcases List.mem_cons.mp hcm with rfl | h
          · exact hdx
          · exact hall c h
        rw [(key p0 l0).2 hxs] at hr
        cases hr
      · intro hall
        exact ⟨_, (key p0 l0).1 (fun c hc => hall c (List.mem_cons_of_mem _ hc))⟩
    · by_cases hall : ∀ c ∈ xs, IsDigitByte c
      · exact Or.inl ⟨_, (key p0 l0).1 hall⟩
      · exact Or.inr ((key p0 l0).2 hall)
    · intro r hr
      by_cases hall : ∀ c ∈ xs, IsDigitByte c
      · rw [(key p0 l0).1 hall] at hr
        injection hr with hr
        exact hr.symm
      · rw [(key p0 l0).2 hall] at hr
        cases hr
    · intro r hr
      by_cases hall : ∀ c ∈ xs, IsDigitByte c
      · rw [(key [] []).1 hall] at hr
        injection hr with hr
        rw [← hr]
      · rw [(key [] []).2 hall] at hr
        cases hr
    · intro other hother
      exact elementNameParse_flag_irrelevant other p0 l0 hother true false

/-- C4, the defect: for the all-digit name "2024" and `allowNumber = true`,
called with "p" and "q" in the reference parameters `prefix` and `localPart`,
`elementNameParse` succeeds and leaves "p" and "q" there: the numeric branch
returns without assigning either parameter, so the prefix handed back is not
empty. The branch for a name without a colon assigns both: the same call on
"abc" hands back the empty prefix and the local part "abc". -/
theorem C4_numeric_branch_keeps_caller_strings :
    (∃ c, (ascii "2024").head? = some c ∧ IsDigitByte c)
    ∧ (∀ c ∈ ascii "2024", IsDigitByte c)
    ∧ elementNameParse (ascii "2024") (ascii "p") (ascii "q") true
        = .ok (ascii "p", ascii "q")
    ∧ ascii "p" ≠ []
    ∧ elementNameParse (ascii "abc") (ascii "p") (ascii "q") true = .ok ([], ascii "abc") := by
  refine ⟨⟨50, by decide, by decide⟩, by decide, by decide, by decide, by decide⟩

/-! ## Legality against the registry: proofs -/

theorem checkImageFileOpen_of_open (imf : ImageFileImpl) (h : isOpen imf = true) :
    checkImageFileOpen imf = .ok () := by
  simp [checkImageFileOpen, h]

/-- On an open container the prefix lookup finds a binding exactly when the
registry holds an entry with that prefix. -/
theorem extensionsLookupPrefix_found_iff (imf : ImageFileImpl) (h : isOpen imf = true)
    (pfx uri : ustring) :
    (∃ u, extensionsLookupPrefix imf pfx uri = .ok (true, u) ∧ ∃ ns ∈ imf.nameSpaces_, ns.pfx = pfx)
    ∨ (extensionsLookupPrefix imf pfx uri = .ok (false, uri) ∧ ∀ ns ∈ imf.nameSpaces_, ns.pfx ≠ pfx) := by
  unfold extensionsLookupPrefix
  rw [checkImageFileOpen_of_open imf h]
  cases hf : imf.nameSpaces_.find? (fun ns => ns.pfx == pfx) with
  | none =>
    right
    refine ⟨rfl, ?_⟩
    intro ns hns
    have := List.find?_eq_none.mp hf ns hns
    simpa using this
  | some ns =>
    left
    refine ⟨ns.uri, rfl, ns, List.mem_of_find?_eq_some hf, ?_⟩
    have := List.find?_some hf
    simpa using this

/-- The outcome of `checkElementNameLegal` on an open container, by cases on the parse. -/
theorem checkElementNameLegal_open (imf : ImageFileImpl) (h : isOpen imf = true)
    (name : ustring) (a : Bool) :
    (∃ e, elementNameParse name [] [] a = .error e ∧
        checkElementNameLegal imf name a = .error E57_ERROR_BAD_PATH_NAME)
    ∨ (∃ pfx lp, elementNameParse name [] [] a = .ok (pfx, lp) ∧ pfx ≠ []
        ∧ (∀ ns ∈ imf.nameSpaces_, ns.pfx ≠ pfx)
        ∧ checkElementNameLegal imf name a = .error E57_ERROR_BAD_PATH_NAME)
    ∨ (∃ pfx lp, elementNameParse name [] [] a = .ok (pfx, lp)
        ∧ (pfx = [] ∨ ∃ ns ∈ imf.nameSpaces_, ns.pfx = pfx)
        ∧ checkElementNameLegal imf name a = .ok ()) := by
  unfold checkElementNameLegal
  cases hp : elementNameParse name [] [] a with
  | error e =>
    left
    rw [elementNameParse_error _ _ _ _ e hp]
    exact ⟨_, rfl, rfl⟩
  | ok r =>
    obtain ⟨pfx, lp⟩ := r
    right
    by_cases hne : pfx = []
    · right
      subst hne
      exact ⟨[], lp, rfl, Or.inl rfl, by simp⟩
    · have hlen : pfx.length > 0 := List.length_pos.mpr hne
      simp only [hlen, if_true]
      rcases extensionsLookupPrefix_found_iff imf h pfx [] with ⟨u, hu, hex⟩ | ⟨hu, hall⟩
      · right
        exact ⟨pfx, lp, rfl, Or.inr hex, by rw [hu]; rfl⟩
      · left
        exact ⟨pfx, lp, rfl, hne, hall, by rw [hu]; rfl⟩

/-- C5: on an open container `checkElementNameLegal` fails, always with
`E57_ERROR_BAD_PATH_NAME`, exactly when `elementNameParse` fails or the parsed
prefix is non-empty and no registry entry binds it. So "abc" is legal with an
empty registry and "a:b" is legal exactly when prefix "a" is registered. -/
theorem C5_checkElementNameLegal (imf : ImageFileImpl) (hopen : isOpen imf = true)
    (name : ustring) (allowNumber : Bool) :
    (checkElementNameLegal imf name allowNumber = .error E57_ERROR_BAD_PATH_NAME ↔
      ((∃ e, elementNameParse name [] [] allowNumber = .error e) ∨
       (∃ pfx lp, elementNameParse name [] [] allowNumber = .ok (pfx, lp) ∧ pfx ≠ []
          ∧ ∀ ns ∈ imf.nameSpaces_, ns.pfx ≠ pfx)))
    ∧ (checkElementNameLegal imf name allowNumber = .ok () ∨
        checkElementNameLegal imf name allowNumber = .error E57_ERROR_BAD_PATH_NAME)
    ∧ checkElementNameLegal (openImageFile []) (ascii "abc") allowNumber = .ok ()
    ∧ (checkElementNameLegal imf (ascii "a:b") allowNumber = .ok () ↔
        ∃ ns ∈ imf.nameSpaces_, ns.pfx = ascii "a") := by
  refine ⟨?_, ?_, by cases allowNumber <;> rfl, ?_⟩
  · rcases checkElementNameLegal_open imf hopen name allowNumber with
      ⟨e, h1, h2⟩ | ⟨pfx, lp, h1, h2, h3, h4⟩ | ⟨pfx, lp, h1, h2, h3⟩
    · exact ⟨fun _ => Or.inl ⟨e, h1⟩, fun _ => h2⟩
    · exact ⟨fun _ => Or.inr ⟨pfx, lp, h1, h2, h3⟩, fun _ => h4⟩
    · rw [h3, h1]
      constructor
      · intro hc; cases hc
      · rintro (⟨e, he⟩ | ⟨p, l, he, hne, hall⟩)
        · cases he
        · injection he with he
          injection he with e1 e2
          subst e1
          rcases h2 with h2 | ⟨ns, hns, hp⟩
          · exact absurd h2 hne
          · exact absurd hp (hall ns hns)
  · rcases checkElementNameLegal_open imf hopen name allowNumber with
      ⟨e, h1, h2⟩ | ⟨pfx, lp, h1, h2, h3, h4⟩ | ⟨pfx, lp, h1, h2, h3⟩
    · exact Or.inr h2
    · exact Or.inr h4
    · exact Or.inl h3
  · have hp : elementNameParse (ascii "a:b") [] [] allowNumber = .ok (ascii "a", ascii "b") := by
      cases allowNumber <;> rfl
    rcases checkElementNameLegal_open imf hopen (ascii "a:b") allowNumber with
      ⟨e, h1, h2⟩ | ⟨pfx, lp, h1, h2, h3, h4⟩ | ⟨pfx, lp, h1, h2, h3⟩
    · rw [hp] at h1; cases h1
    · rw [hp] at h1
      injection h1 with h1
      injection h1 with e1 e2
      subst e1
      rw [h4]
      constructor
      · intro hc; cases hc
      · rintro ⟨ns, hns, hp⟩
        exact absurd hp (h3 ns hns)
    · rw [hp] at h1
      injection h1 with h1
      injection h1 with e1 e2
      subst e1
      rcases h2 with h2 | h2
      · cases h2
      · exact ⟨fun _ => h2, fun _ => h3⟩

theorem C5_checkElementNameLegal_witness :
    (checkElementNameLegal (openImageFile [⟨ascii "las", ascii "urn:las"⟩]) (ascii "nor:x") false
        = .error E57_ERROR_BAD_PATH_NAME ↔
      ((∃ e, elementNameParse (ascii "nor:x") [] [] false = .error e) ∨
       (∃ pfx lp, elementNameParse (ascii "nor:x") [] [] false = .ok (pfx, lp) ∧ pfx ≠ []
          ∧ ∀ ns ∈ (openImageFile [⟨ascii "las", ascii "urn:las"⟩]).nameSpaces_, ns.pfx ≠ pfx)))
    ∧ (checkElementNameLegal (openImageFile [⟨ascii "las", ascii "urn:las"⟩]) (ascii "nor:x") false
          = .ok () ∨
        checkElementNameLegal (openImageFile [⟨ascii "las", ascii "urn:las"⟩]) (ascii "nor:x") false
          = .error E57_ERROR_BAD_PATH_NAME)
    ∧ checkElementNameLegal (openImageFile []) (ascii "abc") false = .ok ()
    ∧ (checkElementNameLegal (openImageFile [⟨ascii "las", ascii "urn:las"⟩]) (ascii "a:b") false
          = .ok () ↔
        ∃ ns ∈ (openImageFile [⟨ascii "las", ascii "urn:las"⟩]).nameSpaces_, ns.pfx = ascii "a") :=
  C5_checkElementNameLegal (openImageFile [⟨ascii "las", ascii "urn:las"⟩]) (by decide)
    (ascii "nor:x") false

/-- C6: `isElementNameExtended` always returns a value, and that value is
`true` exactly when the name holds no '/', `elementNameParse` accepts it and
the parsed prefix is non-empty; neither the container state (registry, open or
not) nor the default of `allowNumber` affects the result. -/
theorem C6_isElementNameExtended (imf : ImageFileImpl) (allowNumberDefault : Bool)
    (name : ustring) :
    (∃ b, isElementNameExtended imf allowNumberDefault name = .ok b ∧
      (b = true ↔ ('/'.toNat ∉ name ∧
        ∃ pfx lp, elementNameParse name [] [] allowNumberDefault = .ok (pfx, lp) ∧ pfx ≠ [])))
    ∧ (∀ (imf2 : ImageFileImpl) (d2 : Bool),
        isElementNameExtended imf2 d2 name = isElementNameExtended imf allowNumberDefault name) := by
  have main : ∀ d : Bool, ∃ b, isElementNameExtended imf d name = .ok b ∧
      (b = true ↔ ('/'.toNat ∉ name ∧
        ∃ pfx lp, elementNameParse name [] [] d = .ok (pfx, lp) ∧ pfx ≠ [])) := by
    intro d
    unfold isElementNameExtended
    by_cases hs : (find_first_of name '/'.toNat 0).isSome = true
    · have hm := (find_first_of_isSome _ _ _).mp hs
      simp only [List.drop_zero] at hm
      rw [if_pos hs]
      exact ⟨false, rfl, ⟨fun hc => Bool.noConfusion hc, fun hc => absurd hm hc.1⟩⟩
    · have hm := (not_iff_not.mpr (find_first_of_isSome name '/'.toNat 0)).mp hs
      simp only [List.drop_zero] at hm
      rw [if_neg hs]
      cases hp : elementNameParse name [] [] d with
      | error e => exact ⟨false, rfl, by simp⟩
      | ok r =>
        obtain ⟨pfx, lp⟩ := r
        refine ⟨decide (pfx.length > 0), rfl, ?_⟩
        simp only [decide_eq_true_eq, Except.ok.injEq, Prod.mk.injEq]
        constructor
        · intro hl
          exact ⟨hm, pfx, lp, ⟨rfl, rfl⟩, List.length_pos.mp hl⟩
        · rintro ⟨-, p, l, ⟨rfl, rfl⟩, hne⟩
          exact List.length_pos.mpr hne
  refine ⟨main allowNumberDefault, ?_⟩
  have indep : ∀ a b : Bool, ∀ i1 i2 : ImageFileImpl,
      isElementNameExtended i1 a name = isElementNameExtended i2 b name := by
    intro a b i1 i2
    unfold isElementNameExtended
    by_cases hs : (find_first_of name '/'.toNat 0).isSome = true
    · rw [if_pos hs, if_pos hs]
    · rw [if_neg hs, if_neg hs]
      cases name with
      | nil => rfl
      | cons x xs =>
        by_cases hx : IsDigitByte x
        · have hnum : ∀ d : Bool, (match elementNameParse (x :: xs) [] [] d with
              | .error _ => (.ok false : Except ErrorCode Bool)
              | .ok (pfx, _) => .ok (decide (pfx.length > 0))) = .ok false := by
            intro d
            cases d with
            | false => rw [elementNameParse_digit_first_false x xs [] [] hx]
            | true =>
              by_cases hall : ∀ c ∈ xs, IsDigitByte c
              · rw [(elementNameParse_cons_numeric x xs [] [] hx).1 hall]; rfl
              · rw [(elementNameParse_cons_numeric x xs [] [] hx).2 hall]
          rw [hnum a, hnum b]
        · have hfirst : ∀ c, (x :: xs).head? = some c → ¬ IsDigitByte c := by
            intro c hc
            simp only [List.head?_cons, Option.some.injEq] at hc
            rw [← hc]; exact hx
          rw [elementNameParse_flag_irrelevant (x :: xs) [] [] hfirst a b]
  intro imf2 d2
  exact indep d2 allowNumberDefault imf2 imf

/-! ## Path names: proofs -/

/-- A round of the loop whose unread rest holds no separator. -/
theorem round_no_slash (path : ustring) (start : Nat)
    (h : '/'.toNat ∉ path.drop start) :
    find_first_of path '/'.toNat start = none := by
  unfold find_first_of
  rw [indexIn_eq_none.mpr h]
  rfl

/-- A round of the loop whose unread rest is `f ++ '/' :: rest2` with `f` free of separators. -/
theorem round_slash (path : ustring) (start : Nat) (f rest2 : ustring)
    (hrest : path.drop start = f ++ '/'.toNat :: rest2) (hf : '/'.toNat ∉ f) :
    find_first_of path '/'.toNat start = some (f.length + start)
    ∧ substr path start (some (f.length + start - start)) = f
    ∧ (f.length + start = path.length - 1 ↔ rest2 = [])
    ∧ path.drop (f.length + start + 1) = rest2 := by
  have hlen : path.length - start = f.length + (rest2.length + 1) := by
    have := congrArg List.length hrest
    simpa using this
  refine ⟨?_, ?_, ?_, ?_⟩
  · unfold find_first_of
    rw [hrest, indexIn_append_of_not_mem hf]
    rfl
  · unfold substr
    simp only [Nat.add_sub_cancel]
    rw [hrest]
    simp
  · constructor
    · intro h
      apply List.eq_nil_of_length_eq_zero
      omega
    · intro h
      rw [h] at hlen
      simp at hlen
      omega
  · have : f.length + start + 1 = start + (f.length + 1) := by omega
    rw [this, ← List.drop_drop, hrest]
    simp

/-- On an unread rest that is not empty the loop of `pathNameParse` computes
`parseFields` of the pieces of the rest, given as many rounds as the rest has bytes. -/
theorem pathNameParseLoop_eq (imf : ImageFileImpl) (a : Bool) (path : ustring) :
    ∀ (fuel start : Nat) (acc : List ustring),
      path.drop start ≠ [] → (path.drop start).length ≤ fuel →
      pathNameParseLoop imf a path fuel start acc =
        parseFields (fun f => isElementNameLegal imf f a)
          ((path.drop start).splitOn '/'.toNat) acc := by
  intro fuel
  induction fuel with
  | zero =>
    intro start acc hne hlen
    exact absurd (List.eq_nil_of_length_eq_zero (by omega)) hne
  | succ n ih =>
    intro start acc hne hlen
    have hstart : start < path.length := by
      by_contra hc
      exact hne (List.drop_eq_nil_of_le (by omega))
    unfold pathNameParseLoop
    rw [if_pos hstart]
    by_cases hs : '/'.toNat ∈ path.drop start
    · cases hidx : indexIn '/'.toNat (path.drop start) with
      | none => exact absurd hs (indexIn_eq_none.mp hidx)
      | some k =>
        obtain ⟨hpre, hsplit⟩ := indexIn_eq_some hidx
        generalize hfdef : (path.drop start).take k = f at hpre hsplit
        generalize hrdef : (path.drop start).drop (k + 1) = rest2 at hsplit
        obtain ⟨h1, h2, h3, h4⟩ := round_slash path start f rest2 hsplit hpre
        have hsp : (path.drop start).splitOn '/'.toNat = f :: rest2.splitOn '/'.toNat := by
          rw [hsplit]
          exact List.splitOnP_first _ _ (fun x hx hc => hpre (by rw [← eq_of_beq hc]; exact hx))
            _ (by simp) _
        simp only [h1, Option.map_some', h2]
        rw [hsp]
        obtain ⟨g, gs, hg⟩ : ∃ g gs, rest2.splitOn '/'.toNat = g :: gs := by
          cases hc : rest2.splitOn '/'.toNat with
          | nil => exact absurd hc (List.splitOnP_ne_nil _ _)
          | cons g gs => exact ⟨g, gs, rfl⟩
        rw [hg]
        unfold parseFields
        by_cases hl : isElementNameLegal imf f a = true
        · simp only [hl, Bool.not_true, Bool.false_eq_true, if_false, if_true]
          have hnil : (g = [] ∧ gs = []) ↔ rest2 = [] := by
            constructor
            · rintro ⟨rfl, rfl⟩
              have := List.intercalate_splitOn rest2 '/'.toNat
              rw [hg] at this
              rw [← this]
              rfl
            · intro h
              rw [h] at hg
              simp at hg
              exact ⟨hg.1, hg.2⟩
          by_cases hr : rest2 = []
          · rw [if_pos (h3.mpr hr), if_pos (hnil.mpr hr)]
            simp
          · rw [if_neg (fun hc => hr (h3.mp hc)), if_neg (fun hc => hr (hnil.mp hc))]
            rw [ih (f.length + start + 1) (acc ++ [f]) (by rw [h4]; exact hr)
              (by rw [h4]; rw [hsplit] at hlen; simp at hlen; omega)]
            rw [h4, hg]
        · simp only [Bool.not_eq_true] at hl
          simp [hl]
    · have h1 := round_no_slash path start hs
      have hsp : (path.drop start).splitOn '/'.toNat = [path.drop start] :=
        List.splitOnP_eq_single _ _ (fun x hx hc => hs (by rw [← eq_of_beq hc]; exact hx))
      simp only [h1, Option.map_none', substr]
      rw [hsp]
      unfold parseFields
      by_cases hl : isElementNameLegal imf (path.drop start) a = true
      · simp [hl]
      · simp only [Bool.not_eq_true] at hl
        simp [hl]

theorem checkedPieces_cons (f g : ustring) (gs : List ustring) :
    checkedPieces (f :: g :: gs) = f :: checkedPieces (g :: gs) := by
  unfold checkedPieces
  rw [List.getLast?_cons_cons]
  by_cases hl : (g :: gs).getLast? = some []
  · rw [if_pos hl, if_pos hl]
    simp [List.dropLast]
  · rw [if_neg hl, if_neg hl]

/-- The outcome of `parseFields` on a list of pieces other than `[]` and `[[]]`. -/
theorem parseFields_eq (legal : ustring → Bool) :
    ∀ (fs : List ustring) (acc : List ustring), fs ≠ [] → fs ≠ [[]] →
      parseFields legal fs acc =
        if (checkedPieces fs).all legal = true then .ok (acc ++ fs)
        else .error E57_ERROR_BAD_PATH_NAME := by
  intro fs
  induction fs with
  | nil => intro acc h _; exact absurd rfl h
  | cons f tl ih =>
    intro acc _ hne
    cases tl with
    | nil =>
      have hf : f ≠ [] := fun hc => hne (by rw [hc])
      have hcp : checkedPieces [f] = [f] := by
        unfold checkedPieces
        rw [if_neg]
        simpa using hf
      rw [hcp]
      unfold parseFields
      by_cases hl : legal f = true
      · simp [hl]
      · simp only [Bool.not_eq_true] at hl
        simp [hl]
    | cons g gs =>
      unfold parseFields
      by_cases hl : legal f = true
      · rw [if_pos hl]
        by_cases hg : g = [] ∧ gs = []
        · rw [if_pos hg]
          obtain ⟨rfl, rfl⟩ := hg
          have hcp : checkedPieces [f, []] = [f] := by
            unfold checkedPieces
            simp
          rw [hcp]
          simp [hl]
        · rw [if_neg hg, checkedPieces_cons f g gs]
          rw [ih (acc ++ [f]) (by simp) (by simpa using hg)]
          simp only [List.all_cons, hl, Bool.true_and, List.append_assoc, List.singleton_append]
      · rw [if_neg hl]
        by_cases hg : g = [] ∧ gs = []
        · obtain ⟨rfl, rfl⟩ := hg
          have hcp : checkedPieces [f, []] = [f] := by
            unfold checkedPieces
            simp
          rw [hcp]
          simp only [Bool.not_eq_true] at hl
          simp [hl]
        · rw [checkedPieces_cons f g gs]
          simp only [Bool.not_eq_true] at hl
          simp [hl]

theorem splitOn_ne_nil (rest : ustring) : rest.splitOn '/'.toNat ≠ [] :=
  List.splitOnP_ne_nil _ _

/-- The pieces of a byte string that is not empty are not just one empty piece. -/
theorem splitOn_ne_singleton_nil (rest : ustring) (h : rest ≠ []) :
    rest.splitOn '/'.toNat ≠ [[]] := by
  intro hc
  have := List.intercalate_splitOn rest '/'.toNat
  rw [hc] at this
  exact h this.symm

/-- `pathNameParse` in closed form: `rest` is the path without a leading
separator; an empty rest is accepted only for an absolute path; otherwise the
path is accepted exactly when every validated piece is legal, and the fields
are then all the pieces. -/
theorem pathNameParse_eq (imf : ImageFileImpl) (a : Bool) (path : ustring) :
    pathNameParse imf a path =
      if path.head? = some '/'.toNat then
        if path.tail = [] then .ok (false, [])
        else if (checkedPieces (path.tail.splitOn '/'.toNat)).all
            (fun f => isElementNameLegal imf f a) = true
          then .ok (false, path.tail.splitOn '/'.toNat)
          else .error E57_ERROR_BAD_PATH_NAME
      else
        if path = [] then .error E57_ERROR_BAD_PATH_NAME
        else if (checkedPieces (path.splitOn '/'.toNat)).all
            (fun f => isElementNameLegal imf f a) = true
          then .ok (true, path.splitOn '/'.toNat)
          else .error E57_ERROR_BAD_PATH_NAME := by
  unfold pathNameParse
  cases path with
  | nil =>
    simp [pathNameParseLoop]
  | cons x xs =>
    by_cases hx : x = '/'.toNat
    · subst hx
      simp only [List.getD_cons_zero, beq_self_eq_true, if_true, List.head?_cons, List.tail_cons,
        Bool.not_true, Bool.false_and, Bool.false_eq_true, if_false]
      by_cases hxs : xs = []
      · subst hxs
        simp [pathNameParseLoop]
      · rw [if_neg hxs]
        have hd : ('/'.toNat :: xs).drop 1 = xs := rfl
        rw [pathNameParseLoop_eq imf a _ _ 1 [] (by rw [hd]; exact hxs)
          (by rw [hd]; simp; omega), hd]
        rw [parseFields_eq _ _ _ (splitOn_ne_nil xs) (splitOn_ne_singleton_nil xs hxs)]
        split_ifs <;> simp
    · have hb : (x == '/'.toNat) = false := by simpa using hx
      have hh : ¬ ((x :: xs).head? = some '/'.toNat) := by simpa using hx
      simp only [List.getD_cons_zero, hb, Bool.false_eq_true, if_false, Bool.not_false,
        Bool.true_and]
      rw [if_neg hh, if_neg (by simp)]
      have hd : (x :: xs).drop 0 = x :: xs := rfl
      rw [pathNameParseLoop_eq imf a _ _ 0 [] (by simp) (by simp), hd]
      rw [parseFields_eq _ _ _ (splitOn_ne_nil (x :: xs)) (splitOn_ne_singleton_nil _ (by simp))]
      have hne : ((x :: xs).splitOn '/'.toNat).isEmpty = false := by
        cases hc : (x :: xs).splitOn '/'.toNat with
        | nil => exact absurd hc (splitOn_ne_nil _)
        | cons _ _ => rfl
      have hne2 : (x :: xs).splitOn '/'.toNat ≠ [] := splitOn_ne_nil _
      split_ifs
      · simp only [List.isEmpty_eq_true, List.nil_append, hne2, if_false]
      · rfl

/-- A trailing separator of a non-empty byte string shows as an empty last piece. -/
theorem splitOn_getLast_nil_iff (rest : ustring) (h : rest ≠ []) :
    (rest.splitOn '/'.toNat).getLast? = some [] ↔ rest.getLast? = some '/'.toNat := by
  induction rest with
  | nil => exact absurd rfl h
  | cons x xs ih =>
    by_cases hxs : xs = []
    · subst hxs
      by_cases hx : x = '/'.toNat
      · subst hx; decide
      · have : [x].splitOn '/'.toNat = [[x]] :=
          List.splitOnP_eq_single _ _ (fun y hy hc => hx (by
            rw [List.mem_singleton] at hy; rw [← hy]; exact eq_of_beq hc))
        rw [this]
        simp only [List.getLast?_singleton, Option.some.injEq, List.cons_ne_self, false_iff,
          reduceCtorEq]
        exact hx
    · have ih2 := ih hxs
      have hlast : (x :: xs).getLast? = xs.getLast? := by
        cases xs with
        | nil => exact absurd rfl hxs
        | cons y ys => exact List.getLast?_cons_cons
      rw [hlast, ← ih2]
      obtain ⟨g, gs, hg⟩ : ∃ g gs, xs.splitOn '/'.toNat = g :: gs := by
        cases hc : xs.splitOn '/'.toNat with
        | nil => exact absurd hc (splitOn_ne_nil _)
        | cons g gs => exact ⟨g, gs, rfl⟩
      have hsp : (x :: xs).splitOn '/'.toNat =
          if (x == '/'.toNat) = true then [] :: xs.splitOn '/'.toNat
          else (xs.splitOn '/'.toNat).modifyHead (List.cons x) := List.splitOnP_cons _ x xs
      rw [hsp, hg]
      by_cases hx : (x == '/'.toNat) = true
      · rw [if_pos hx, List.getLast?_cons_cons]
      · rw [if_neg hx]
        cases gs with
        | nil =>
          have hgx : g = xs := by
            have := List.intercalate_splitOn xs '/'.toNat
            rw [hg] at this
            simpa [List.intercalate] using this
          simp [List.modifyHead, hgx, hxs]
        | cons g2 gs2 =>
          simp only [List.modifyHead, List.getLast?_cons_cons]

theorem pathFields_eq (path : ustring) (h : pathRest path ≠ []) :
    pathFields path = checkedPieces ((pathRest path).splitOn '/'.toNat) := by
  unfold pathFields checkedPieces
  rw [if_neg h]
  by_cases hl : (pathRest path).getLast? = some '/'.toNat
  · rw [if_pos hl, if_pos ((splitOn_getLast_nil_iff _ h).mpr hl)]
  · rw [if_neg hl, if_neg (fun hc => hl ((splitOn_getLast_nil_iff _ h).mp hc))]

/-- An accepted element name is not empty and holds no separator. -/
theorem elementNameParse_ok_no_slash (name p0 l0 : ustring) (a : Bool) (r : ustring × ustring)
    (h : elementNameParse name p0 l0 a = .ok r) : name ≠ [] ∧ '/'.toNat ∉ name := by
  cases name with
  | nil => simp [elementNameParse] at h
  | cons x xs =>
    refine ⟨by simp, ?_⟩
    by_cases hnum : a = true ∧ IsDigitByte x
    · obtain ⟨rfl, hdx⟩ := hnum
      by_cases hall : ∀ c ∈ xs, IsDigitByte c
      · intro hc
        have : IsDigitByte '/'.toNat := by
          rcases List.mem_cons.mp hc with h1 | h1
          · rw [h1]; exact hdx
          · exact hall _ h1
        revert this
        decide
      · rw [(elementNameParse_cons_numeric x xs p0 l0 hdx).2 hall] at h
        cases h
    · obtain ⟨h1, h2, -⟩ := (elementNameParse_cons_ok_iff x xs p0 l0 a hnum r).mp h
      intro hc
      rcases List.mem_cons.mp hc with h3 | h3
      · rw [← h3] at h1
        revert h1
        decide
      · have := h2 _ h3
        revert this
        decide

theorem isElementNameLegal_open (imf : ImageFileImpl) (hopen : isOpen imf = true)
    (name : ustring) (a : Bool) :
    isElementNameLegal imf name a = true ↔ checkElementNameLegal imf name a = .ok () := by
  unfold isElementNameLegal
  rw [checkImageFileOpen_of_open imf hopen]
  cases h : checkElementNameLegal imf name a with
  | error e => simp
  | ok u => simp

theorem checkElementNameLegal_ok_no_slash (imf : ImageFileImpl) (name : ustring) (a : Bool)
    (h : checkElementNameLegal imf name a = .ok ()) : name ≠ [] ∧ '/'.toNat ∉ name := by
  unfold checkElementNameLegal at h
  cases hp : elementNameParse name [] [] a with
  | error e => rw [hp] at h; cases h
  | ok r => exact elementNameParse_ok_no_slash name [] [] a r hp

/-- For a name that does not start with a digit `checkElementNameLegal` ignores `allowNumber`. -/
theorem checkElementNameLegal_flag_irrelevant (imf : ImageFileImpl) (name : ustring)
    (h : ∀ c, name.head? = some c → ¬ IsDigitByte c) (a b : Bool) :
    checkElementNameLegal imf name a = checkElementNameLegal imf name b := by
  unfold checkElementNameLegal
  rw [elementNameParse_flag_irrelevant name [] [] h a b]

theorem mem_of_mem_checkedPieces {f : ustring} {fs : List ustring}
    (h : f ∈ checkedPieces fs) : f ∈ fs := by
  unfold checkedPieces at h
  split_ifs at h
  · exact List.dropLast_subset fs h
  · exact h

theorem mem_checkedPieces_of_ne_nil {f : ustring} {fs : List ustring}
    (h : f ∈ fs) (hne : f ≠ []) : f ∈ checkedPieces fs := by
  unfold checkedPieces
  split_ifs with hl
  · have := List.dropLast_append_getLast? [] (by rw [hl]; rfl : ([] : ustring) ∈ fs.getLast?)
    rw [← this] at h
    rcases List.mem_append.mp h with h1 | h1
    · exact h1
    · exact absurd (List.mem_singleton.mp h1) hne
  · exact h

/-- `pathNameParse` in closed form, on the path without its leading separator. -/
theorem pathNameParse_rest (imf : ImageFileImpl) (a : Bool) (path : ustring) :
    (pathRest path = [] →
      pathNameParse imf a path =
        if path = [] then .error E57_ERROR_BAD_PATH_NAME else .ok (false, []))
    ∧ (pathRest path ≠ [] →
      pathNameParse imf a path =
        if (checkedPieces ((pathRest path).splitOn '/'.toNat)).all
            (fun f => isElementNameLegal imf f a) = true
        then .ok (decide (path.head? ≠ some '/'.toNat), (pathRest path).splitOn '/'.toNat)
        else .error E57_ERROR_BAD_PATH_NAME) := by
  rw [pathNameParse_eq]
  unfold pathRest
  by_cases hh : path.head? = some '/'.toNat
  · simp only [hh, if_true, ne_eq, not_true_eq_false, decide_False]
    constructor
    · intro ht
      rw [if_pos ht, if_neg]
      intro hc
      rw [hc] at hh
      cases hh
    · intro ht
      rw [if_neg ht]
  · simp only [hh, if_false, ne_eq, not_false_eq_true, decide_True]
    constructor
    · intro ht
      rw [if_pos ht, if_pos ht]
    · intro ht
      rw [if_neg ht]

theorem intercalate_cons_cons (sep f g : ustring) (gs : List ustring) :
    sep.intercalate (f :: g :: gs) = f ++ sep ++ sep.intercalate (g :: gs) := by
  simp [List.intercalate, List.intersperse]

theorem intercalate_concat_nil (sep : ustring) (fs : List ustring) (hne : fs ≠ []) :
    sep.intercalate (fs ++ [[]]) = sep.intercalate fs ++ sep := by
  induction fs with
  | nil => exact absurd rfl hne
  | cons f tl ih =>
    cases tl with
    | nil => simp [List.intercalate, List.intersperse]
    | cons g gs =>
      have : f :: g :: gs ++ [[]] = f :: g :: (gs ++ [[]]) := rfl
      rw [this, intercalate_cons_cons, intercalate_cons_cons]
      have h2 : g :: (gs ++ [[]]) = (g :: gs) ++ [[]] := rfl
      rw [h2, ih (by simp)]
      simp

/-- Parsing a joined list of separator-free pieces whose first byte is not a
separator, relative and absolute. -/
theorem pathNameParse_join (imf : ImageFileImpl) (d : Bool) (gs : List ustring)
    (hne : gs ≠ []) (hsf : ∀ g ∈ gs, '/'.toNat ∉ g)
    (hhead : ∃ x r, ['/'.toNat].intercalate gs = x :: r ∧ x ≠ '/'.toNat)
    (hall : ∀ g ∈ checkedPieces gs, isElementNameLegal imf g d = true) :
    pathNameParse imf d (['/'.toNat].intercalate gs) = .ok (true, gs)
    ∧ pathNameParse imf d ('/'.toNat :: ['/'.toNat].intercalate gs) = .ok (false, gs) := by
  obtain ⟨x, r, hj, hx⟩ := hhead
  have hsp : (['/'.toNat].intercalate gs).splitOn '/'.toNat = gs :=
    List.splitOn_intercalate gs '/'.toNat hsf hne
  have hall2 : (checkedPieces gs).all (fun f => isElementNameLegal imf f d) = true := by
    rw [List.all_eq_true]
    exact hall
  constructor
  · have hrest : pathRest (['/'.toNat].intercalate gs) = ['/'.toNat].intercalate gs := by
      unfold pathRest
      rw [hj, if_neg]
      simpa using hx
    have := (pathNameParse_rest imf d (['/'.toNat].intercalate gs)).2 (by rw [hrest, hj]; simp)
    rw [this, hrest, hsp, if_pos hall2, hj]
    have : (x :: r).head? ≠ some '/'.toNat := by simpa using hx
    simp only [ne_eq, this, not_false_eq_true, decide_True]
  · have hrest : pathRest ('/'.toNat :: ['/'.toNat].intercalate gs)
        = ['/'.toNat].intercalate gs := by
      unfold pathRest
      rw [List.head?_cons, if_pos rfl]
      rfl
    have := (pathNameParse_rest imf d ('/'.toNat :: ['/'.toNat].intercalate gs)).2
      (by rw [hrest, hj]; simp)
    rw [this, hrest, hsp, if_pos hall2]
    simp

/-- C7: on an open container, for a non-empty list `fs` of names that
`checkElementNameLegal` accepts and that do not start with a digit, the path
made by joining `fs` with '/' parses to `(relative, fs)`, the same path behind
a leading '/' parses to `(absolute, fs)`, and either path followed by one more
'/' parses to the same flag with the fields `fs ++ [""]`. This holds for either
default of `allowNumber`. -/
theorem C7_pathNameParse_join (imf : ImageFileImpl) (hopen : isOpen imf = true)
    (allowNumberDefault allowNumber : Bool) (fs : List ustring) (hne : fs ≠ [])
    (hlegal : ∀ f ∈ fs, checkElementNameLegal imf f allowNumber = .ok ())
    (hnd : ∀ f ∈ fs, ∀ c, f.head? = some c → ¬ IsDigitByte c) :
    pathNameParse imf allowNumberDefault (['/'.toNat].intercalate fs) = .ok (true, fs)
    ∧ pathNameParse imf allowNumberDefault ('/'.toNat :: ['/'.toNat].intercalate fs)
        = .ok (false, fs)
    ∧ pathNameParse imf allowNumberDefault (['/'.toNat].intercalate fs ++ ['/'.toNat])
        = .ok (true, fs ++ [[]])
    ∧ pathNameParse imf allowNumberDefault
        ('/'.toNat :: (['/'.toNat].intercalate fs ++ ['/'.toNat])) = .ok (false, fs ++ [[]])
    ∧ pathNameParse (openImageFile []) allowNumberDefault (ascii "/a/b")
        = .ok (false, [ascii "a", ascii "b"])
    ∧ pathNameParse (openImageFile []) allowNumberDefault (ascii "a/b/")
        = .ok (true, [ascii "a", ascii "b", ascii ""]) := by
  have hsf : ∀ f ∈ fs, f ≠ [] ∧ '/'.toNat ∉ f := fun f hf =>
    checkElementNameLegal_ok_no_slash imf f allowNumber (hlegal f hf)
  have hleg : ∀ f ∈ fs, isElementNameLegal imf f allowNumberDefault = true := by
    intro f hf
    rw [isElementNameLegal_open imf hopen,
      checkElementNameLegal_flag_irrelevant imf f (hnd f hf) allowNumberDefault allowNumber]
    exact hlegal f hf
  have hhead : ∃ x r, ['/'.toNat].intercalate fs = x :: r ∧ x ≠ '/'.toNat := by
    cases fs with
    | nil => exact absurd rfl hne
    | cons f tl =>
      obtain ⟨hfne, hfs⟩ := hsf f (List.mem_cons_self _ _)
      cases f with
      | nil => exact absurd rfl hfne
      | cons x xs =>
        have hx : x ≠ '/'.toNat := fun hc => hfs (by rw [hc]; exact List.mem_cons_self _ _)
        cases tl with
        | nil => exact ⟨x, xs, by simp [List.intercalate, List.intersperse], hx⟩
        | cons g gs => exact ⟨x, _, by rw [intercalate_cons_cons]; rfl, hx⟩
  have hlast : fs.getLast? ≠ some [] := by
    intro hc
    exact (hsf [] (List.mem_of_getLast?_eq_some hc)).1 rfl
  have hcp : checkedPieces fs = fs := by
    unfold checkedPieces
    rw [if_neg hlast]
  have hcp2 : checkedPieces (fs ++ [[]]) = fs := by
    unfold checkedPieces
    rw [if_pos (by simp)]
    simp
  obtain ⟨h1, h2⟩ := pathNameParse_join imf allowNumberDefault fs hne (fun g hg => (hsf g hg).2)
    hhead (by rw [hcp]; exact hleg)
  have hj := intercalate_concat_nil ['/'.toNat] fs hne
  obtain ⟨h3, h4⟩ := pathNameParse_join imf allowNumberDefault (fs ++ [[]]) (by simp)
    (by
      intro g hg
      rcases List.mem_append.mp hg with hg | hg
      · exact (hsf g hg).2
      · rw [List.mem_singleton.mp hg]; simp)
    (by
      obtain ⟨x, r, hxr, hx⟩ := hhead
      exact ⟨x, r ++ ['/'.toNat], by rw [hj, hxr]; rfl, hx⟩)
    (by rw [hcp2]; exact hleg)
  rw [hj] at h3 h4
  refine ⟨h1, h2, h3, h4, ?_, ?_⟩ <;> cases allowNumberDefault <;> decide

theorem C7_pathNameParse_join_witness :
    pathNameParse (openImageFile [⟨ascii "las", ascii "urn:las"⟩]) true
        (['/'.toNat].intercalate [ascii "data3D", ascii "las:points"])
      = .ok (true, [ascii "data3D", ascii "las:points"])
    ∧ pathNameParse (openImageFile [⟨ascii "las", ascii "urn:las"⟩]) true
        ('/'.toNat :: ['/'.toNat].intercalate [ascii "data3D", ascii "las:points"])
      = .ok (false, [ascii "data3D", ascii "las:points"])
    ∧ pathNameParse (openImageFile [⟨ascii "las", ascii "urn:las"⟩]) true
        (['/'.toNat].intercalate [ascii "data3D", ascii "las:points"] ++ ['/'.toNat])
      = .ok (true, [ascii "data3D", ascii "las:points"] ++ [[]])
    ∧ pathNameParse (openImageFile [⟨ascii "las", ascii "urn:las"⟩]) true
        ('/'.toNat :: (['/'.toNat].intercalate [ascii "data3D", ascii "las:points"]
          ++ ['/'.toNat]))
      = .ok (false, [ascii "data3D", ascii "las:points"] ++ [[]])
    ∧ pathNameParse (openImageFile []) true (ascii "/a/b")
        = .ok (false, [ascii "a", ascii "b"])
    ∧ pathNameParse (openImageFile []) true (ascii "a/b/")
        = .ok (true, [ascii "a", ascii "b", ascii ""]) :=
  C7_pathNameParse_join (openImageFile [⟨ascii "las", ascii "urn:las"⟩]) (by decide) true false
    [ascii "data3D", ascii "las:points"] (by decide) (by decide) (by decide)

/-- C8: on an open container, for a path none of whose '/'-separated pieces
starts with a digit, `pathNameParse` fails, always with
`E57_ERROR_BAD_PATH_NAME`, exactly when the path is empty or one of its fields
(the pieces after one leading '/', without the empty piece left by one trailing
'/') is rejected by `checkElementNameLegal`. So "", "//", "a//b" and "x:y" with
"x" unregistered are rejected, and "/" is accepted as absolute with no fields. -/
theorem C8_pathNameParse_fails_iff (imf : ImageFileImpl) (hopen : isOpen imf = true)
    (allowNumberDefault allowNumber : Bool) (path : ustring)
    (hnd : ∀ f ∈ (pathRest path).splitOn '/'.toNat, ∀ c, f.head? = some c → ¬ IsDigitByte c) :
    (pathNameParse imf allowNumberDefault path = .error E57_ERROR_BAD_PATH_NAME ↔
      (path = [] ∨ ∃ f ∈ pathFields path, checkElementNameLegal imf f allowNumber ≠ .ok ()))
    ∧ ((∃ r, pathNameParse imf allowNumberDefault path = .ok r) ∨
        pathNameParse imf allowNumberDefault path = .error E57_ERROR_BAD_PATH_NAME)
    ∧ pathNameParse (openImageFile []) allowNumberDefault (ascii "")
        = .error E57_ERROR_BAD_PATH_NAME
    ∧ pathNameParse (openImageFile []) allowNumberDefault (ascii "//")
        = .error E57_ERROR_BAD_PATH_NAME
    ∧ pathNameParse (openImageFile []) allowNumberDefault (ascii "a//b")
        = .error E57_ERROR_BAD_PATH_NAME
    ∧ pathNameParse (openImageFile []) allowNumberDefault (ascii "x:y")
        = .error E57_ERROR_BAD_PATH_NAME
    ∧ pathNameParse (openImageFile []) allowNumberDefault (ascii "/") = .ok (false, []) := by
  refine ⟨?_, ?_, ?_, ?_, ?_, ?_, ?_⟩
  · by_cases hr : pathRest path = []
    · rw [(pathNameParse_rest imf allowNumberDefault path).1 hr]
      have hpf : pathFields path = [] := by unfold pathFields; rw [if_pos hr]
      rw [hpf]
      by_cases hp : path = []
      · simp [hp]
      · simp [hp]
    · rw [(pathNameParse_rest imf allowNumberDefault path).2 hr, pathFields_eq path hr]
      have hp : path ≠ [] := by
        intro hc
        apply hr
        rw [hc]
        rfl
      have hiff : ∀ f ∈ checkedPieces ((pathRest path).splitOn '/'.toNat),
          (isElementNameLegal imf f allowNumberDefault = true ↔
            checkElementNameLegal imf f allowNumber = .ok ()) := by
        intro f hf
        rw [isElementNameLegal_open imf hopen, checkElementNameLegal_flag_irrelevant imf f
          (hnd f (mem_of_mem_checkedPieces hf)) allowNumberDefault allowNumber]
      by_cases hall : (checkedPieces ((pathRest path).splitOn '/'.toNat)).all
          (fun f => isElementNameLegal imf f allowNumberDefault) = true
      · rw [if_pos hall]
        rw [List.all_eq_true] at hall
        constructor
        · intro hc; cases hc
        · rintro (h | ⟨f, hf, hbad⟩)
          · exact absurd h hp
          · exact absurd ((hiff f hf).mp (hall f hf)) hbad
      · rw [if_neg hall]
        rw [List.all_eq_true] at hall
        push_neg at hall
        obtain ⟨f, hf, hbad⟩ := hall
        exact ⟨fun _ => Or.inr ⟨f, hf, fun hc => hbad ((hiff f hf).mpr hc)⟩, fun _ => rfl⟩
  · by_cases hr : pathRest path = []
    · rw [(pathNameParse_rest imf allowNumberDefault path).1 hr]
      split_ifs
      · exact Or.inr rfl
      · exact Or.inl ⟨_, rfl⟩
    · rw [(pathNameParse_rest imf allowNumberDefault path).2 hr]
      split_ifs
      · exact Or.inl ⟨_, rfl⟩
      · exact Or.inr rfl
  all_goals cases allowNumberDefault <;> decide

theorem C8_pathNameParse_fails_iff_witness :
    (pathNameParse (openImageFile [⟨ascii "las", ascii "urn:las"⟩]) true (ascii "/data3D/nor:x/")
        = .error E57_ERROR_BAD_PATH_NAME ↔
      (ascii "/data3D/nor:x/" = [] ∨ ∃ f ∈ pathFields (ascii "/data3D/nor:x/"),
        checkElementNameLegal (openImageFile [⟨ascii "las", ascii "urn:las"⟩]) f false ≠ .ok ()))
    ∧ ((∃ r, pathNameParse (openImageFile [⟨ascii "las", ascii "urn:las"⟩]) true
          (ascii "/data3D/nor:x/") = .ok r) ∨
        pathNameParse (openImageFile [⟨ascii "las", ascii "urn:las"⟩]) true
          (ascii "/data3D/nor:x/") = .error E57_ERROR_BAD_PATH_NAME)
    ∧ pathNameParse (openImageFile []) true (ascii "") = .error E57_ERROR_BAD_PATH_NAME
    ∧ pathNameParse (openImageFile []) true (ascii "//") = .error E57_ERROR_BAD_PATH_NAME
    ∧ pathNameParse (openImageFile []) true (ascii "a//b") = .error E57_ERROR_BAD_PATH_NAME
    ∧ pathNameParse (openImageFile []) true (ascii "x:y") = .error E57_ERROR_BAD_PATH_NAME
    ∧ pathNameParse (openImageFile []) true (ascii "/") = .ok (false, []) :=
  C8_pathNameParse_fails_iff (openImageFile [⟨ascii "las", ascii "urn:las"⟩]) (by decide)
    true false (ascii "/data3D/nor:x/") (by decide)

/-- C9: on an open container, with the default of `allowNumber` that the
specification describes (names validated as non-numeric), `pathNameParse`
fails with `E57_ERROR_BAD_PATH_NAME` on every path one of whose '/'-separated
pieces is a non-empty run of digits, such as "/a/0" and "1". -/
theorem C9_pathNameParse_rejects_numeric (imf : ImageFileImpl) (hopen : isOpen imf = true)
    (path : ustring)
    (hnum : ∃ f ∈ (pathRest path).splitOn '/'.toNat, f ≠ [] ∧ ∀ c ∈ f, IsDigitByte c) :
    pathNameParse imf isElementNameLegal_allowNumber_default path
        = .error E57_ERROR_BAD_PATH_NAME
    ∧ pathNameParse (openImageFile []) isElementNameLegal_allowNumber_default (ascii "/a/0")
        = .error E57_ERROR_BAD_PATH_NAME
    ∧ pathNameParse (openImageFile []) isElementNameLegal_allowNumber_default (ascii "1")
        = .error E57_ERROR_BAD_PATH_NAME := by
  refine ⟨?_, by decide, by decide⟩
  obtain ⟨f, hf, hne, hdig⟩ := hnum
  have hr : pathRest path ≠ [] := by
    intro hc
    rw [hc] at hf
    simp at hf
    exact hne hf
  rw [(pathNameParse_rest imf _ path).2 hr, if_neg]
  rw [List.all_eq_true]
  push_neg
  refine ⟨f, mem_checkedPieces_of_ne_nil hf hne, ?_⟩
  intro hlegal
  have hc := (isElementNameLegal_open imf hopen f _).mp hlegal
  cases f with
  | nil => exact absurd rfl hne
  | cons x xs =>
    unfold checkElementNameLegal isElementNameLegal_allowNumber_default at hc
    rw [elementNameParse_digit_first_false x xs [] [] (hdig x (List.mem_cons_self _ _))] at hc
    cases hc

theorem C9_pathNameParse_rejects_numeric_witness :
    pathNameParse (openImageFile []) isElementNameLegal_allowNumber_default
        (ascii "/data3D/0/points") = .error E57_ERROR_BAD_PATH_NAME
    ∧ pathNameParse (openImageFile []) isElementNameLegal_allowNumber_default (ascii "/a/0")
        = .error E57_ERROR_BAD_PATH_NAME
    ∧ pathNameParse (openImageFile []) isElementNameLegal_allowNumber_default (ascii "1")
        = .error E57_ERROR_BAD_PATH_NAME :=
  C9_pathNameParse_rejects_numeric (openImageFile []) (by decide) (ascii "/data3D/0/points")
    ⟨ascii "0", by decide, by decide, by decide⟩

/-- With the other value of the absent default (`allowNumber = true`) a digit
field is accepted: the outcome of C9 rests on the default alone. -/
theorem pathNameParse_numeric_field_default_true :
    pathNameParse (openImageFile []) true (ascii "/a/0") = .ok (false, [ascii "a", ascii "0"]) := by
  decide

theorem intercalate_cons_eq (sep f : ustring) (tl : List ustring) :
    sep.intercalate (f :: tl) = f ++ (if tl = [] then [] else sep ++ sep.intercalate tl) := by
  cases tl with
  | nil => simp [List.intercalate, List.intersperse]
  | cons g gs => rw [intercalate_cons_cons]; simp

/-- The loop of `pathNameUnparse` from index `pre.length`, with the fields
`pre` already written: it ends and appends the remaining fields joined by '/'.
The counter does not wrap because the list is shorter than `2^32`. -/
theorem pathNameUnparseLoop_eq :
    ∀ (suf pre : List ustring) (fuel : Nat) (path : ustring),
      (pre ++ suf).length < 4294967296 → suf.length < fuel →
      pathNameUnparseLoop (pre ++ suf) fuel pre.length path
        = some (path ++ ['/'.toNat].intercalate suf) := by
  intro suf
  induction suf with
  | nil =>
    intro pre fuel path _ hfuel
    cases fuel with
    | zero => simp at hfuel
    | succ n =>
      unfold pathNameUnparseLoop
      simp [List.intercalate]
  | cons f tl ih =>
    intro pre fuel path hlen hfuel
    cases fuel with
    | zero => simp at hfuel
    | succ n =>
      unfold pathNameUnparseLoop
      have hi : pre.length < (pre ++ f :: tl).length := by simp
      rw [if_pos hi]
      have hget : (pre ++ f :: tl).getD pre.length [] = f := by
        rw [List.getD_eq_getElem?_getD, List.getElem?_append_right (Nat.le_refl _)]
        simp
      have hmod : (pre.length + 1) % 4294967296 = (pre ++ [f]).length := by
        simp only [List.length_append, List.length_cons, List.length_nil] at hlen ⊢
        omega
      have hsplit : pre ++ f :: tl = (pre ++ [f]) ++ tl := by simp
      simp only [hget, hmod]
      rw [intercalate_cons_eq]
      by_cases htl : tl = []
      · subst htl
        have hnot : ¬ (pre.length < (pre ++ [f]).length - 1) := by simp
        rw [if_neg hnot, if_pos rfl]
        have := ih (pre ++ [f]) n (path ++ f) (by simpa using hlen) (by simpa using hfuel)
        simp only [List.append_nil] at this
        rw [this]
        simp [List.intercalate]
      · have hlt : pre.length < (pre ++ f :: tl).length - 1 := by
          have : 0 < tl.length := List.length_pos.mpr htl
          simp only [List.length_append, List.length_cons]
          omega
        rw [if_pos hlt, if_neg htl, hsplit]
        rw [ih (pre ++ [f]) n (path ++ f ++ ['/'.toNat]) (by rw [← hsplit]; exact hlen)
          (by simp only [List.length_cons] at hfuel; omega)]
        simp

/-- C10: for a list of fewer than `2^32` fields (the range of the `unsigned`
loop counter) `pathNameUnparse` returns "/" for an absolute path and nothing
for a relative one, followed by the fields joined with "/": a separator
between consecutive fields and none after the last. An empty list gives "" or
"/", and `pathNameUnparse(false, ["a","b"])` is "/a/b". -/
theorem C10_pathNameUnparse (isRelative : Bool) (fields : List ustring)
    (hlen : fields.length < 4294967296) :
    pathNameUnparse isRelative fields
      = some ((if isRelative then [] else ['/'.toNat]) ++ ['/'.toNat].intercalate fields)
    ∧ pathNameUnparse true [] = some (ascii "")
    ∧ pathNameUnparse false [] = some (ascii "/")
    ∧ pathNameUnparse false [ascii "a", ascii "b"] = some (ascii "/a/b") := by
  refine ⟨?_, by decide, by decide, by decide⟩
  unfold pathNameUnparse
  have := pathNameUnparseLoop_eq fields [] (fields.length + 1)
    (if !isRelative then ['/'.toNat] else []) (by simpa using hlen) (by omega)
  simp only [List.nil_append, List.length_nil] at this
  rw [this]
  cases isRelative <;> rfl

theorem C10_pathNameUnparse_witness :
    pathNameUnparse true [ascii "data3D", ascii "0", ascii "points"]
      = some ((if true then [] else ['/'.toNat]) ++
          ['/'.toNat].intercalate [ascii "data3D", ascii "0", ascii "points"])
    ∧ pathNameUnparse true [] = some (ascii "")
    ∧ pathNameUnparse false [] = some (ascii "/")
    ∧ pathNameUnparse false [ascii "a", ascii "b"] = some (ascii "/a/b") :=
  C10_pathNameUnparse true [ascii "data3D", ascii "0", ascii "points"] (by decide)

/-- Beyond the range of the counter the loop of `pathNameUnparse` does not end:
the bound `fields.length < 2^32` of `C10_pathNameUnparse` is the exact domain. -/
theorem pathNameUnparse_counter_wraps (isRelative : Bool) (fields : List ustring)
    (hlen : 4294967296 ≤ fields.length) : pathNameUnparse isRelative fields = none := by
  have key : ∀ (fuel i : Nat) (path : ustring), i < 4294967296 →
      pathNameUnparseLoop fields fuel i path = none := by
    intro fuel
    induction fuel with
    | zero => intro i path _; rfl
    | succ n ih =>
      intro i path hi
      unfold pathNameUnparseLoop
      rw [if_pos (by omega)]
      exact ih _ _ (Nat.mod_lt _ (by norm_num))
  exact key _ _ _ (by norm_num)

/-! ## Namespace registry: proofs -/

theorem extensionsLookupPrefix_open (imf : ImageFileImpl) (h : isOpen imf = true)
    (pfx d : ustring) :
    extensionsLookupPrefix imf pfx d =
      match imf.nameSpaces_.find? (fun ns => ns.pfx == pfx) with
      | some ns => .ok (true, ns.uri)
      | none => .ok (false, d) := by
  unfold extensionsLookupPrefix
  rw [checkImageFileOpen_of_open imf h]

theorem extensionsLookupUri_open (imf : ImageFileImpl) (h : isOpen imf = true)
    (uri d : ustring) :
    extensionsLookupUri imf uri d =
      match imf.nameSpaces_.find? (fun ns => ns.uri == uri) with
      | some ns => .ok (true, ns.pfx)
      | none => .ok (false, d) := by
  unfold extensionsLookupUri
  rw [checkImageFileOpen_of_open imf h]

theorem find_pfx_eq_none {reg : List NameSpace} {p : ustring} :
    reg.find? (fun ns => ns.pfx == p) = none ↔ ∀ ns ∈ reg, ns.pfx ≠ p := by
  rw [List.find?_eq_none]
  simp

theorem find_uri_eq_none {reg : List NameSpace} {u : ustring} :
    reg.find? (fun ns => ns.uri == u) = none ↔ ∀ ns ∈ reg, ns.uri ≠ u := by
  rw [List.find?_eq_none]
  simp

/-- With unique prefixes the search by prefix returns the one entry that has it. -/
theorem find_pfx_of_mem {reg : List NameSpace} (hinv : RegistryInv reg) {p u : ustring}
    (hmem : (⟨p, u⟩ : NameSpace) ∈ reg) :
    reg.find? (fun ns => ns.pfx == p) = some ⟨p, u⟩ := by
  induction reg with
  | nil => simp at hmem
  | cons x xs ih =>
    have hnd : x.pfx ∉ xs.map (fun ns => ns.pfx) := (List.nodup_cons.mp hinv.1).1
    have hinv2 : RegistryInv xs := ⟨(List.nodup_cons.mp hinv.1).2, (List.nodup_cons.mp hinv.2).2⟩
    rcases List.mem_cons.mp hmem with h | h
    · subst h
      simp [List.find?]
    · have hx : x.pfx ≠ p := by
        intro hc
        apply hnd
        rw [hc]
        exact List.mem_map.mpr ⟨_, h, rfl⟩
      have hb : (x.pfx == p) = false := by simpa using hx
      rw [List.find?_cons, hb]
      exact ih hinv2 h

/-- With unique URIs the search by URI returns the one entry that has it. -/
theorem find_uri_of_mem {reg : List NameSpace} (hinv : RegistryInv reg) {p u : ustring}
    (hmem : (⟨p, u⟩ : NameSpace) ∈ reg) :
    reg.find? (fun ns => ns.uri == u) = some ⟨p, u⟩ := by
  induction reg with
  | nil => simp at hmem
  | cons x xs ih =>
    have hnd : x.uri ∉ xs.map (fun ns => ns.uri) := (List.nodup_cons.mp hinv.2).1
    have hinv2 : RegistryInv xs := ⟨(List.nodup_cons.mp hinv.1).2, (List.nodup_cons.mp hinv.2).2⟩
    rcases List.mem_cons.mp hmem with h | h
    · subst h
      simp [List.find?]
    · have hx : x.uri ≠ u := by
        intro hc
        apply hnd
        rw [hc]
        exact List.mem_map.mpr ⟨_, h, rfl⟩
      have hb : (x.uri == u) = false := by simpa using hx
      rw [List.find?_cons, hb]
      exact ih hinv2 h

/-- The three outcomes of `extensionsAdd` on an open container. -/
theorem extensionsAdd_open (imf : ImageFileImpl) (h : isOpen imf = true) (pfx uri : ustring) :
    ((∃ ns ∈ imf.nameSpaces_, ns.pfx = pfx) ∧
      extensionsAdd imf pfx uri = (.error E57_ERROR_DUPLICATE_NAMESPACE_PREFIX, imf))
    ∨ ((∀ ns ∈ imf.nameSpaces_, ns.pfx ≠ pfx) ∧ (∃ ns ∈ imf.nameSpaces_, ns.uri = uri) ∧
      extensionsAdd imf pfx uri = (.error E57_ERROR_DUPLICATE_NAMESPACE_URI, imf))
    ∨ ((∀ ns ∈ imf.nameSpaces_, ns.pfx ≠ pfx) ∧ (∀ ns ∈ imf.nameSpaces_, ns.uri ≠ uri) ∧
      extensionsAdd imf pfx uri =
        (.ok (), { imf with nameSpaces_ := imf.nameSpaces_ ++ [⟨pfx, uri⟩] })) := by
  unfold extensionsAdd
  rw [checkImageFileOpen_of_open imf h, extensionsLookupPrefix_open imf h]
  cases hp : imf.nameSpaces_.find? (fun ns => ns.pfx == pfx) with
  | some ns =>
    left
    refine ⟨⟨ns, List.mem_of_find?_eq_some hp, ?_⟩, rfl⟩
    simpa using List.find?_some hp
  | none =>
    right
    have hpn := find_pfx_eq_none.mp hp
    simp only [Bool.false_eq_true, if_false]
    rw [extensionsLookupUri_open imf h]
    cases hu : imf.nameSpaces_.find? (fun ns => ns.uri == uri) with
    | some ns =>
      left
      refine ⟨hpn, ⟨ns, List.mem_of_find?_eq_some hu, ?_⟩, rfl⟩
      simpa using List.find?_some hu
    | none =>
      right
      exact ⟨hpn, find_uri_eq_none.mp hu, rfl⟩

theorem extensionsAdd_closed (imf : ImageFileImpl) (h : isOpen imf = false) (pfx uri : ustring) :
    extensionsAdd imf pfx uri = (.error E57_ERROR_IMAGEFILE_NOT_OPEN, imf) := by
  simp [extensionsAdd, checkImageFileOpen, h]

/-- C11: on an open container `extensionsAdd` fails with
`E57_ERROR_DUPLICATE_NAMESPACE_PREFIX` when the prefix is bound (whether or not
the URI is bound too), otherwise with `E57_ERROR_DUPLICATE_NAMESPACE_URI` when
the URI is bound, in both cases leaving the container as it was; otherwise it
succeeds and appends `(prefix, uri)` as the last entry, so that the count grows
by one and every earlier index keeps its prefix and URI. -/
theorem C11_extensionsAdd (imf : ImageFileImpl) (hopen : isOpen imf = true)
    (pfx uri : ustring) :
    ((∃ ns ∈ imf.nameSpaces_, ns.pfx = pfx) →
      extensionsAdd imf pfx uri = (.error E57_ERROR_DUPLICATE_NAMESPACE_PREFIX, imf))
    ∧ ((∀ ns ∈ imf.nameSpaces_, ns.pfx ≠ pfx) → (∃ ns ∈ imf.nameSpaces_, ns.uri = uri) →
      extensionsAdd imf pfx uri = (.error E57_ERROR_DUPLICATE_NAMESPACE_URI, imf))
    ∧ ((∀ ns ∈ imf.nameSpaces_, ns.pfx ≠ pfx) → (∀ ns ∈ imf.nameSpaces_, ns.uri ≠ uri) →
      (extensionsAdd imf pfx uri).1 = .ok ()
      ∧ (extensionsAdd imf pfx uri).2 =
          { imf with nameSpaces_ := imf.nameSpaces_ ++ [⟨pfx, uri⟩] }
      ∧ extensionsCount (extensionsAdd imf pfx uri).2 = .ok (imf.nameSpaces_.length + 1)
      ∧ extensionsPrefix (extensionsAdd imf pfx uri).2 imf.nameSpaces_.length = .ok (some pfx)
      ∧ extensionsUri (extensionsAdd imf pfx uri).2 imf.nameSpaces_.length = .ok (some uri)
      ∧ ∀ i, i < imf.nameSpaces_.length →
          extensionsPrefix (extensionsAdd imf pfx uri).2 i = extensionsPrefix imf i
          ∧ extensionsUri (extensionsAdd imf pfx uri).2 i = extensionsUri imf i) := by
  rcases extensionsAdd_open imf hopen pfx uri with ⟨h1, h2⟩ | ⟨h1, h2, h3⟩ | ⟨h1, h2, h3⟩
  · refine ⟨fun _ => h2, ?_, ?_⟩
    · intro hc
      obtain ⟨ns, hns, hp⟩ := h1
      exact absurd hp (hc ns hns)
    · intro hc
      obtain ⟨ns, hns, hp⟩ := h1
      exact absurd hp (hc ns hns)
  · refine ⟨?_, fun _ _ => h3, ?_⟩
    · rintro ⟨ns, hns, hp⟩
      exact absurd hp (h1 ns hns)
    · intro _ hc
      obtain ⟨ns, hns, hp⟩ := h2
      exact absurd hp (hc ns hns)
  · refine ⟨?_, ?_, ?_⟩
    · rintro ⟨ns, hns, hp⟩
      exact absurd hp (h1 ns hns)
    · intro _ ⟨ns, hns, hp⟩
      exact absurd hp (h2 ns hns)
    · intro _ _
      rw [h3]
      have hopen2 : isOpen { imf with nameSpaces_ := imf.nameSpaces_ ++ [⟨pfx, uri⟩] } = true :=
        hopen
      have hopen3 : checkImageFileOpen imf = .ok () := checkImageFileOpen_of_open imf hopen
      refine ⟨rfl, rfl, ?_, ?_, ?_, ?_⟩
      · unfold extensionsCount
        rw [checkImageFileOpen_of_open _ hopen2]
        simp
      · unfold extensionsPrefix
        rw [checkImageFileOpen_of_open _ hopen2]
        simp
      · unfold extensionsUri
        rw [checkImageFileOpen_of_open _ hopen2]
        simp
      · intro i hi
        unfold extensionsPrefix extensionsUri
        rw [checkImageFileOpen_of_open _ hopen2, hopen3]
        simp [List.getElem?_append_left hi]

theorem C11_extensionsAdd_witness :
    ((∃ ns ∈ (openImageFile [⟨ascii "a", ascii "urn:x"⟩]).nameSpaces_, ns.pfx = ascii "b") →
      extensionsAdd (openImageFile [⟨ascii "a", ascii "urn:x"⟩]) (ascii "b") (ascii "urn:y")
        = (.error E57_ERROR_DUPLICATE_NAMESPACE_PREFIX, openImageFile [⟨ascii "a", ascii "urn:x"⟩]))
    ∧ ((∀ ns ∈ (openImageFile [⟨ascii "a", ascii "urn:x"⟩]).nameSpaces_, ns.pfx ≠ ascii "b") →
      (∃ ns ∈ (openImageFile [⟨ascii "a", ascii "urn:x"⟩]).nameSpaces_, ns.uri = ascii "urn:y") →
      extensionsAdd (openImageFile [⟨ascii "a", ascii "urn:x"⟩]) (ascii "b") (ascii "urn:y")
        = (.error E57_ERROR_DUPLICATE_NAMESPACE_URI, openImageFile [⟨ascii "a", ascii "urn:x"⟩]))
    ∧ ((∀ ns ∈ (openImageFile [⟨ascii "a", ascii "urn:x"⟩]).nameSpaces_, ns.pfx ≠ ascii "b") →
      (∀ ns ∈ (openImageFile [⟨ascii "a", ascii "urn:x"⟩]).nameSpaces_, ns.uri ≠ ascii "urn:y") →
      (extensionsAdd (openImageFile [⟨ascii "a", ascii "urn:x"⟩]) (ascii "b") (ascii "urn:y")).1
        = .ok ()
      ∧ (extensionsAdd (openImageFile [⟨ascii "a", ascii "urn:x"⟩]) (ascii "b") (ascii "urn:y")).2 =
          { openImageFile [⟨ascii "a", ascii "urn:x"⟩] with
            nameSpaces_ := (openImageFile [⟨ascii "a", ascii "urn:x"⟩]).nameSpaces_
              ++ [⟨ascii "b", ascii "urn:y"⟩] }
      ∧ extensionsCount
          (extensionsAdd (openImageFile [⟨ascii "a", ascii "urn:x"⟩]) (ascii "b") (ascii "urn:y")).2
          = .ok ((openImageFile [⟨ascii "a", ascii "urn:x"⟩]).nameSpaces_.length + 1)
      ∧ extensionsPrefix
          (extensionsAdd (openImageFile [⟨ascii "a", ascii "urn:x"⟩]) (ascii "b") (ascii "urn:y")).2
          (openImageFile [⟨ascii "a", ascii "urn:x"⟩]).nameSpaces_.length = .ok (some (ascii "b"))
      ∧ extensionsUri
          (extensionsAdd (openImageFile [⟨ascii "a", ascii "urn:x"⟩]) (ascii "b") (ascii "urn:y")).2
          (openImageFile [⟨ascii "a", ascii "urn:x"⟩]).nameSpaces_.length
          = .ok (some (ascii "urn:y"))
      ∧ ∀ i, i < (openImageFile [⟨ascii "a", ascii "urn:x"⟩]).nameSpaces_.length →
          extensionsPrefix
            (extensionsAdd (openImageFile [⟨ascii "a", ascii "urn:x"⟩]) (ascii "b")
              (ascii "urn:y")).2 i
            = extensionsPrefix (openImageFile [⟨ascii "a", ascii "urn:x"⟩]) i
          ∧ extensionsUri
            (extensionsAdd (openImageFile [⟨ascii "a", ascii "urn:x"⟩]) (ascii "b")
              (ascii "urn:y")).2 i
            = extensionsUri (openImageFile [⟨ascii "a", ascii "urn:x"⟩]) i) :=
  C11_extensionsAdd (openImageFile [⟨ascii "a", ascii "urn:x"⟩]) (by decide)
    (ascii "b") (ascii "urn:y")

theorem RegistryInv_nil : RegistryInv [] := by
  simp [RegistryInv]

theorem RegistryInv_append (reg : List NameSpace) (p u : ustring) (hinv : RegistryInv reg)
    (hp : ∀ ns ∈ reg, ns.pfx ≠ p) (hu : ∀ ns ∈ reg, ns.uri ≠ u) :
    RegistryInv (reg ++ [⟨p, u⟩]) := by
  unfold RegistryInv
  simp only [List.map_append, List.map_cons, List.map_nil]
  constructor
  · rw [List.nodup_append]
    refine ⟨hinv.1, List.nodup_singleton _, ?_⟩
    intro a ha hb
    rw [List.mem_singleton] at hb
    obtain ⟨ns, hns, rfl⟩ := List.mem_map.mp ha
    exact hp ns hns hb
  · rw [List.nodup_append]
    refine ⟨hinv.2, List.nodup_singleton _, ?_⟩
    intro a ha hb
    rw [List.mem_singleton] at hb
    obtain ⟨ns, hns, rfl⟩ := List.mem_map.mp ha
    exact hu ns hns hb

/-- One `extensionsAdd`, on any container: the registry stays as it was on a
failure and gains the binding at its end on a success; the file is untouched
and the uniqueness invariant is kept. -/
theorem extensionsAdd_step (imf : ImageFileImpl) (p u : ustring) :
    (extensionsAdd imf p u).2.file_ = imf.file_
    ∧ (RegistryInv imf.nameSpaces_ → RegistryInv (extensionsAdd imf p u).2.nameSpaces_)
    ∧ (((∃ e, (extensionsAdd imf p u).1 = .error e) ∧ (extensionsAdd imf p u).2 = imf)
      ∨ ((extensionsAdd imf p u).1 = .ok () ∧
          (extensionsAdd imf p u).2.nameSpaces_ = imf.nameSpaces_ ++ [⟨p, u⟩])) := by
  cases hopen : isOpen imf with
  | false =>
    rw [extensionsAdd_closed imf hopen]
    exact ⟨rfl, fun h => h, Or.inl ⟨⟨_, rfl⟩, rfl⟩⟩
  | true =>
    rcases extensionsAdd_open imf hopen p u with ⟨-, h2⟩ | ⟨-, -, h3⟩ | ⟨h1, h2, h3⟩
    · rw [h2]
      exact ⟨rfl, fun h => h, Or.inl ⟨⟨_, rfl⟩, rfl⟩⟩
    · rw [h3]
      exact ⟨rfl, fun h => h, Or.inl ⟨⟨_, rfl⟩, rfl⟩⟩
    · rw [h3]
      exact ⟨rfl, fun h => RegistryInv_append _ _ _ h h1 h2, Or.inr ⟨rfl, rfl⟩⟩

/-- A run of `extensionsAdd` calls keeps the file and the invariant, and its
registry is the initial one followed by the bindings that were added. -/
theorem extensionsAddAll_spec (calls : List (ustring × ustring)) :
    ∀ imf : ImageFileImpl,
      (extensionsAddAll imf calls).file_ = imf.file_
      ∧ (RegistryInv imf.nameSpaces_ → RegistryInv (extensionsAddAll imf calls).nameSpaces_)
      ∧ (extensionsAddAll imf calls).nameSpaces_ = imf.nameSpaces_ ++ successfulAdds imf calls := by
  induction calls with
  | nil => intro imf; simp [extensionsAddAll, successfulAdds]
  | cons c rest ih =>
    intro imf
    obtain ⟨p, u⟩ := c
    obtain ⟨h1, h2, h3⟩ := extensionsAdd_step imf p u
    obtain ⟨i1, i2, i3⟩ := ih (extensionsAdd imf p u).2
    unfold extensionsAddAll successfulAdds
    refine ⟨by rw [i1, h1], fun h => i2 (h2 h), ?_⟩
    rw [i3]
    rcases h3 with ⟨⟨e, he⟩, hs⟩ | ⟨hok, hs⟩
    · rw [he]
      simp only
      rw [hs]
    · rw [hok]
      simp only
      rw [hs]
      simp

theorem isOpen_of_file_eq {a b : ImageFileImpl} (h : a.file_ = b.file_) (hb : isOpen b = true) :
    isOpen a = true := by
  unfold isOpen at hb ⊢
  rw [h]
  exact hb

/-- On an open container with the uniqueness invariant, a lookup by prefix
finds `u` exactly when `(p, u)` is an entry, and so does a lookup by URI. -/
theorem lookup_iff_mem (imf : ImageFileImpl) (hopen : isOpen imf = true)
    (hinv : RegistryInv imf.nameSpaces_) (p u d : ustring) :
    (extensionsLookupPrefix imf p d = .ok (true, u) ↔ (⟨p, u⟩ : NameSpace) ∈ imf.nameSpaces_)
    ∧ (extensionsLookupUri imf u d = .ok (true, p) ↔ (⟨p, u⟩ : NameSpace) ∈ imf.nameSpaces_) := by
  rw [extensionsLookupPrefix_open imf hopen, extensionsLookupUri_open imf hopen]
  constructor
  · constructor
    · intro h
      cases hf : imf.nameSpaces_.find? (fun ns => ns.pfx == p) with
      | none => rw [hf] at h; simp at h
      | some ns =>
        rw [hf] at h
        simp only [Except.ok.injEq, Prod.mk.injEq, true_and] at h
        have hp : ns.pfx = p := by simpa using List.find?_some hf
        have : ns = ⟨p, u⟩ := by cases ns; simp_all
        rw [← this]
        exact List.mem_of_find?_eq_some hf
    · intro h
      rw [find_pfx_of_mem hinv h]
  · constructor
    · intro h
      cases hf : imf.nameSpaces_.find? (fun ns => ns.uri == u) with
      | none => rw [hf] at h; simp at h
      | some ns =>
        rw [hf] at h
        simp only [Except.ok.injEq, Prod.mk.injEq, true_and] at h
        have hp : ns.uri = u := by simpa using List.find?_some hf
        have : ns = ⟨p, u⟩ := by cases ns; simp_all
        rw [← this]
        exact List.mem_of_find?_eq_some hf
    · intro h
      rw [find_uri_of_mem hinv h]

/-- C12: in a registry built from the empty one by `extensionsAdd` calls on an
open container, a successful `extensionsAdd(p, u)` is followed by a lookup by
prefix that finds `u` and a lookup by URI that finds `p`; in general the lookup
of `p` finds `u` exactly when the lookup of `u` finds `p`, exactly when
`(p, u)` is an entry; a key that is not bound is reported as not found, the
reference parameter keeping its value. -/
theorem C12_lookup_agreement (imf0 : ImageFileImpl) (hopen : isOpen imf0 = true)
    (hempty : imf0.nameSpaces_ = []) (calls : List (ustring × ustring)) :
    (∀ p u d, (extensionsAdd (extensionsAddAll imf0 calls) p u).1 = .ok () →
      extensionsLookupPrefix (extensionsAdd (extensionsAddAll imf0 calls) p u).2 p d = .ok (true, u)
      ∧ extensionsLookupUri (extensionsAdd (extensionsAddAll imf0 calls) p u).2 u d = .ok (true, p))
    ∧ (∀ p u d1 d2,
      (extensionsLookupPrefix (extensionsAddAll imf0 calls) p d1 = .ok (true, u) ↔
        extensionsLookupUri (extensionsAddAll imf0 calls) u d2 = .ok (true, p))
      ∧ (extensionsLookupPrefix (extensionsAddAll imf0 calls) p d1 = .ok (true, u) ↔
        (⟨p, u⟩ : NameSpace) ∈ (extensionsAddAll imf0 calls).nameSpaces_))
    ∧ (∀ p d, (∀ ns ∈ (extensionsAddAll imf0 calls).nameSpaces_, ns.pfx ≠ p) →
      extensionsLookupPrefix (extensionsAddAll imf0 calls) p d = .ok (false, d))
    ∧ (∀ u d, (∀ ns ∈ (extensionsAddAll imf0 calls).nameSpaces_, ns.uri ≠ u) →
      extensionsLookupUri (extensionsAddAll imf0 calls) u d = .ok (false, d))
    ∧ extensionsLookupPrefix (extensionsAdd (openImageFile []) (ascii "a") (ascii "urn:x")).2
        (ascii "a") [] = .ok (true, ascii "urn:x")
    ∧ extensionsLookupUri (extensionsAdd (openImageFile []) (ascii "a") (ascii "urn:x")).2
        (ascii "urn:x") [] = .ok (true, ascii "a") := by
  obtain ⟨hfile, hinv, -⟩ := extensionsAddAll_spec calls imf0
  have hinv1 : RegistryInv (extensionsAddAll imf0 calls).nameSpaces_ :=
    hinv (by rw [hempty]; exact RegistryInv_nil)
  have hopen1 : isOpen (extensionsAddAll imf0 calls) = true := isOpen_of_file_eq hfile hopen
  refine ⟨?_, ?_, ?_, ?_, by decide, by decide⟩
  · intro p u d hok
    obtain ⟨sfile, sinv, sres⟩ := extensionsAdd_step (extensionsAddAll imf0 calls) p u
    have hopen2 := isOpen_of_file_eq sfile hopen1
    have hmem : (⟨p, u⟩ : NameSpace) ∈ (extensionsAdd (extensionsAddAll imf0 calls) p u).2.nameSpaces_ := by
      rcases sres with ⟨⟨e, he⟩, -⟩ | ⟨-, hs⟩
      · rw [he] at hok; cases hok
      · rw [hs]; simp
    have := lookup_iff_mem _ hopen2 (sinv hinv1) p u d
    exact ⟨this.1.mpr hmem, this.2.mpr hmem⟩
  · intro p u d1 d2
    have h1 := lookup_iff_mem _ hopen1 hinv1 p u d1
    have h2 := lookup_iff_mem _ hopen1 hinv1 p u d2
    exact ⟨h1.1.trans h2.2.symm, h1.1⟩
  · intro p d hp
    rw [extensionsLookupPrefix_open _ hopen1, find_pfx_eq_none.mpr hp]
  · intro u d hu
    rw [extensionsLookupUri_open _ hopen1, find_uri_eq_none.mpr hu]

theorem C12_lookup_agreement_witness :
    (∀ p u d, (extensionsAdd (extensionsAddAll (openImageFile []) sampleAdds) p u).1
        = .ok () →
      extensionsLookupPrefix (extensionsAdd (extensionsAddAll (openImageFile []) sampleAdds) p u).2
        p d = .ok (true, u)
      ∧ extensionsLookupUri (extensionsAdd (extensionsAddAll (openImageFile []) sampleAdds) p u).2
        u d = .ok (true, p))
    ∧ (∀ p u d1 d2,
      (extensionsLookupPrefix (extensionsAddAll (openImageFile []) sampleAdds)
          p d1 = .ok (true, u) ↔
        extensionsLookupUri (extensionsAddAll (openImageFile []) sampleAdds)
          u d2 = .ok (true, p))
      ∧ (extensionsLookupPrefix (extensionsAddAll (openImageFile []) sampleAdds)
          p d1 = .ok (true, u) ↔
        (⟨p, u⟩ : NameSpace) ∈ (extensionsAddAll (openImageFile []) sampleAdds).nameSpaces_))
    ∧ (∀ p d, (∀ ns ∈ (extensionsAddAll (openImageFile []) sampleAdds).nameSpaces_,
          ns.pfx ≠ p) →
      extensionsLookupPrefix (extensionsAddAll (openImageFile []) sampleAdds) p d
        = .ok (false, d))
    ∧ (∀ u d, (∀ ns ∈ (extensionsAddAll (openImageFile []) sampleAdds).nameSpaces_,
          ns.uri ≠ u) →
      extensionsLookupUri (extensionsAddAll (openImageFile []) sampleAdds) u d
        = .ok (false, d))
    ∧ extensionsLookupPrefix (extensionsAdd (openImageFile []) (ascii "a") (ascii "urn:x")).2
        (ascii "a") [] = .ok (true, ascii "urn:x")
    ∧ extensionsLookupUri (extensionsAdd (openImageFile []) (ascii "a") (ascii "urn:x")).2
        (ascii "urn:x") [] = .ok (true, ascii "a") :=
  C12_lookup_agreement (openImageFile []) (by decide) (by decide)
    sampleAdds

/-- C13: in the registry reached from the empty one by any run of
`extensionsAdd` calls, successful or failed, no two entries share a prefix and
no two share a URI, and the registry is exactly the list of the bindings whose
call succeeded, in call order, which is what `extensionsCount`,
`extensionsPrefix` and `extensionsUri` enumerate on an open container. -/
theorem C13_registry_invariant (imf0 : ImageFileImpl) (hempty : imf0.nameSpaces_ = [])
    (calls : List (ustring × ustring)) :
    (extensionsAddAll imf0 calls).nameSpaces_.Pairwise (fun a b => a.pfx ≠ b.pfx)
    ∧ (extensionsAddAll imf0 calls).nameSpaces_.Pairwise (fun a b => a.uri ≠ b.uri)
    ∧ (extensionsAddAll imf0 calls).nameSpaces_ = successfulAdds imf0 calls
    ∧ (isOpen imf0 = true →
        extensionsCount (extensionsAddAll imf0 calls) = .ok (successfulAdds imf0 calls).length
        ∧ ∀ i,
          extensionsPrefix (extensionsAddAll imf0 calls) i
            = .ok (((successfulAdds imf0 calls).get? i).map (fun ns => ns.pfx))
          ∧ extensionsUri (extensionsAddAll imf0 calls) i
            = .ok (((successfulAdds imf0 calls).get? i).map (fun ns => ns.uri))) := by
  obtain ⟨hfile, hinv, hreg⟩ := extensionsAddAll_spec calls imf0
  have hinv1 := hinv (by rw [hempty]; exact RegistryInv_nil)
  rw [hempty, List.nil_append] at hreg
  refine ⟨?_, ?_, hreg, ?_⟩
  · exact List.pairwise_map.mp hinv1.1
  · exact List.pairwise_map.mp hinv1.2
  · intro hopen
    have hopen1 : checkImageFileOpen (extensionsAddAll imf0 calls) = .ok () :=
      checkImageFileOpen_of_open _ (isOpen_of_file_eq hfile hopen)
    unfold extensionsCount extensionsPrefix extensionsUri
    rw [hopen1, hreg]
    exact ⟨rfl, fun i => ⟨rfl, rfl⟩⟩

theorem C13_registry_invariant_witness :
    (extensionsAddAll (openImageFile []) sampleAdds).nameSpaces_.Pairwise
      (fun a b => a.pfx ≠ b.pfx)
    ∧ (extensionsAddAll (openImageFile []) sampleAdds).nameSpaces_.Pairwise
      (fun a b => a.uri ≠ b.uri)
    ∧ (extensionsAddAll (openImageFile []) sampleAdds).nameSpaces_
        = successfulAdds (openImageFile []) sampleAdds
    ∧ (isOpen (openImageFile []) = true →
        extensionsCount (extensionsAddAll (openImageFile []) sampleAdds)
          = .ok (successfulAdds (openImageFile []) sampleAdds).length
        ∧ ∀ i,
          extensionsPrefix (extensionsAddAll (openImageFile []) sampleAdds) i
            = .ok (((successfulAdds (openImageFile []) sampleAdds).get? i).map (fun ns => ns.pfx))
          ∧ extensionsUri (extensionsAddAll (openImageFile []) sampleAdds) i
            = .ok (((successfulAdds (openImageFile []) sampleAdds).get? i).map (fun ns => ns.uri))) :=
  C13_registry_invariant (openImageFile []) (by decide) sampleAdds

/-- The run of the examples adds the first and the third binding. -/
theorem sampleAdds_registry :
    (extensionsAddAll (openImageFile []) sampleAdds).nameSpaces_
      = [⟨ascii "a", ascii "urn:x"⟩, ⟨ascii "b", ascii "urn:z"⟩] := by
  decide

/-! ## File header: proofs -/

/-- On the eight bytes of a signature `strncmp` against "ASTM-E57" is equality. -/
theorem strncmpIsZero_magic (sig : ustring) (hlen : sig.length = 8) :
    strncmpIsZero sig (ascii "ASTM-E57") 8 = true ↔ sig = ascii "ASTM-E57" := by
  match sig, hlen with
  | [a, b, c, d, e, f, g, h], _ =>
    simp only [strncmpIsZero, ascii]
    simp
    omega

/-- `readFileHeader` on a header whose signature test passes: the checks in
their order. -/
theorem readFileHeader_of_signature (k : Constants) (len : Nat) (header : E57FileHeader)
    (hsig : strncmpIsZero header.fileSignature (ascii "ASTM-E57") 8 = true) :
    readFileHeader k len header =
      if VersionTooNew k header then .error E57_ERROR_UNKNOWN_FILE_VERSION
      else if header.filePhysicalLength ≠ len
          ∨ (header.majorVersion ≠ 0 ∧ header.pageSize ≠ k.physicalPageSize) then
        .error E57_ERROR_BAD_FILE_LENGTH
      else .ok () := by
  unfold readFileHeader VersionTooNew
  simp only [hsig, Bool.not_true, Bool.false_eq_true, if_false]
  by_cases h1 : header.majorVersion > k.E57_FORMAT_MAJOR
  · simp [h1]
  · by_cases h2 : header.majorVersion = k.E57_FORMAT_MAJOR
    · by_cases h3 : header.minorVersion > k.E57_FORMAT_MINOR
      · simp [h2, h3]
      · by_cases h4 : header.filePhysicalLength = len
        · by_cases h5 : header.majorVersion = 0 <;>
            by_cases h6 : header.pageSize = k.physicalPageSize <;>
            simp_all
        · simp_all
    · by_cases h4 : header.filePhysicalLength = len
      · by_cases h5 : header.majorVersion = 0 <;>
          by_cases h6 : header.pageSize = k.physicalPageSize <;>
          simp_all
      · simp_all

theorem readFileHeader_bad_signature (k : Constants) (len : Nat) (header : E57FileHeader)
    (hsig : strncmpIsZero header.fileSignature (ascii "ASTM-E57") 8 = false) :
    readFileHeader k len header = .error E57_ERROR_BAD_FILE_SIGNATURE := by
  unfold readFileHeader
  simp [hsig]

/-- C14: for a header that carries the signature "ASTM-E57", `readFileHeader`
fails with `E57_ERROR_UNKNOWN_FILE_VERSION` exactly when the major version
exceeds the supported one, or equals it while the minor version exceeds the
supported one; a header with a smaller major version (whatever its minor
version), or with the supported major version and a minor version not above
the supported one, is not rejected for its version. -/
theorem C14_version_gate (k : Constants) (actualPhysicalLength : Nat) (header : E57FileHeader)
    (hsig : header.fileSignature = ascii "ASTM-E57") :
    (readFileHeader k actualPhysicalLength header = .error E57_ERROR_UNKNOWN_FILE_VERSION ↔
      (header.majorVersion > k.E57_FORMAT_MAJOR
        ∨ (header.majorVersion = k.E57_FORMAT_MAJOR
            ∧ header.minorVersion > k.E57_FORMAT_MINOR)))
    ∧ ((header.majorVersion < k.E57_FORMAT_MAJOR
          ∨ (header.majorVersion = k.E57_FORMAT_MAJOR
              ∧ header.minorVersion ≤ k.E57_FORMAT_MINOR)) →
        readFileHeader k actualPhysicalLength header ≠ .error E57_ERROR_UNKNOWN_FILE_VERSION) := by
  have hs : strncmpIsZero header.fileSignature (ascii "ASTM-E57") 8 = true := by
    rw [hsig]; decide
  have key : readFileHeader k actualPhysicalLength header = .error E57_ERROR_UNKNOWN_FILE_VERSION
      ↔ VersionTooNew k header := by
    rw [readFileHeader_of_signature k _ header hs]
    by_cases hv : VersionTooNew k header
    · simp [hv]
    · rw [if_neg hv]
      constructor
      · intro h
        split_ifs at h
        all_goals cases h
      · intro h
        exact absurd h hv
  refine ⟨key, ?_⟩
  intro h hc
  have := key.mp hc
  unfold VersionTooNew at this
  omega

theorem C14_version_gate_witness :
    (readFileHeader sampleConstants 4096
        { sampleOpenEnv.header with majorVersion := 1, minorVersion := 3 }
        = .error E57_ERROR_UNKNOWN_FILE_VERSION ↔
      ({ sampleOpenEnv.header with majorVersion := 1, minorVersion := 3 }.majorVersion
          > sampleConstants.E57_FORMAT_MAJOR
        ∨ ({ sampleOpenEnv.header with majorVersion := 1, minorVersion := 3 }.majorVersion
            = sampleConstants.E57_FORMAT_MAJOR
          ∧ { sampleOpenEnv.header with majorVersion := 1, minorVersion := 3 }.minorVersion
            > sampleConstants.E57_FORMAT_MINOR)))
    ∧ (({ sampleOpenEnv.header with majorVersion := 1, minorVersion := 3 }.majorVersion
          < sampleConstants.E57_FORMAT_MAJOR
        ∨ ({ sampleOpenEnv.header with majorVersion := 1, minorVersion := 3 }.majorVersion
            = sampleConstants.E57_FORMAT_MAJOR
          ∧ { sampleOpenEnv.header with majorVersion := 1, minorVersion := 3 }.minorVersion
            ≤ sampleConstants.E57_FORMAT_MINOR)) →
        readFileHeader sampleConstants 4096
          { sampleOpenEnv.header with majorVersion := 1, minorVersion := 3 }
          ≠ .error E57_ERROR_UNKNOWN_FILE_VERSION) :=
  C14_version_gate sampleConstants 4096
    { sampleOpenEnv.header with majorVersion := 1, minorVersion := 3 } (by decide)

/-- C15: `readFileHeader` accepts a header exactly when its eight signature
bytes are "ASTM-E57", its version is not newer than supported, its recorded
physical length is the actual one, and its major version is 0 or its page size
is the page-size constant. It fails with `E57_ERROR_BAD_FILE_SIGNATURE` exactly
when the signature differs, and with `E57_ERROR_BAD_FILE_LENGTH` exactly when
signature and version pass but the length differs or the major version is not
0 and the page size is wrong; a header of major version 0 that passes the
other checks is accepted with any page size. -/
theorem C15_readFileHeader_accepts_iff (k : Constants) (actualPhysicalLength : Nat)
    (header : E57FileHeader) (hlen : header.fileSignature.length = 8) :
    (readFileHeader k actualPhysicalLength header = .ok () ↔
      (header.fileSignature = ascii "ASTM-E57" ∧ ¬ VersionTooNew k header
        ∧ header.filePhysicalLength = actualPhysicalLength
        ∧ (header.majorVersion = 0 ∨ header.pageSize = k.physicalPageSize)))
    ∧ (readFileHeader k actualPhysicalLength header = .error E57_ERROR_BAD_FILE_SIGNATURE ↔
      header.fileSignature ≠ ascii "ASTM-E57")
    ∧ (readFileHeader k actualPhysicalLength header = .error E57_ERROR_BAD_FILE_LENGTH ↔
      (header.fileSignature = ascii "ASTM-E57" ∧ ¬ VersionTooNew k header
        ∧ (header.filePhysicalLength ≠ actualPhysicalLength
          ∨ (header.majorVersion ≠ 0 ∧ header.pageSize ≠ k.physicalPageSize))))
    ∧ (∀ pageSize, header.majorVersion = 0 → header.fileSignature = ascii "ASTM-E57" →
        ¬ VersionTooNew k header → header.filePhysicalLength = actualPhysicalLength →
        readFileHeader k actualPhysicalLength { header with pageSize := pageSize } = .ok ()) := by
  have hmagic := strncmpIsZero_magic header.fileSignature hlen
  have proto : ∀ pageSize, header.majorVersion = 0 → header.fileSignature = ascii "ASTM-E57" →
      ¬ VersionTooNew k header → header.filePhysicalLength = actualPhysicalLength →
      readFileHeader k actualPhysicalLength { header with pageSize := pageSize } = .ok () := by
    intro pageSize h0 hs hv hl
    have hv2 : ¬ VersionTooNew k { header with pageSize := pageSize } := hv
    rw [readFileHeader_of_signature k actualPhysicalLength { header with pageSize := pageSize }
      (hmagic.mpr hs), if_neg hv2, if_neg]
    simp [hl, h0]
  by_cases hs : header.fileSignature = ascii "ASTM-E57"
  · rw [readFileHeader_of_signature k _ header (hmagic.mpr hs)]
    by_cases hv : VersionTooNew k header
    · rw [if_pos hv]
      refine ⟨?_, ?_, ?_, proto⟩
      · constructor
        · intro h; cases h
        · intro h; exact absurd hv h.2.1
      · constructor
        · intro h; cases h
        · intro h; exact absurd hs h
      · constructor
        · intro h; cases h
        · intro h; exact absurd hv h.2.1
    · rw [if_neg hv]
      by_cases hl : header.filePhysicalLength ≠ actualPhysicalLength
          ∨ (header.majorVersion ≠ 0 ∧ header.pageSize ≠ k.physicalPageSize)
      · rw [if_pos hl]
        refine ⟨?_, ?_, ?_, proto⟩
        · constructor
          · intro h; cases h
          · rintro ⟨-, -, h1, h2⟩
            rcases hl with hl | ⟨hl1, hl2⟩
            · exact absurd h1 hl
            · rcases h2 with h2 | h2
              · exact absurd h2 hl1
              · exact absurd h2 hl2
        · constructor
          · intro h; cases h
          · intro h; exact absurd hs h
        · exact ⟨fun _ => ⟨hs, hv, hl⟩, fun _ => rfl⟩
      · rw [if_neg hl]
        refine ⟨?_, ?_, ?_, proto⟩
        · refine ⟨fun _ => ⟨hs, hv, ?_, ?_⟩, fun _ => rfl⟩
          · by_contra hc; exact hl (Or.inl hc)
          · by_contra hc
            push_neg at hc
            exact hl (Or.inr hc)
        · constructor
          · intro h; cases h
          · intro h; exact absurd hs h
        · constructor
          · intro h; cases h
          · rintro ⟨-, -, h⟩; exact absurd h hl
  · have hbad : strncmpIsZero header.fileSignature (ascii "ASTM-E57") 8 = false := by
      rw [← Bool.not_eq_true]
      exact fun hc => hs (hmagic.mp hc)
    rw [readFileHeader_bad_signature k _ header hbad]
    refine ⟨?_, ?_, ?_, proto⟩
    · constructor
      · intro h; cases h
      · intro h; exact absurd h.1 hs
    · exact ⟨fun _ => hs, fun _ => rfl⟩
    · constructor
      · intro h; cases h
      · intro h; exact absurd h.1 hs

theorem C15_readFileHeader_accepts_iff_witness :
    (readFileHeader sampleConstants 1024 sampleOpenEnv.header = .ok () ↔
      (sampleOpenEnv.header.fileSignature = ascii "ASTM-E57"
        ∧ ¬ VersionTooNew sampleConstants sampleOpenEnv.header
        ∧ sampleOpenEnv.header.filePhysicalLength = 1024
        ∧ (sampleOpenEnv.header.majorVersion = 0
          ∨ sampleOpenEnv.header.pageSize = sampleConstants.physicalPageSize)))
    ∧ (readFileHeader sampleConstants 1024 sampleOpenEnv.header
          = .error E57_ERROR_BAD_FILE_SIGNATURE ↔
      sampleOpenEnv.header.fileSignature ≠ ascii "ASTM-E57")
    ∧ (readFileHeader sampleConstants 1024 sampleOpenEnv.header
          = .error E57_ERROR_BAD_FILE_LENGTH ↔
      (sampleOpenEnv.header.fileSignature = ascii "ASTM-E57"
        ∧ ¬ VersionTooNew sampleConstants sampleOpenEnv.header
        ∧ (sampleOpenEnv.header.filePhysicalLength ≠ 1024
          ∨ (sampleOpenEnv.header.majorVersion ≠ 0
            ∧ sampleOpenEnv.header.pageSize ≠ sampleConstants.physicalPageSize))))
    ∧ (∀ pageSize, sampleOpenEnv.header.majorVersion = 0 →
        sampleOpenEnv.header.fileSignature = ascii "ASTM-E57" →
        ¬ VersionTooNew sampleConstants sampleOpenEnv.header →
        sampleOpenEnv.header.filePhysicalLength = 1024 →
        readFileHeader sampleConstants 1024 { sampleOpenEnv.header with pageSize := pageSize }
          = .ok ()) :=
  C15_readFileHeader_accepts_iff sampleConstants 1024 sampleOpenEnv.header (by decide)

/-- The examples of the length gate and of the prototype version: a wrong
recorded length or a wrong page size is `E57_ERROR_BAD_FILE_LENGTH`, and a
header of major version 0 is accepted with a page size that is not the constant. -/
theorem readFileHeader_examples :
    readFileHeader sampleConstants 1024 { sampleOpenEnv.header with filePhysicalLength := 1000 }
      = .error E57_ERROR_BAD_FILE_LENGTH
    ∧ readFileHeader sampleConstants 1024 { sampleOpenEnv.header with pageSize := 512 }
      = .error E57_ERROR_BAD_FILE_LENGTH
    ∧ readFileHeader sampleConstants 1024
        { sampleOpenEnv.header with majorVersion := 0, minorVersion := 7, pageSize := 512 }
      = .ok ()
    ∧ readFileHeader sampleConstants 1024
        { sampleOpenEnv.header with fileSignature := ascii "ASTM-E58" }
      = .error E57_ERROR_BAD_FILE_SIGNATURE := by
  decide

/-! ## Space allocation: proofs -/

/-- On a container that holds a file, or without `doExtendNow`, `allocateSpace`
returns: the offset is the cursor held before the call, the cursor afterwards
is the 64-bit sum, and the container holds a file exactly when it did before. -/
theorem allocateSpace_some (imf : ImageFileImpl) (byteCount : Nat) (e : Bool)
    (h : isOpen imf = true ∨ e = false) :
    ∃ imf1, allocateSpace imf byteCount e = some (imf.unusedLogicalStart_, imf1)
      ∧ imf1.unusedLogicalStart_
          = (imf.unusedLogicalStart_ + byteCount) % 18446744073709551616
      ∧ isOpen imf1 = isOpen imf := by
  unfold allocateSpace
  cases e with
  | false =>
    refine ⟨_, rfl, ?_, ?_⟩
    · rfl
    · rfl
  | true =>
    have ho : isOpen imf = true := by
      rcases h with h | h
      · exact h
      · cases h
    cases hf : imf.file_ with
    | none => simp [isOpen, hf] at ho
    | some file =>
      refine ⟨{ imf with
          unusedLogicalStart_ := (imf.unusedLogicalStart_ + byteCount) % 18446744073709551616,
          file_ := some (file.extend
            ((imf.unusedLogicalStart_ + byteCount) % 18446744073709551616)) }, ?_, rfl, ?_⟩
      · simp only [hf]
        rfl
      · simp [isOpen, hf]

/-- With `doExtendNow` on a container without a file the call has no result:
the code dereferences the null `file_`. -/
theorem allocateSpace_closed_extend (imf : ImageFileImpl) (byteCount : Nat)
    (h : isOpen imf = false) : allocateSpace imf byteCount true = none := by
  unfold allocateSpace
  cases hf : imf.file_ with
  | none => rfl
  | some file => simp [isOpen, hf] at h

theorem sum_take_le (l : List Nat) (i j : Nat) (h : i ≤ j) :
    (l.take i).sum ≤ (l.take j).sum := by
  induction l generalizing i j with
  | nil => simp
  | cons x xs ih =>
    cases i with
    | zero => simp
    | succ i =>
      cases j with
      | zero => omega
      | succ j =>
        simp only [List.take_succ_cons, List.sum_cons]
        have := ih i j (by omega)
        omega

/-- A run of allocations on a container that holds a file, or without
`doExtendNow`, whose byte counts, added to the cursor, stay below `2^64`,
returns one offset for each call: the cursor plus the byte counts of the calls
before. -/
theorem allocateAll_offsets (reqs : List (Nat × Bool)) :
    ∀ (imf : ImageFileImpl),
      (isOpen imf = true ∨ ∀ r ∈ reqs, r.2 = false) →
      imf.unusedLogicalStart_ + (reqs.map Prod.fst).sum < 18446744073709551616 →
      ∃ offsets imf1, allocateAll imf reqs = some (offsets, imf1)
        ∧ offsets.length = reqs.length
        ∧ ∀ i, i < reqs.length →
            offsets.get? i
              = some (imf.unusedLogicalStart_ + ((reqs.take i).map Prod.fst).sum) := by
  induction reqs with
  | nil =>
    intro imf _ _
    exact ⟨[], imf, rfl, rfl, fun i hi => by simp at hi⟩
  | cons r rest ih =>
    intro imf hopen hsum
    obtain ⟨n, e⟩ := r
    simp only [List.map_cons, List.sum_cons] at hsum
    have h1 : isOpen imf = true ∨ e = false := by
      rcases hopen with h | h
      · exact Or.inl h
      · exact Or.inr (h (n, e) (List.mem_cons_self _ _))
    obtain ⟨imf1, hcall, hcur, hop⟩ := allocateSpace_some imf n e h1
    have hc : imf1.unusedLogicalStart_ = imf.unusedLogicalStart_ + n := by
      rw [hcur]
      exact Nat.mod_eq_of_lt (by omega)
    have h2 : isOpen imf1 = true ∨ ∀ r ∈ rest, r.2 = false := by
      rcases hopen with h | h
      · exact Or.inl (by rw [hop]; exact h)
      · exact Or.inr (fun r hr => h r (List.mem_cons_of_mem _ hr))
    obtain ⟨offsets, imf2, hrun, hlen, hoff⟩ := ih imf1 h2 (by rw [hc]; omega)
    refine ⟨imf.unusedLogicalStart_ :: offsets, imf2, ?_, by simp [hlen], ?_⟩
    · unfold allocateAll
      simp only [hcall, hrun]
    · intro i hi
      cases i with
      | zero => simp
      | succ i =>
        simp only [List.get?_cons_succ, List.take_succ_cons, List.map_cons, List.sum_cons]
        rw [hoff i (by simpa using hi), hc]
        congr 1
        omega

/-- In a list of offsets that are the cursor plus the byte counts of the calls
before, the region of an earlier call ends where or before the offset of a
later call lies. -/
theorem offsets_ordered (reqs : List (Nat × Bool)) (start : Nat) (offsets : List Nat)
    (hlen : offsets.length = reqs.length)
    (hoff : ∀ i, i < reqs.length →
      offsets.get? i = some (start + ((reqs.take i).map Prod.fst).sum))
    (i j oi oj ni : Nat) (ei : Bool) (hij : i < j)
    (hi : offsets.get? i = some oi) (hj : offsets.get? j = some oj)
    (hn : reqs.get? i = some (ni, ei)) : oi + ni ≤ oj := by
  have hjl : j < reqs.length := by
    rw [← hlen]
    exact (List.get?_eq_some.mp hj).1
  have hil : i < reqs.length := by omega
  rw [hoff i hil] at hi
  rw [hoff j hjl] at hj
  injection hi with hi
  injection hj with hj
  have h1 : ((reqs.take (i + 1)).map Prod.fst).sum = ((reqs.take i).map Prod.fst).sum + ni := by
    rw [List.get?_eq_getElem?] at hn
    rw [List.take_succ, hn]
    simp
  have h2 := sum_take_le (reqs.map Prod.fst) (i + 1) j (by omega)
  rw [← List.map_take, ← List.map_take] at h2
  omega

/-- C17: on a container that holds a file, or with `doExtendNow = false`,
`allocateSpace` returns the cursor held before the call and leaves the cursor
at that value plus `byteCount` (a 64-bit sum), for either value of
`doExtendNow` on an open container. Hence, from the cursor 48 that `construct2`
sets and for byte counts whose sum stays below `2^64`, the run of calls returns
one offset for each call, the i-th offset is 48 plus the byte counts of the
calls before it, and the regions returned are pairwise disjoint;
`allocate(10)`, `allocate(20)`, `allocate(5)` on the open writer return
48, 58, 78. -/
theorem C17_allocateSpace (imf : ImageFileImpl) (reqs : List (Nat × Bool))
    (hopen : isOpen imf = true ∨ ∀ r ∈ reqs, r.2 = false)
    (hstart : imf.unusedLogicalStart_ = sizeofE57FileHeader)
    (hsum : sizeofE57FileHeader + (reqs.map Prod.fst).sum < 18446744073709551616) :
    (∀ (s : ImageFileImpl) (byteCount : Nat) (e : Bool), (isOpen s = true ∨ e = false) →
      ∃ s1, allocateSpace s byteCount e = some (s.unusedLogicalStart_, s1)
        ∧ s1.unusedLogicalStart_
            = (s.unusedLogicalStart_ + byteCount) % 18446744073709551616
        ∧ (s.unusedLogicalStart_ + byteCount < 18446744073709551616 →
            s1.unusedLogicalStart_ = s.unusedLogicalStart_ + byteCount))
    ∧ (∃ offsets imf1, allocateAll imf reqs = some (offsets, imf1)
        ∧ offsets.length = reqs.length
        ∧ (∀ i, i < reqs.length →
            offsets.get? i = some (48 + ((reqs.take i).map Prod.fst).sum))
        ∧ (∀ i j oi oj ni ei, i < j →
            offsets.get? i = some oi → offsets.get? j = some oj →
            reqs.get? i = some (ni, ei) →
            ∀ x, oi ≤ x ∧ x < oi + ni → ¬ (oj ≤ x)))
    ∧ sampleWriter.unusedLogicalStart_ = 48
    ∧ isOpen sampleWriter = true
    ∧ (allocateAll sampleWriter [(10, false), (20, false), (5, false)]).map Prod.fst
        = some [48, 58, 78]
    ∧ (allocateAll sampleWriter [(10, true), (20, true), (5, true)]).map Prod.fst
        = some [48, 58, 78] := by
  have hs : imf.unusedLogicalStart_ + (reqs.map Prod.fst).sum < 18446744073709551616 := by
    rw [hstart]; exact hsum
  refine ⟨?_, ?_, by decide, by decide, by decide, by decide⟩
  · intro s n e he
    obtain ⟨s1, hcall, hcur, _⟩ := allocateSpace_some s n e he
    refine ⟨s1, hcall, hcur, fun h => ?_⟩
    rw [hcur]
    exact Nat.mod_eq_of_lt h
  · obtain ⟨offsets, imf1, hrun, hlen, hoff⟩ := allocateAll_offsets reqs imf hopen hs
    refine ⟨offsets, imf1, hrun, hlen, ?_, ?_⟩
    · intro i hi
      rw [hoff i hi, hstart]
      rfl
    · intro i j oi oj ni ei hij hi hj hn x hx hc
      have := offsets_ordered reqs imf.unusedLogicalStart_ offsets hlen hoff
        i j oi oj ni ei hij hi hj hn
      omega

theorem C17_allocateSpace_witness :
    (∀ (s : ImageFileImpl) (byteCount : Nat) (e : Bool), (isOpen s = true ∨ e = false) →
      ∃ s1, allocateSpace s byteCount e = some (s.unusedLogicalStart_, s1)
        ∧ s1.unusedLogicalStart_
            = (s.unusedLogicalStart_ + byteCount) % 18446744073709551616
        ∧ (s.unusedLogicalStart_ + byteCount < 18446744073709551616 →
            s1.unusedLogicalStart_ = s.unusedLogicalStart_ + byteCount))
    ∧ (∃ offsets imf1,
        allocateAll sampleWriter [(10, false), (20, true), (5, false)] = some (offsets, imf1)
        ∧ offsets.length = [(10, false), (20, true), (5, false)].length
        ∧ (∀ i, i < [(10, false), (20, true), (5, false)].length →
            offsets.get? i
              = some (48 + (([(10, false), (20, true), (5, false)].take i).map Prod.fst).sum))
        ∧ (∀ i j oi oj ni ei, i < j →
            offsets.get? i = some oi → offsets.get? j = some oj →
            [(10, false), (20, true), (5, false)].get? i = some (ni, ei) →
            ∀ x, oi ≤ x ∧ x < oi + ni → ¬ (oj ≤ x)))
    ∧ sampleWriter.unusedLogicalStart_ = 48
    ∧ isOpen sampleWriter = true
    ∧ (allocateAll sampleWriter [(10, false), (20, false), (5, false)]).map Prod.fst
        = some [48, 58, 78]
    ∧ (allocateAll sampleWriter [(10, true), (20, true), (5, true)]).map Prod.fst
        = some [48, 58, 78] :=
  C17_allocateSpace sampleWriter [(10, false), (20, true), (5, false)] (Or.inl (by decide))
    (by decide) (by decide)

/-- C18, as stated, fails: on the open writer, from the cursor 48, a request of
`2^64 - 1` bytes wraps the 64-bit cursor to 47, below its value before the
call, and the third offset of the run, 57, lies inside the first region, which
starts at 48. -/
theorem C18_counterexample :
    isOpen sampleWriter = true
    ∧ sampleWriter.unusedLogicalStart_ = 48
    ∧ (allocateSpace sampleWriter 18446744073709551615 false).map
        (fun r => (r.1, r.2.unusedLogicalStart_)) = some (48, 47)
    ∧ ¬ (48 ≤ 47)
    ∧ (allocateAll sampleWriter
        [(18446744073709551615, false), (10, false), (1, false)]).map Prod.fst
        = some [48, 47, 57]
    ∧ (48 ≤ 57 ∧ 57 < 48 + 18446744073709551615) := by
  decide

/-- C18, amended: on a container that holds a file, or with
`doExtendNow = false`, when the cursor plus `byteCount` stays below `2^64`,
`allocateSpace` returns and the cursor after it is at least the cursor before
it; and a run of such calls whose byte counts, added to the cursor, stay below
`2^64` returns one offset for each call, and no offset returned by a later call
lies inside the region returned by an earlier one. -/
theorem C18_cursor_monotonic (imf : ImageFileImpl) (byteCount : Nat) (doExtendNow : Bool)
    (hcall : isOpen imf = true ∨ doExtendNow = false)
    (hno : imf.unusedLogicalStart_ + byteCount < 18446744073709551616)
    (reqs : List (Nat × Bool))
    (hopen : isOpen imf = true ∨ ∀ r ∈ reqs, r.2 = false)
    (hsum : imf.unusedLogicalStart_ + (reqs.map Prod.fst).sum < 18446744073709551616) :
    (∃ offset imf1, allocateSpace imf byteCount doExtendNow = some (offset, imf1)
      ∧ imf.unusedLogicalStart_ ≤ imf1.unusedLogicalStart_)
    ∧ (∃ offsets imf1, allocateAll imf reqs = some (offsets, imf1)
        ∧ offsets.length = reqs.length
        ∧ (∀ i j oi oj ni ei, i < j →
            offsets.get? i = some oi → offsets.get? j = some oj →
            reqs.get? i = some (ni, ei) → ¬ (oi ≤ oj ∧ oj < oi + ni))) := by
  constructor
  · obtain ⟨imf1, hc, hcur, _⟩ := allocateSpace_some imf byteCount doExtendNow hcall
    refine ⟨_, imf1, hc, ?_⟩
    rw [hcur, Nat.mod_eq_of_lt hno]
    omega
  · obtain ⟨offsets, imf1, hrun, hlen, hoff⟩ := allocateAll_offsets reqs imf hopen hsum
    refine ⟨offsets, imf1, hrun, hlen, ?_⟩
    intro i j oi oj ni ei hij hi hj hn hc
    have := offsets_ordered reqs imf.unusedLogicalStart_ offsets hlen hoff
      i j oi oj ni ei hij hi hj hn
    omega

theorem C18_cursor_monotonic_witness :
    (∃ offset imf1, allocateSpace sampleWriter 10 true = some (offset, imf1)
      ∧ sampleWriter.unusedLogicalStart_ ≤ imf1.unusedLogicalStart_)
    ∧ (∃ offsets imf1,
        allocateAll sampleWriter [(10, false), (20, true), (5, false)] = some (offsets, imf1)
        ∧ offsets.length = [(10, false), (20, true), (5, false)].length
        ∧ (∀ i j oi oj ni ei, i < j →
            offsets.get? i = some oi → offsets.get? j = some oj →
            [(10, false), (20, true), (5, false)].get? i = some (ni, ei) →
            ¬ (oi ≤ oj ∧ oj < oi + ni))) :=
  C18_cursor_monotonic sampleWriter 10 true (Or.inl (by decide)) (by decide)
    [(10, false), (20, true), (5, false)] (Or.inl (by decide)) (by decide)

/-! ## Lifecycle: proofs -/

/-- The file after `n` single spaces have been written at a position that is
within the file. -/
theorem write_spaces (n : Nat) : ∀ (file : CheckedFile),
    file.logicalPosition ≤ file.logicalLength →
    (Nat.iterate (fun f : CheckedFile => f.write (ascii " ")) n file)
      = { file with logicalPosition := file.logicalPosition + n,
                    logicalLength := max file.logicalLength (file.logicalPosition + n) } := by
  induction n with
  | zero =>
    intro file h
    simp only [Function.iterate_zero, id_eq, Nat.add_zero]
    rw [max_eq_left h]
  | succ n ih =>
    intro file h
    have h1 : (ascii " ").length = 1 := by decide
    rw [Function.iterate_succ_apply, ih (file.write (ascii " ")) (by
      simp only [CheckedFile.write, h1]
      exact le_max_right _ _)]
    simp only [CheckedFile.write, h1]
    congr 1
    · omega
    · omega

/-- The padding loop ends within four rounds, having written at most three
spaces, at a position whose distance from `xmlLogicalOffset` is a multiple of 4. -/
theorem padLoop_terminates (off : Nat) (file : CheckedFile) (ops : List FileOp) :
    ∃ n, n ≤ 3
      ∧ padLoop off 4 file ops
          = some (Nat.iterate (fun f : CheckedFile => f.write (ascii " ")) n file,
                  ops ++ List.replicate n (FileOp.write (ascii " ")))
      ∧ subUInt64 (file.logicalPosition + n) off % 4 = 0 := by
  have hpos : ∀ f : CheckedFile, (f.write (ascii " ")).logicalPosition = f.logicalPosition + 1 := by
    intro f; rfl
  by_cases h0 : subUInt64 file.logicalPosition off % 4 = 0
  · exact ⟨0, by omega, by simp [padLoop, h0], by simpa using h0⟩
  by_cases h1 : subUInt64 (file.logicalPosition + 1) off % 4 = 0
  · exact ⟨1, by omega, by simp [padLoop, h0, hpos, h1], h1⟩
  by_cases h2 : subUInt64 (file.logicalPosition + 1 + 1) off % 4 = 0
  · exact ⟨2, by omega, by simp [padLoop, h0, hpos, h1, h2, List.replicate], h2⟩
  have h3 : subUInt64 (file.logicalPosition + 1 + 1 + 1) off % 4 = 0 := by
    unfold subUInt64 at h0 h1 h2 ⊢
    omega
  exact ⟨3, by omega, by simp [padLoop, h0, hpos, h1, h2, h3, List.replicate], h3⟩

/-- `close` and `cancel` on a container without a file: nothing is done. -/
theorem close_cancel_released (k : Constants) (env : CloseEnv) (imf : ImageFileImpl)
    (h : imf.file_ = none) : close k env imf = some ([], imf) ∧ cancel imf = ([], imf) := by
  unfold close cancel
  rw [h]
  exact ⟨rfl, rfl⟩

/-- `close` of a reader releases the file and does nothing else. -/
theorem close_reader (k : Constants) (env : CloseEnv) (imf : ImageFileImpl) (file : CheckedFile)
    (hfile : imf.file_ = some file) (hr : imf.isWriter_ = false) :
    close k env imf = some ([FileOp.delete], { imf with file_ := none }) := by
  unfold close
  rw [hfile]
  simp [hr]

/-- `close` of a writer: the operations on the file, the header written and
the container left, with the number `n ≤ 3` of padding spaces that makes the
length of the XML section a multiple of 4. -/
theorem close_writer (k : Constants) (env : CloseEnv) (imf : ImageFileImpl) (file : CheckedFile)
    (hfile : imf.file_ = some file) (hw : imf.isWriter_ = true) :
    ∃ n, n ≤ 3
      ∧ subUInt64 (imf.unusedLogicalStart_ + xmlDeclaration.length + env.xml.length + n)
          imf.unusedLogicalStart_ % 4 = 0
      ∧ close k env imf = some
          ([FileOp.seek imf.unusedLogicalStart_, FileOp.write xmlDeclaration, FileOp.write env.xml]
            ++ List.replicate n (FileOp.write (ascii " "))
            ++ [FileOp.seek 0,
                FileOp.writeHeader
                  (writtenHeader k env imf.unusedLogicalStart_ file.logicalLength n),
                FileOp.close, FileOp.delete],
           { imf with
              xmlLogicalOffset_ := imf.unusedLogicalStart_,
              xmlLogicalLength_ :=
                subUInt64 (imf.unusedLogicalStart_ + xmlDeclaration.length + env.xml.length + n)
                  imf.unusedLogicalStart_,
              file_ := none }) := by
  obtain ⟨n, hn, hpad, hmod⟩ := padLoop_terminates imf.unusedLogicalStart_
    (((file.seek imf.unusedLogicalStart_).write xmlDeclaration).write env.xml)
    [FileOp.seek imf.unusedLogicalStart_, FileOp.write xmlDeclaration, FileOp.write env.xml]
  have hle : (((file.seek imf.unusedLogicalStart_).write xmlDeclaration).write
      env.xml).logicalPosition
      ≤ (((file.seek imf.unusedLogicalStart_).write xmlDeclaration).write env.xml).logicalLength := by
    simp only [CheckedFile.write]
    exact le_max_right _ _
  rw [write_spaces n _ hle] at hpad
  have hposn : (((file.seek imf.unusedLogicalStart_).write xmlDeclaration).write
      env.xml).logicalPosition
      = imf.unusedLogicalStart_ + xmlDeclaration.length + env.xml.length := by
    simp [CheckedFile.write, CheckedFile.seek]
  rw [hposn] at hmod
  refine ⟨n, hn, hmod, ?_⟩
  unfold close
  rw [hfile]
  simp only [hw, if_true]
  rw [hpad]
  simp only [hposn, writtenHeader]
  have hlen : max (((file.seek imf.unusedLogicalStart_).write xmlDeclaration).write
        env.xml).logicalLength
      (imf.unusedLogicalStart_ + xmlDeclaration.length + env.xml.length + n)
      = max file.logicalLength
          (imf.unusedLogicalStart_ + xmlDeclaration.length + env.xml.length + n) := by
    simp only [CheckedFile.write, CheckedFile.seek]
    omega
  rw [hlen]
  rfl

/-- The header that a writer `close` builds is accepted by `readFileHeader` on
a file of the physical length recorded in it. -/
theorem readFileHeader_writtenHeader (k : Constants) (env : CloseEnv) (cursor len n : Nat) :
    readFileHeader k (writtenHeader k env cursor len n).filePhysicalLength
      (writtenHeader k env cursor len n) = .ok () := by
  have hsig : strncmpIsZero (writtenHeader k env cursor len n).fileSignature
      (ascii "ASTM-E57") 8 = true := by
    have : (writtenHeader k env cursor len n).fileSignature = ascii "ASTM-E57" := rfl
    rw [this]
    decide
  rw [readFileHeader_of_signature k _ _ hsig]
  have hv : ¬ VersionTooNew k (writtenHeader k env cursor len n) := by
    unfold VersionTooNew writtenHeader
    simp
  rw [if_neg hv, if_neg]
  unfold writtenHeader
  simp

/-- The reader branch of `construct2` up to the run of the XML parser: with a
file that opens and a header that `readFileHeader` accepts, the parser runs on
a container that holds the offset and the length decoded from the header. -/
theorem construct2_reader (k : Constants) (oenv : OpenEnv) (rootNode : Nat)
    (imf0 : ImageFileImpl) (name : ustring) (f : CheckedFile)
    (hf : oenv.newCheckedFile = .ok f)
    (hh : readFileHeader k oenv.physicalLength oenv.header = .ok ()) :
    construct2 k oenv rootNode imf0 name (ascii "r") =
      match oenv.parse { imf0 with
          fileName_ := name, isWriter_ := false, file_ := some f, root_ := some rootNode,
          unusedLogicalStart_ := sizeofE57FileHeader,
          xmlLogicalOffset_ := oenv.physicalToLogical oenv.header.xmlPhysicalOffset,
          xmlLogicalLength_ := oenv.header.xmlLogicalLength } with
      | (.error e, t) => (.error e, { t with file_ := none })
      | (.ok _, t) => (.ok (), t) := by
  unfold construct2
  have h1 : ¬ (ascii "r" = ascii "w") := by decide
  simp only [h1, if_false, if_true, hf, hh]

/-- C16: the header that a writer `close` builds carries the signature
"ASTM-E57", the supported major and minor version, the measured physical
length of the file, the physical offset of the allocation cursor, the recorded
XML length and the page-size constant; `readFileHeader` accepts it on a file of
that physical length, and on reopening such a file `construct2` hands the
decoded XML offset and length to the parser. -/
theorem C16_header_round_trip (k : Constants) (env : CloseEnv) (imf : ImageFileImpl)
    (file : CheckedFile) (hfile : imf.file_ = some file) (hw : imf.isWriter_ = true) :
    ∃ n ops imf1 header, n ≤ 3
      ∧ close k env imf = some (ops, imf1)
      ∧ (∀ h, FileOp.writeHeader h ∈ ops ↔ h = header)
      ∧ header = writtenHeader k env imf.unusedLogicalStart_ file.logicalLength n
      ∧ header.fileSignature = ascii "ASTM-E57"
      ∧ header.majorVersion = k.E57_FORMAT_MAJOR
      ∧ header.minorVersion = k.E57_FORMAT_MINOR
      ∧ header.pageSize = k.physicalPageSize
      ∧ header.xmlPhysicalOffset = env.logicalToPhysical imf.unusedLogicalStart_
      ∧ header.xmlLogicalLength = imf1.xmlLogicalLength_
      ∧ imf1.xmlLogicalOffset_ = imf.unusedLogicalStart_
      ∧ readFileHeader k header.filePhysicalLength header = .ok ()
      ∧ (∀ (oenv : OpenEnv) (rootNode : Nat) (imf0 : ImageFileImpl) (name : ustring)
          (f : CheckedFile), oenv.newCheckedFile = .ok f → oenv.header = header →
          oenv.physicalLength = header.filePhysicalLength →
          ∃ s, s.xmlLogicalOffset_ = oenv.physicalToLogical header.xmlPhysicalOffset
            ∧ s.xmlLogicalLength_ = header.xmlLogicalLength
            ∧ s.file_ = some f
            ∧ construct2 k oenv rootNode imf0 name (ascii "r") =
                match oenv.parse s with
                | (.error e, t) => (.error e, { t with file_ := none })
                | (.ok _, t) => (.ok (), t)) := by
  obtain ⟨n, hn, -, hclose⟩ := close_writer k env imf file hfile hw
  refine ⟨n, _, _, writtenHeader k env imf.unusedLogicalStart_ file.logicalLength n, hn, hclose,
    ?_, rfl, rfl, rfl, rfl, rfl, rfl, rfl, rfl, readFileHeader_writtenHeader k env _ _ n, ?_⟩
  · intro h
    simp only [List.mem_append, List.mem_cons, List.mem_replicate, List.mem_singleton,
      List.not_mem_nil, reduceCtorEq, FileOp.writeHeader.injEq, false_or, or_false, and_false]
  · intro oenv rootNode imf0 name f hf hh hl
    have hacc : readFileHeader k oenv.physicalLength oenv.header = .ok () := by
      rw [hl, hh]
      exact readFileHeader_writtenHeader k env _ _ n
    refine ⟨_, ?_, ?_, ?_, construct2_reader k oenv rootNode imf0 name f hf hacc⟩
    · simp only [hh]
    · simp only [hh]
    · rfl

theorem C16_header_round_trip_witness :
    ∃ n ops imf1 header, n ≤ 3
      ∧ close sampleConstants sampleCloseEnv sampleWriter = some (ops, imf1)
      ∧ (∀ h, FileOp.writeHeader h ∈ ops ↔ h = header)
      ∧ header = writtenHeader sampleConstants sampleCloseEnv sampleWriter.unusedLogicalStart_
          sampleFile.logicalLength n
      ∧ header.fileSignature = ascii "ASTM-E57"
      ∧ header.majorVersion = sampleConstants.E57_FORMAT_MAJOR
      ∧ header.minorVersion = sampleConstants.E57_FORMAT_MINOR
      ∧ header.pageSize = sampleConstants.physicalPageSize
      ∧ header.xmlPhysicalOffset
          = sampleCloseEnv.logicalToPhysical sampleWriter.unusedLogicalStart_
      ∧ header.xmlLogicalLength = imf1.xmlLogicalLength_
      ∧ imf1.xmlLogicalOffset_ = sampleWriter.unusedLogicalStart_
      ∧ readFileHeader sampleConstants header.filePhysicalLength header = .ok ()
      ∧ (∀ (oenv : OpenEnv) (rootNode : Nat) (imf0 : ImageFileImpl) (name : ustring)
          (f : CheckedFile), oenv.newCheckedFile = .ok f → oenv.header = header →
          oenv.physicalLength = header.filePhysicalLength →
          ∃ s, s.xmlLogicalOffset_ = oenv.physicalToLogical header.xmlPhysicalOffset
            ∧ s.xmlLogicalLength_ = header.xmlLogicalLength
            ∧ s.file_ = some f
            ∧ construct2 sampleConstants oenv rootNode imf0 name (ascii "r") =
                match oenv.parse s with
                | (.error e, t) => (.error e, { t with file_ := none })
                | (.ok _, t) => (.ok (), t)) :=
  C16_header_round_trip sampleConstants sampleCloseEnv sampleWriter sampleFile (by decide)
    (by decide)

/-- The header of the example: written by `close` and read back on reopening. -/
theorem sample_round_trip :
    (close sampleConstants sampleCloseEnv sampleWriter).map (fun r => r.1)
      = some [FileOp.seek 48, FileOp.write xmlDeclaration, FileOp.write (ascii "<e57Root/>"),
          FileOp.write (ascii " "), FileOp.write (ascii " "), FileOp.write (ascii " "),
          FileOp.seek 0, FileOp.writeHeader sampleOpenEnv.header, FileOp.close, FileOp.delete]
    ∧ (construct2 sampleConstants sampleOpenEnv 0 (construct1 100) (ascii "scan.e57")
        (ascii "r")).1 = .ok ()
    ∧ (construct2 sampleConstants sampleOpenEnv 0 (construct1 100) (ascii "scan.e57")
        (ascii "r")).2.xmlLogicalLength_ = 52 := by
  decide

/-- What `close` leaves and does on an open container: the file is released,
the name is kept, and the file is not unlinked. -/
theorem close_open (k : Constants) (env : CloseEnv) (imf : ImageFileImpl)
    (hopen : isOpen imf = true) :
    ∃ ops imf1, close k env imf = some (ops, imf1) ∧ imf1.file_ = none
      ∧ imf1.fileName_ = imf.fileName_ ∧ FileOp.unlink ∉ ops := by
  cases hfile : imf.file_ with
  | none => simp [isOpen, hfile] at hopen
  | some file =>
    cases hw : imf.isWriter_ with
    | false =>
      refine ⟨_, _, close_reader k env imf file hfile hw, rfl, rfl, ?_⟩
      simp
    | true =>
      obtain ⟨n, -, -, hclose⟩ := close_writer k env imf file hfile hw
      refine ⟨_, _, hclose, rfl, rfl, ?_⟩
      simp only [List.mem_append, List.mem_cons, List.mem_replicate, List.mem_singleton,
        List.not_mem_nil, reduceCtorEq, false_or, or_false, and_false, not_false_eq_true]

/-- What `cancel` leaves and does on any container. -/
theorem cancel_spec (imf : ImageFileImpl) :
    (cancel imf).2.file_ = none ∧ (cancel imf).2.fileName_ = imf.fileName_
    ∧ ∀ op ∈ (cancel imf).1, op = FileOp.unlink ∨ op = FileOp.close ∨ op = FileOp.delete := by
  unfold cancel
  cases hfile : imf.file_ with
  | none => exact ⟨hfile, rfl, by simp⟩
  | some file =>
    refine ⟨rfl, rfl, ?_⟩
    intro op hop
    cases hw : imf.isWriter_ <;> simp [hw] at hop <;> rcases hop with h | h <;> simp [h]

/-- C19: after `close()` or `cancel()` has run on an open container, `isOpen()`
is false, and a further `close()` or `cancel()` returns the container as it is
and performs no operation on the file resource: `cancel()` after `close()` does
not unlink the file (nor does `close()` itself), and `close()` after `cancel()`
writes nothing. -/
theorem C19_close_cancel_released (k : Constants) (env env2 : CloseEnv) (imf : ImageFileImpl)
    (hopen : isOpen imf = true) :
    (∃ ops imf1, close k env imf = some (ops, imf1)
      ∧ FileOp.unlink ∉ ops
      ∧ isOpen imf1 = false
      ∧ close k env2 imf1 = some ([], imf1)
      ∧ cancel imf1 = ([], imf1))
    ∧ (isOpen (cancel imf).2 = false
      ∧ close k env2 (cancel imf).2 = some ([], (cancel imf).2)
      ∧ cancel (cancel imf).2 = ([], (cancel imf).2)) := by
  constructor
  · obtain ⟨ops, imf1, hclose, hnone, -, hun⟩ := close_open k env imf hopen
    obtain ⟨h1, h2⟩ := close_cancel_released k env2 imf1 hnone
    exact ⟨ops, imf1, hclose, hun, by simp [isOpen, hnone], h1, h2⟩
  · obtain ⟨hnone, -, -⟩ := cancel_spec imf
    obtain ⟨h1, h2⟩ := close_cancel_released k env2 (cancel imf).2 hnone
    exact ⟨by simp [isOpen, hnone], h1, h2⟩

theorem C19_close_cancel_released_witness :
    (∃ ops imf1, close sampleConstants sampleCloseEnv sampleWriter = some (ops, imf1)
      ∧ FileOp.unlink ∉ ops
      ∧ isOpen imf1 = false
      ∧ close sampleConstants sampleCloseEnv imf1 = some ([], imf1)
      ∧ cancel imf1 = ([], imf1))
    ∧ (isOpen (cancel sampleWriter).2 = false
      ∧ close sampleConstants sampleCloseEnv (cancel sampleWriter).2
          = some ([], (cancel sampleWriter).2)
      ∧ cancel (cancel sampleWriter).2 = ([], (cancel sampleWriter).2)) :=
  C19_close_cancel_released sampleConstants sampleCloseEnv sampleCloseEnv sampleWriter
    (by decide)

/-- The operations of `cancel` on the example: a writer's file is unlinked, a
reader's file is closed. -/
theorem cancel_examples :
    (cancel sampleWriter).1 = [FileOp.unlink, FileOp.delete]
    ∧ (cancel (openImageFile [])).1 = [FileOp.close, FileOp.delete] := by
  decide

theorem checkImageFileOpen_of_closed (imf : ImageFileImpl) (h : imf.file_ = none) :
    checkImageFileOpen imf = .error E57_ERROR_IMAGEFILE_NOT_OPEN := by
  simp [checkImageFileOpen, isOpen, h]

/-- The writer branch of `construct2` records the name it is given. -/
theorem construct2_writer_fileName (k : Constants) (oenv : OpenEnv) (rootNode : Nat)
    (imf0 : ImageFileImpl) (name : ustring) :
    (construct2 k oenv rootNode imf0 name (ascii "w")).2.fileName_ = name := by
  unfold construct2
  simp only [if_true]
  cases oenv.newCheckedFile <;> rfl

/-- C20: on a container whose file is absent, `root`, `extensionsAdd`,
`extensionsLookupPrefix`, `extensionsLookupUri`, `extensionsCount`,
`extensionsPrefix` and `extensionsUri` fail with `E57_ERROR_IMAGEFILE_NOT_OPEN`
for every argument, `extensionsAdd` returning the container unchanged (the
others have nothing to assign), while `fileName` returns the stored name. A
container is in that state when it has never been opened, after `close` and
after `cancel`, and the name stored is the one that `construct2` was given. -/
theorem C20_not_open (imf : ImageFileImpl) (hclosed : imf.file_ = none)
    (pfx uri d : ustring) (index : Nat) :
    root imf = .error E57_ERROR_IMAGEFILE_NOT_OPEN
    ∧ extensionsAdd imf pfx uri = (.error E57_ERROR_IMAGEFILE_NOT_OPEN, imf)
    ∧ extensionsLookupPrefix imf pfx d = .error E57_ERROR_IMAGEFILE_NOT_OPEN
    ∧ extensionsLookupUri imf uri d = .error E57_ERROR_IMAGEFILE_NOT_OPEN
    ∧ extensionsCount imf = .error E57_ERROR_IMAGEFILE_NOT_OPEN
    ∧ extensionsPrefix imf index = .error E57_ERROR_IMAGEFILE_NOT_OPEN
    ∧ extensionsUri imf index = .error E57_ERROR_IMAGEFILE_NOT_OPEN
    ∧ fileName imf = imf.fileName_
    ∧ (∀ policy, (construct1 policy).file_ = none)
    ∧ (∀ (k : Constants) (env : CloseEnv) (s : ImageFileImpl), isOpen s = true →
        ∃ ops s1, close k env s = some (ops, s1) ∧ s1.file_ = none
          ∧ fileName s1 = fileName s)
    ∧ (∀ s : ImageFileImpl, (cancel s).2.file_ = none ∧ fileName (cancel s).2 = fileName s)
    ∧ (∀ (k : Constants) (oenv : OpenEnv) (rootNode : Nat) (imf0 : ImageFileImpl)
        (name : ustring),
        fileName (construct2 k oenv rootNode imf0 name (ascii "w")).2 = name) := by
  have hc := checkImageFileOpen_of_closed imf hclosed
  refine ⟨?_, ?_, ?_, ?_, ?_, ?_, ?_, rfl, fun _ => rfl, ?_, ?_, ?_⟩
  · unfold root; rw [hc]
  · exact extensionsAdd_closed imf (by simp [isOpen, hclosed]) pfx uri
  · unfold extensionsLookupPrefix; rw [hc]
  · unfold extensionsLookupUri; rw [hc]
  · unfold extensionsCount; rw [hc]
  · unfold extensionsPrefix; rw [hc]
  · unfold extensionsUri; rw [hc]
  · intro k env s hs
    obtain ⟨ops, s1, h1, h2, h3, -⟩ := close_open k env s hs
    exact ⟨ops, s1, h1, h2, h3⟩
  · intro s
    exact ⟨(cancel_spec s).1, (cancel_spec s).2.1⟩
  · intro k oenv rootNode imf0 name
    exact construct2_writer_fileName k oenv rootNode imf0 name

theorem C20_not_open_witness :
    root (cancel sampleWriter).2 = .error E57_ERROR_IMAGEFILE_NOT_OPEN
    ∧ extensionsAdd (cancel sampleWriter).2 (ascii "a") (ascii "urn:x")
        = (.error E57_ERROR_IMAGEFILE_NOT_OPEN, (cancel sampleWriter).2)
    ∧ extensionsLookupPrefix (cancel sampleWriter).2 (ascii "a") []
        = .error E57_ERROR_IMAGEFILE_NOT_OPEN
    ∧ extensionsLookupUri (cancel sampleWriter).2 (ascii "urn:x") []
        = .error E57_ERROR_IMAGEFILE_NOT_OPEN
    ∧ extensionsCount (cancel sampleWriter).2 = .error E57_ERROR_IMAGEFILE_NOT_OPEN
    ∧ extensionsPrefix (cancel sampleWriter).2 0 = .error E57_ERROR_IMAGEFILE_NOT_OPEN
    ∧ extensionsUri (cancel sampleWriter).2 0 = .error E57_ERROR_IMAGEFILE_NOT_OPEN
    ∧ fileName (cancel sampleWriter).2 = (cancel sampleWriter).2.fileName_
    ∧ (∀ policy, (construct1 policy).file_ = none)
    ∧ (∀ (k : Constants) (env : CloseEnv) (s : ImageFileImpl), isOpen s = true →
        ∃ ops s1, close k env s = some (ops, s1) ∧ s1.file_ = none
          ∧ fileName s1 = fileName s)
    ∧ (∀ s : ImageFileImpl, (cancel s).2.file_ = none ∧ fileName (cancel s).2 = fileName s)
    ∧ (∀ (k : Constants) (oenv : OpenEnv) (rootNode : Nat) (imf0 : ImageFileImpl)
        (name : ustring),
        fileName (construct2 k oenv rootNode imf0 name (ascii "w")).2 = name) :=
  C20_not_open (cancel sampleWriter).2 (by decide) (ascii "a") (ascii "urn:x") [] 0

/-- The name of the example container is still reported after `cancel`. -/
theorem fileName_after_cancel : fileName (cancel sampleWriter).2 = ascii "scan.e57" := by
  decide

/-! ## Padding of the XML section: proofs -/

/-- The length that a writer `close` records for an XML section that starts at
`cursor` and ends `len` bytes later: the 64-bit difference of the two positions. -/
theorem subUInt64_add (cursor len : Nat) :
    subUInt64 (cursor + len) cursor = len % 18446744073709551616 := by
  unfold subUInt64
  have : cursor + len + 18446744073709551616 - cursor = len + 18446744073709551616 := by omega
  rw [this]
  omega

/-- C21, as stated, fails: with the allocation cursor at 49 (one byte allocated
after the header) `close` records an XML section that starts at 49 and is 52
bytes long, so that it ends at 101, which is not a multiple of 4. -/
theorem C21_counterexample :
    allocateSpace sampleWriter 1 false = some (48, sampleWriter49)
    ∧ sampleWriter49.unusedLogicalStart_ = 49
    ∧ (close sampleConstants sampleCloseEnv sampleWriter49).map
        (fun r => (r.2.xmlLogicalOffset_, r.2.xmlLogicalLength_)) = some (49, 52)
    ∧ ¬ ((49 + 52) % 4 = 0) := by
  decide

/-- C21, amended: a writer `close` pads the XML section with single spaces
until the distance of the logical write position from the start of the section
is a multiple of 4. For every allocation cursor and every XML text, after
`close` the recorded `xmlLogicalLength_` is a multiple of 4, and the end
position `xmlLogicalOffset_ + xmlLogicalLength_` is a multiple of 4 exactly
when the allocation cursor is one. -/
theorem C21_padding_end_position (k : Constants) (env : CloseEnv) (imf : ImageFileImpl)
    (file : CheckedFile) (hfile : imf.file_ = some file) (hw : imf.isWriter_ = true) :
    ∃ ops imf1, close k env imf = some (ops, imf1)
      ∧ imf1.xmlLogicalOffset_ = imf.unusedLogicalStart_
      ∧ imf1.xmlLogicalLength_ % 4 = 0
      ∧ ((imf1.xmlLogicalOffset_ + imf1.xmlLogicalLength_) % 4 = 0 ↔
          imf.unusedLogicalStart_ % 4 = 0) := by
  obtain ⟨n, -, hmod, hclose⟩ := close_writer k env imf file hfile hw
  refine ⟨_, _, hclose, rfl, hmod, ?_⟩
  show (imf.unusedLogicalStart_ + subUInt64 _ imf.unusedLogicalStart_) % 4 = 0 ↔ _
  omega

theorem C21_padding_end_position_witness :
    ∃ ops imf1, close sampleConstants sampleCloseEnv sampleWriter = some (ops, imf1)
      ∧ imf1.xmlLogicalOffset_ = sampleWriter.unusedLogicalStart_
      ∧ imf1.xmlLogicalLength_ % 4 = 0
      ∧ ((imf1.xmlLogicalOffset_ + imf1.xmlLogicalLength_) % 4 = 0 ↔
          sampleWriter.unusedLogicalStart_ % 4 = 0) :=
  C21_padding_end_position sampleConstants sampleCloseEnv sampleWriter sampleFile (by decide)
    (by decide)

/-- C24: in a writer `close`, every written byte advancing the logical position
by one, the padding loop ends after writing `n ≤ 3` single spaces, whatever the
allocation cursor and the length of the XML declaration plus the XML text are.
The recorded `xmlLogicalLength_`, which is also the `xmlLogicalLength` of the
header written, is the number of bytes of declaration, XML text and padding (as
a 64-bit value) and is a multiple of 4. -/
theorem C24_padding_length (k : Constants) (env : CloseEnv) (imf : ImageFileImpl)
    (file : CheckedFile) (hfile : imf.file_ = some file) (hw : imf.isWriter_ = true) :
    ∃ n ops imf1 header, n ≤ 3
      ∧ close k env imf = some (ops, imf1)
      ∧ ops = [FileOp.seek imf.unusedLogicalStart_, FileOp.write xmlDeclaration,
                FileOp.write env.xml]
              ++ List.replicate n (FileOp.write (ascii " "))
              ++ [FileOp.seek 0, FileOp.writeHeader header, FileOp.close, FileOp.delete]
      ∧ imf1.xmlLogicalLength_
          = (xmlDeclaration.length + env.xml.length + n) % 18446744073709551616
      ∧ (xmlDeclaration.length + env.xml.length + n < 18446744073709551616 →
          imf1.xmlLogicalLength_ = xmlDeclaration.length + env.xml.length + n)
      ∧ header.xmlLogicalLength = imf1.xmlLogicalLength_
      ∧ imf1.xmlLogicalLength_ % 4 = 0 := by
  obtain ⟨n, hn, hmod, hclose⟩ := close_writer k env imf file hfile hw
  have hlen : subUInt64 (imf.unusedLogicalStart_ + xmlDeclaration.length + env.xml.length + n)
      imf.unusedLogicalStart_
      = (xmlDeclaration.length + env.xml.length + n) % 18446744073709551616 := by
    rw [← subUInt64_add imf.unusedLogicalStart_ (xmlDeclaration.length + env.xml.length + n)]
    congr 1
    omega
  refine ⟨n, _, _, writtenHeader k env imf.unusedLogicalStart_ file.logicalLength n, hn, hclose,
    rfl, hlen, ?_, rfl, hmod⟩
  intro hlt
  show subUInt64 _ _ = _
  rw [hlen]
  exact Nat.mod_eq_of_lt hlt

theorem C24_padding_length_witness :
    ∃ n ops imf1 header, n ≤ 3
      ∧ close sampleConstants sampleCloseEnv sampleWriter49
          = some (ops, imf1)
      ∧ ops = [FileOp.seek sampleWriter49.unusedLogicalStart_,
                FileOp.write xmlDeclaration, FileOp.write sampleCloseEnv.xml]
              ++ List.replicate n (FileOp.write (ascii " "))
              ++ [FileOp.seek 0, FileOp.writeHeader header, FileOp.close, FileOp.delete]
      ∧ imf1.xmlLogicalLength_
          = (xmlDeclaration.length + sampleCloseEnv.xml.length + n) % 18446744073709551616
      ∧ (xmlDeclaration.length + sampleCloseEnv.xml.length + n < 18446744073709551616 →
          imf1.xmlLogicalLength_ = xmlDeclaration.length + sampleCloseEnv.xml.length + n)
      ∧ header.xmlLogicalLength = imf1.xmlLogicalLength_
      ∧ imf1.xmlLogicalLength_ % 4 = 0 :=
  C24_padding_length sampleConstants sampleCloseEnv sampleWriter49
    sampleFile (by decide) (by decide)

/-! ## Parsing and unparsing a path: proofs -/

/-- `pathNameUnparse` on a list that its counter can index: the optional
leading separator and the fields joined by separators. -/
theorem pathNameUnparse_join (isRelative : Bool) (fields : List ustring)
    (hlen : fields.length < 4294967296) :
    pathNameUnparse isRelative fields
      = some ((if isRelative then [] else ['/'.toNat]) ++ ['/'.toNat].intercalate fields) := by
  unfold pathNameUnparse
  have := pathNameUnparseLoop_eq fields [] (fields.length + 1)
    (if !isRelative then ['/'.toNat] else []) (by simpa using hlen) (by omega)
  simp only [List.nil_append, List.length_nil] at this
  rw [this]
  cases isRelative <;> rfl

/-- What an accepted path parses to: nothing after a lone leading separator,
and otherwise the '/'-separated pieces of the path without its leading
separator, the flag telling whether there was one. -/
theorem pathNameParse_ok (imf : ImageFileImpl) (d : Bool) (path : ustring) (isRelative : Bool)
    (fields : List ustring) (h : pathNameParse imf d path = .ok (isRelative, fields)) :
    (path = ['/'.toNat] ∧ isRelative = false ∧ fields = [])
    ∨ (∃ rest, rest ≠ [] ∧ path = '/'.toNat :: rest ∧ isRelative = false
        ∧ fields = rest.splitOn '/'.toNat)
    ∨ (path ≠ [] ∧ isRelative = true ∧ fields = path.splitOn '/'.toNat) := by
  rw [pathNameParse_eq] at h
  cases path with
  | nil => simp at h
  | cons x xs =>
    by_cases hx : x = '/'.toNat
    · subst hx
      simp only [List.head?_cons, if_true, List.tail_cons] at h
      split_ifs at h with h1 h2
      · injection h with h
        injection h with e1 e2
        exact Or.inl ⟨by rw [h1], e1.symm, e2.symm⟩
      · injection h with h
        injection h with e1 e2
        exact Or.inr (Or.inl ⟨xs, h1, rfl, e1.symm, e2.symm⟩)
    · have hh : ¬ ((x :: xs).head? = some '/'.toNat) := by simpa using hx
      rw [if_neg hh] at h
      split_ifs at h with h1 h2
      · exact absurd h1 (by simp)
      · injection h with h
        injection h with e1 e2
        exact Or.inr (Or.inr ⟨by simp, e1.symm, e2.symm⟩)

/-- Unparsing what an accepted path parsed to gives the path back, when the
counter of `pathNameUnparse` can index the fields. -/
theorem pathNameParse_unparse (imf : ImageFileImpl) (d : Bool) (path : ustring)
    (isRelative : Bool) (fields : List ustring)
    (h : pathNameParse imf d path = .ok (isRelative, fields))
    (hlen : fields.length < 4294967296) :
    pathNameUnparse isRelative fields = some path := by
  rw [pathNameUnparse_join isRelative fields hlen]
  rcases pathNameParse_ok imf d path isRelative fields h with
    ⟨hp, hr, hf⟩ | ⟨rest, -, hp, hr, hf⟩ | ⟨-, hr, hf⟩
  · rw [hp, hr, hf]
    rfl
  · rw [hp, hr, hf, List.intercalate_splitOn]
    rfl
  · rw [hr, hf, List.intercalate_splitOn]
    rfl

/-- C22, as stated, fails: no accepted path with fewer than `2^32` fields
differs from the unparsing of its parse, and the paths of the kind the claim
names, "a/b/" and "/foo/", which end in a separator and are accepted on an open
container, parse to fields that end in an empty field and unparse to the very
same path. -/
theorem C22_counterexample :
    (¬ ∃ (imf : ImageFileImpl) (d : Bool) (path : ustring) (isRelative : Bool)
        (fields : List ustring), path.getLast? = some '/'.toNat
        ∧ pathNameParse imf d path = .ok (isRelative, fields)
        ∧ fields.length < 4294967296
        ∧ pathNameUnparse isRelative fields ≠ some path)
    ∧ pathNameParse (openImageFile []) false (ascii "a/b/")
        = .ok (true, [ascii "a", ascii "b", ascii ""])
    ∧ pathNameUnparse true [ascii "a", ascii "b", ascii ""] = some (ascii "a/b/")
    ∧ pathNameParse (openImageFile []) true (ascii "/foo/")
        = .ok (false, [ascii "foo", ascii ""])
    ∧ pathNameUnparse false [ascii "foo", ascii ""] = some (ascii "/foo/") := by
  refine ⟨?_, by decide, by decide, by decide, by decide⟩
  rintro ⟨imf, d, path, isRelative, fields, -, h, hlen, hne⟩
  exact hne (pathNameParse_unparse imf d path isRelative fields h hlen)

/-- C22, amended: `pathNameParse` and `pathNameUnparse` are inverse to each
other on paths that end in a separator too. For every path ending in '/' that
`pathNameParse` accepts, the parsed fields are empty (the path is "/") or end
in an empty field, and `pathNameUnparse` applied to the parsed flag and fields
gives the original path back; the trailing separator is not lost. The fields
are fewer than `2^32`, the range of the counter of `pathNameUnparse`. -/
theorem C22_trailing_separator_kept (imf : ImageFileImpl) (d : Bool) (path : ustring)
    (isRelative : Bool) (fields : List ustring)
    (hend : path.getLast? = some '/'.toNat)
    (h : pathNameParse imf d path = .ok (isRelative, fields))
    (hlen : fields.length < 4294967296) :
    ((path = ['/'.toNat] ∧ fields = []) ∨ fields.getLast? = some [])
    ∧ pathNameUnparse isRelative fields = some path := by
  refine ⟨?_, pathNameParse_unparse imf d path isRelative fields h hlen⟩
  rcases pathNameParse_ok imf d path isRelative fields h with
    ⟨hp, -, hf⟩ | ⟨rest, hne, hp, -, hf⟩ | ⟨hne, -, hf⟩
  · exact Or.inl ⟨hp, hf⟩
  · right
    rw [hf, splitOn_getLast_nil_iff rest hne]
    rw [hp] at hend
    cases rest with
    | nil => exact absurd rfl hne
    | cons y ys => rw [List.getLast?_cons_cons] at hend; exact hend
  · right
    rw [hf, splitOn_getLast_nil_iff path hne]
    exact hend

theorem C22_trailing_separator_kept_witness :
    ((ascii "/data3D/points/" = ['/'.toNat] ∧ [ascii "data3D", ascii "points", ascii ""] = [])
      ∨ [ascii "data3D", ascii "points", ascii ""].getLast? = some [])
    ∧ pathNameUnparse false [ascii "data3D", ascii "points", ascii ""]
        = some (ascii "/data3D/points/") :=
  C22_trailing_separator_kept (openImageFile []) false (ascii "/data3D/points/") false
    [ascii "data3D", ascii "points", ascii ""] (by decide) (by decide) (by decide)

/-- C23: for every path that `pathNameParse` accepts (on any container, with
any registry and either default of `allowNumber`), `pathNameUnparse` applied to
the parsed flag and fields returns the path, the fields being fewer than
`2^32`, the range of the counter of `pathNameUnparse`. This includes "/" and
the accepted paths that end in a separator, such as "a/b/". -/
theorem C23_parse_unparse_round_trip (imf : ImageFileImpl) (allowNumberDefault : Bool)
    (path : ustring) (isRelative : Bool) (fields : List ustring)
    (h : pathNameParse imf allowNumberDefault path = .ok (isRelative, fields))
    (hlen : fields.length < 4294967296) :
    pathNameUnparse isRelative fields = some path
    ∧ pathNameParse (openImageFile []) allowNumberDefault (ascii "/") = .ok (false, [])
    ∧ pathNameUnparse false [] = some (ascii "/")
    ∧ pathNameParse (openImageFile []) allowNumberDefault (ascii "a/b/")
        = .ok (true, [ascii "a", ascii "b", ascii ""])
    ∧ pathNameUnparse true [ascii "a", ascii "b", ascii ""] = some (ascii "a/b/") := by
  refine ⟨pathNameParse_unparse imf allowNumberDefault path isRelative fields h hlen,
    ?_, by decide, ?_, by decide⟩ <;> cases allowNumberDefault <;> decide

theorem C23_parse_unparse_round_trip_witness :
    pathNameUnparse true [ascii "las:points", ascii "x"] = some (ascii "las:points/x")
    ∧ pathNameParse (openImageFile []) true (ascii "/") = .ok (false, [])
    ∧ pathNameUnparse false [] = some (ascii "/")
    ∧ pathNameParse (openImageFile []) true (ascii "a/b/")
        = .ok (true, [ascii "a", ascii "b", ascii ""])
    ∧ pathNameUnparse true [ascii "a", ascii "b", ascii ""] = some (ascii "a/b/") :=
  C23_parse_unparse_round_trip (openImageFile [⟨ascii "las", ascii "urn:las"⟩]) true
    (ascii "las:points/x") true [ascii "las:points", ascii "x"] (by decide) (by decide)

end e57
